import Mathlib

/-!
# Menus.cpp: separator bookkeeping of the menu visitor and the command-flag engine

A shallow embedding of `src/Menus.cpp`.

* `MenuTable.VisitorBase` holds the two `std::vector<bool>` stacks
  `needSeparator` and `firstItem`.  A vector used as a stack is a list whose
  head is `back()`: `push_back` is cons, `pop_back` drops the head.  Reading
  `back()` of an empty vector, or `pop_back()` on one, is undefined behaviour
  in C++ and is `none` here.
* `CommandFlag` is `std::bitset<NCommandFlags>`, embedded as the natural number
  with the same bits; the width is needed only by `~`.
* `MenuManager` carries, next to the fields the code reads and writes, the list
  of calls made to its collaborators (flag predicates, `tryEnable`,
  `EnableUsingFlags`, `Publish`), so that statements about what is and is not
  called can be made.
* `priority` in `TellUserWhyDisallowed` is a C++ `unsigned`; its increment is
  taken modulo `UINT_MAX + 1`.
-/

namespace MenuTable

/-- Modelled from the spec: the enumeration `MenuItemProperties::Properties` is declared
in a header that is not among the sources; its five values are the ones named in
Menus.cpp and in the spec. -/
inductive Properties where
  | None
  | Inline
  | Section
  | Whole
  | Extension
  deriving DecidableEq, Repr

/-- The expression `pProperties ? pProperties->GetProperties() : MenuItemProperties::None`;
a null pointer is `none`. -/
def GetProperties (pProperties : Option Properties) : Properties :=
  match pProperties with
  | some p => p
  | none => Properties.None

/-- The members `needSeparator` and `firstItem` of `MenuTable::detail::VisitorBase`
(head of the list = `back()` of the vector). -/
structure VisitorBase where
  needSeparator : List Bool
  firstItem : List Bool
  deriving DecidableEq, Repr

/-- The statement `if (!needSeparator.empty()) needSeparator.back() = true;`. -/
def markBack (needSeparator : List Bool) : List Bool :=
  match needSeparator with
  | [] => []
  | _ :: rest => true :: rest

/-- The method `VisitorBase::ShouldDoSeparator` (Menus.cpp 194-203).  Only `needSeparator` is
tested for emptiness; `firstItem.back()` on an empty vector is undefined. -/
def VisitorBase.ShouldDoSeparator (v : VisitorBase) : Option (Bool × VisitorBase) :=
  match v.needSeparator with
  | [] => some (false, v)
  | need :: needRest =>
    match v.firstItem with
    | [] => none
    | first :: firstRest =>
      some (need && !first,
        { needSeparator := false :: needRest, firstItem := false :: firstRest })

/-- The method `VisitorBase::ShouldBeginGroup` (Menus.cpp 106-135); the result pair is
`{ !inlined, shouldDoSeparator }`. -/
def VisitorBase.ShouldBeginGroup (v : VisitorBase) (pProperties : Option Properties) :
    Option ((Bool × Bool) × VisitorBase) :=
  match GetProperties pProperties with
  | Properties.Inline => some ((!true, false), v)
  | Properties.Section =>
    some ((!false, false), { v with needSeparator := markBack v.needSeparator })
  | Properties.Whole | Properties.Extension =>
    match v.ShouldDoSeparator with
    | none => none
    | some (shouldDoSeparator, v1) => some ((!false, shouldDoSeparator), v1)
  | Properties.None => some ((!false, false), v)

/-- The method `VisitorBase::AfterBeginGroup` (Menus.cpp 137-161). -/
def VisitorBase.AfterBeginGroup (v : VisitorBase) (pProperties : Option Properties) :
    VisitorBase :=
  let properties := GetProperties pProperties
  let isMenu : Bool :=
    match properties with
    | Properties.Whole | Properties.Extension => true
    | _ => false
  let isExtension : Bool :=
    match properties with
    | Properties.Whole | Properties.Extension => decide (properties = Properties.Extension)
    | _ => false
  if isMenu then
    { needSeparator := false :: v.needSeparator, firstItem := (!isExtension) :: v.firstItem }
  else v

/-- The method `VisitorBase::ShouldEndGroup` (Menus.cpp 163-192); the result is `!inlined`.
For `Whole` and `Extension`, `firstItem.pop_back()` runs first, then
`needSeparator.pop_back()`; either on an empty vector is undefined. -/
def VisitorBase.ShouldEndGroup (v : VisitorBase) (pProperties : Option Properties) :
    Option (Bool × VisitorBase) :=
  match GetProperties pProperties with
  | Properties.Inline => some (!true, v)
  | Properties.Section =>
    some (!false, { v with needSeparator := markBack v.needSeparator })
  | Properties.Whole | Properties.Extension =>
    match v.firstItem with
    | [] => none
    | _ :: firstRest =>
      match v.needSeparator with
      | [] => none
      | _ :: needRest => some (!false, { needSeparator := needRest, firstItem := firstRest })
  | Properties.None => some (!false, v)

/-- One call of the visitor protocol, as made by the traversal that drives it. -/
inductive Call where
  | ShouldBeginGroup (p : Option Properties)
  | AfterBeginGroup (p : Option Properties)
  | ShouldEndGroup (p : Option Properties)
  | ShouldDoSeparator
  deriving DecidableEq, Repr

/-- Performs one call; the boolean is whether the call reported that a separator
is due (the second component of `ShouldBeginGroup`, the result of
`ShouldDoSeparator`; the other two calls cannot report one). -/
def step (c : Call) (v : VisitorBase) : Option (Bool × VisitorBase) :=
  match c with
  | Call.ShouldBeginGroup p =>
    match v.ShouldBeginGroup p with
    | none => none
    | some (r, v1) => some (r.2, v1)
  | Call.AfterBeginGroup p => some (false, v.AfterBeginGroup p)
  | Call.ShouldEndGroup p =>
    match v.ShouldEndGroup p with
    | none => none
    | some (_, v1) => some (false, v1)
  | Call.ShouldDoSeparator => v.ShouldDoSeparator

/-- Performs a sequence of calls, collecting the separator reports in call order. -/
def run (calls : List Call) (v : VisitorBase) : Option (List Bool × VisitorBase) :=
  match calls with
  | [] => some ([], v)
  | c :: rest =>
    match step c v with
    | none => none
    | some (r, v1) =>
      match run rest v1 with
      | none => none
      | some (rs, v2) => some (r :: rs, v2)

/-- A call is a `Section` marking: `ShouldBeginGroup` or `ShouldEndGroup` with
`Section` properties. -/
def isSectionMark (c : Call) : Bool :=
  match c with
  | Call.ShouldBeginGroup (some Properties.Section) => true
  | Call.ShouldEndGroup (some Properties.Section) => true
  | _ => false

/-- Balanced call sequences: every `ShouldBeginGroup p; AfterBeginGroup p` is closed
by a later `ShouldEndGroup p` with the same properties, groups are properly
nested, and `ShouldDoSeparator` may occur anywhere. -/
inductive Balanced : List Call → Prop where
  | nil : Balanced []
  | separator {rest : List Call} : Balanced rest → Balanced (Call.ShouldDoSeparator :: rest)
  | group (p : Option Properties) {inner rest : List Call} :
      Balanced inner → Balanced rest →
      Balanced (Call.ShouldBeginGroup p :: Call.AfterBeginGroup p ::
        (inner ++ Call.ShouldEndGroup p :: rest))

/-- The number of entries `AfterBeginGroup` pushes on each stack, and the matching
`ShouldEndGroup` pops: one for `Whole` and `Extension`, none otherwise. -/
def pushed (p : Option Properties) : Nat :=
  match GetProperties p with
  | Properties.Whole | Properties.Extension => 1
  | _ => 0

/-- The calls `ShouldDoSeparator` makes on the vectors are defined: `firstItem` is
not empty when `needSeparator` is not. -/
def VisitorBase.separatorDefined (v : VisitorBase) : Prop :=
  v.needSeparator ≠ [] → v.firstItem ≠ []

end MenuTable

/-! ## The command-flag engine -/

/-- The type `CommandFlag`, a `std::bitset<NCommandFlags>`: bit `i` of the number is
flag `i`. -/
abbrev CommandFlag := Nat

/-- The assignment `flags[ii] = true`. -/
def setFlag (flags : CommandFlag) (ii : Nat) : CommandFlag := flags ||| 2 ^ ii

/-- The operator `~flags` of a bitset that is `NCommandFlags` bits wide. -/
def flipAll (NCommandFlags : Nat) (flags : CommandFlag) : CommandFlag :=
  (2 ^ NCommandFlags - 1) ^^^ flags

/-- The largest value of the C++ type `unsigned` (32 bits). -/
def UINT_MAX : Nat := 4294967295

/-- Modelled from the spec: the struct `CommandFlagOptions` is declared in
CommandFlag.h, which is not among the sources.  The fields are the ones Menus.cpp
reads: `message` is a `std::function` that may be empty (`none`), strings stand
for `TranslatableString` and `wxString`, `priority` is an `unsigned`. -/
structure CommandFlagOptions where
  message : Option (String → String)
  helpPage : String
  title : String
  priority : Nat
  enableDefaultMessage : Bool
  quickTest : Bool

/-- Modelled from the spec: one registered flag.  The registration code is not among
the sources; per the spec each named flag has a predicate of the application state
and its options, so `RegisteredPredicates()` and `Options()` are the two
projections of one table, indexed alike. -/
structure ReservedCommandFlag (Project : Type) where
  predicate : Project → Bool
  options : CommandFlagOptions

/-- Modelled from the spec: the struct `MenuItemEnabler` behind
`RegisteredMenuItemEnabler::Enablers()` is declared in a header that is not among
the sources; its four parts are the ones Menus.cpp calls.  `tryEnable` acts on the
project. -/
structure MenuItemEnabler (Project : Type) where
  actualFlags : CommandFlag
  possibleFlags : CommandFlag
  applicable : Project → Bool
  tryEnable : Project → CommandFlag → Project

/-- The process-wide tables read by `MenuManager`, with the width of the bitset and
the test `GetProjectFrame( project ).IsActive()`. -/
structure Registry (Project : Type) where
  NCommandFlags : Nat
  ReservedFlags : List (ReservedCommandFlag Project)
  Enablers : List (MenuItemEnabler Project)
  IsActive : Project → Bool

/-- The table `ReservedCommandFlag::Options()`. -/
def Registry.Options {Project : Type} (reg : Registry Project) : List CommandFlagOptions :=
  reg.ReservedFlags.map fun r => r.options

/-- What the code does to its collaborators, in the order it does it. -/
inductive Event where
  | predicate (ii : Nat)
  | tryEnable (index : Nat) (flagsRqd : CommandFlag)
  | EnableUsingFlags (lax strict : CommandFlag)
  | Publish
  | ShowErrorDialog (title reason helpPage : String)
  | TellUserWhyDisallowed (Name : String) (flagsGot flagsRequired : CommandFlag)
  deriving DecidableEq, Repr

/-- The state `MenuManager` works on: its project, the function-local static
`lastFlags` of `GetUpdateFlags`, the members `mLastFlags`, `mWhatIfNoSelection`
and `mStopIfWasPaused`, and the calls made so far. -/
structure MenuManager (Project : Type) where
  mProject : Project
  lastFlags : CommandFlag
  mLastFlags : CommandFlag
  mWhatIfNoSelection : Int
  mStopIfWasPaused : Bool
  trace : List Event

/-- The method `MenuManager::UpdatePrefs` (Menus.cpp 91-104); `bSelectAllIfNone` is the
value read from the preference and `EXPERIMENTAL_DA` the compile-time switch. -/
def MenuManager.UpdatePrefs {Project : Type} (EXPERIMENTAL_DA bSelectAllIfNone : Bool)
    (m : MenuManager Project) : MenuManager Project :=
  { m with
    mWhatIfNoSelection :=
      if EXPERIMENTAL_DA then (if bSelectAllIfNone then 2 else 0)
      else (if bSelectAllIfNone then 1 else 2)
    mStopIfWasPaused := true }

/-- The first loop of `GetUpdateFlags` (Menus.cpp 531-538), from index `ii` on; the
accumulator is `flags`, `quickFlags` and the calls made. -/
def quickLoop {Project : Type} (project : Project) :
    List (ReservedCommandFlag Project) → Nat → CommandFlag × CommandFlag × List Event →
    CommandFlag × CommandFlag × List Event
  | [], _, acc => acc
  | r :: rest, ii, (flags, quickFlags, trace) =>
    if r.options.quickTest then
      if r.predicate project then
        quickLoop project rest (ii + 1)
          (setFlag flags ii, setFlag quickFlags ii, trace ++ [Event.predicate ii])
      else
        quickLoop project rest (ii + 1)
          (flags, setFlag quickFlags ii, trace ++ [Event.predicate ii])
    else quickLoop project rest (ii + 1) (flags, quickFlags, trace)

/-- The second loop of `GetUpdateFlags` (Menus.cpp 544-550), from index `ii` on; the
predicate is called only when the flag is not a quick test. -/
def slowLoop {Project : Type} (project : Project) :
    List (ReservedCommandFlag Project) → Nat → CommandFlag × List Event →
    CommandFlag × List Event
  | [], _, acc => acc
  | r :: rest, ii, (flags, trace) =>
    if !r.options.quickTest then
      if r.predicate project then
        slowLoop project rest (ii + 1) (setFlag flags ii, trace ++ [Event.predicate ii])
      else slowLoop project rest (ii + 1) (flags, trace ++ [Event.predicate ii])
    else slowLoop project rest (ii + 1) (flags, trace)

/-- The method `MenuManager::GetUpdateFlags` (Menus.cpp 517-555). -/
def MenuManager.GetUpdateFlags {Project : Type} (reg : Registry Project)
    (checkActive : Bool) (m : MenuManager Project) : CommandFlag × MenuManager Project :=
  let (flags, quickFlags, trace) := quickLoop m.mProject reg.ReservedFlags 0 (0, 0, m.trace)
  if checkActive && !reg.IsActive m.mProject then
    let flags := (m.lastFlags &&& flipAll reg.NCommandFlags quickFlags) ||| flags
    (flags, { m with lastFlags := flags, trace := trace })
  else
    let (flags, trace) := slowLoop m.mProject reg.ReservedFlags 0 (flags, trace)
    (flags, { m with lastFlags := flags, trace := trace })

/-- The loop over the enablers in `UpdateMenus` (Menus.cpp 578-584); `flags` stays the
freshly computed value and `flags2` accumulates. -/
def laxLoop {Project : Type} (project : Project) (flags : CommandFlag) :
    List (MenuItemEnabler Project) → CommandFlag → CommandFlag
  | [], flags2 => flags2
  | enabler :: rest, flags2 =>
    let actual := enabler.actualFlags
    if enabler.applicable project && (flags &&& actual) == actual then
      laxLoop project flags rest (flags2 ||| enabler.possibleFlags)
    else laxLoop project flags rest flags2

/-- The method `MenuManager::UpdateMenus` (Menus.cpp 559-597). -/
def MenuManager.UpdateMenus {Project : Type} (reg : Registry Project)
    (checkActive : Bool) (m : MenuManager Project) : MenuManager Project :=
  let (flags, m1) := m.GetUpdateFlags reg checkActive
  if flags == m1.mLastFlags then m1
  else
    let flags2 := laxLoop m1.mProject flags reg.Enablers flags
    { m1 with
      mLastFlags := flags
      trace := m1.trace ++
        [Event.EnableUsingFlags flags2 (if m1.mWhatIfNoSelection == 0 then flags2 else flags),
         Event.Publish] }

/-- The loop of `TryToMakeActionAllowed` (Menus.cpp 647-663) over the enablers that are
left, the first of them at position `index`; `checkActive` is the default argument
of `GetUpdateFlags`. -/
def recoveryLoop {Project : Type} (reg : Registry Project) (checkActive : Bool)
    (flagsRqd : CommandFlag) :
    List (MenuItemEnabler Project) → Nat → CommandFlag → MenuManager Project →
    CommandFlag × MenuManager Project
  | [], _, flags, m => (flags, m)
  | enabler :: rest, index, flags, m =>
    if (flags &&& flagsRqd) != flagsRqd then
      let actual := enabler.actualFlags
      let MissingFlags := flipAll reg.NCommandFlags flags &&& flagsRqd
      if (flags &&& actual) == actual && (MissingFlags &&& enabler.possibleFlags) != 0 then
        let m1 : MenuManager Project :=
          { m with
            mProject := enabler.tryEnable m.mProject flagsRqd
            trace := m.trace ++ [Event.tryEnable index flagsRqd] }
        let (flags1, m2) := m1.GetUpdateFlags reg checkActive
        recoveryLoop reg checkActive flagsRqd rest (index + 1) flags1 m2
      else recoveryLoop reg checkActive flagsRqd rest (index + 1) flags m
    else (flags, m)

/-- The method `MenuManager::TryToMakeActionAllowed` (Menus.cpp 636-665).  The result is
the returned boolean, the in/out parameter `flags` on return, and the state.
`checkActive` stands for the default argument of `GetUpdateFlags`, which is
declared in Menus.h, not among the sources. -/
def MenuManager.TryToMakeActionAllowed {Project : Type} (reg : Registry Project)
    (checkActive : Bool) (flags flagsRqd : CommandFlag) (m : MenuManager Project) :
    Bool × CommandFlag × MenuManager Project :=
  let (flags0, m0) :=
    if flags == 0 then m.GetUpdateFlags reg checkActive else (flags, m)
  let (flags1, m1) := recoveryLoop reg checkActive flagsRqd reg.Enablers 0 flags0 m0
  ((flags1 &&& flagsRqd) == flagsRqd, flags1, m1)

/-- The locals of `TellUserWhyDisallowed` that the lambda `doOption` captures. -/
structure Explanation where
  reason : String
  untranslatedTitle : String
  helpPage : String
  enableDefaultMessage : Bool
  defaultMessage : Bool

/-- The lambda `doOption` of `TellUserWhyDisallowed` (Menus.cpp 680-694). -/
def doOption (Name : String) (options : CommandFlagOptions) (x : Explanation) :
    Bool × Explanation :=
  match options.message with
  | some message =>
    (true,
      { x with
        reason := message Name
        defaultMessage := false
        untranslatedTitle := if options.title ≠ "" then options.title else x.untranslatedTitle
        helpPage := options.helpPage })
  | none =>
    (false, { x with enableDefaultMessage := x.enableDefaultMessage && options.enableDefaultMessage })

/-- The loop `for ( const auto &options : alloptions ) priority = std::max(...)`. -/
def greatestPriority (alloptions : List CommandFlagOptions) : Nat :=
  alloptions.foldl (fun priority options => max priority options.priority) 0

/-- The inner loop of `TellUserWhyDisallowed` (Menus.cpp 709-719) from index `ii` on;
the boolean is whether `goto done` was taken. -/
def visitOptions (Name : String) (missingFlags : CommandFlag) (priority : Nat) :
    List CommandFlagOptions → Nat → Explanation → Bool × Explanation
  | [], _, x => (false, x)
  | options :: rest, ii, x =>
    if priority == options.priority && missingFlags.testBit ii then
      match doOption Name options x with
      | (true, x1) => (true, x1)
      | (false, x1) => visitOptions Name missingFlags priority rest (ii + 1) x1
    else visitOptions Name missingFlags priority rest (ii + 1) x

/-- The loop `while( priority-- )` of `TellUserWhyDisallowed` (Menus.cpp 707-720): the
counter is tested, then decremented, and the body sees the decremented value. -/
def visitDescending (Name : String) (missingFlags : CommandFlag)
    (alloptions : List CommandFlagOptions) : Nat → Explanation → Explanation
  | 0, x => x
  | priority + 1, x =>
    match visitOptions Name missingFlags priority alloptions 0 x with
    | (true, x1) => x1
    | (false, x1) => visitDescending Name missingFlags alloptions priority x1

/-- The call `BasicUI::ShowErrorDialog( {}, untranslatedTitle, reason, helpPage )`. -/
structure Dialog where
  title : String
  reason : String
  helpPage : String
  deriving DecidableEq, Repr

/-- The catch-all text that `reason` starts with. -/
def defaultReason : String :=
  "There was a problem with your last action. If you think\nthis is a bug, please tell us exactly where it occurred."

/-- The method `MenuManager::TellUserWhyDisallowed` (Menus.cpp 667-737): the dialog it
shows, or `none` when it returns without showing one.  `++priority` is done on an
`unsigned`, hence modulo `UINT_MAX + 1`. -/
def TellUserWhyDisallowed (NCommandFlags : Nat) (alloptions : List CommandFlagOptions)
    (Name : String) (flagsGot flagsRequired : CommandFlag) : Option Dialog :=
  let start : Explanation :=
    { reason := defaultReason
      untranslatedTitle := "Disallowed"
      helpPage := ""
      enableDefaultMessage := true
      defaultMessage := true }
  let missingFlags := flagsRequired &&& flipAll NCommandFlags flagsGot
  let priority := greatestPriority alloptions
  let priority := (priority + 1) % (UINT_MAX + 1)
  let x := visitDescending Name missingFlags alloptions priority start
  if x.defaultMessage && !x.enableDefaultMessage then none
  else some { title := x.untranslatedTitle, reason := x.reason, helpPage := x.helpPage }

/-- The method `MenuManager::ReportIfActionNotAllowed` (Menus.cpp 621-631): the returned
boolean, the in/out parameter `flags` on return, and the state.  The call of
`TellUserWhyDisallowed( Name, flags & flagsRqd, flagsRqd )` is recorded in the
trace, followed by the dialog when it shows one. -/
def MenuManager.ReportIfActionNotAllowed {Project : Type} (reg : Registry Project)
    (checkActive : Bool) (Name : String) (flags flagsRqd : CommandFlag)
    (m : MenuManager Project) : Bool × CommandFlag × MenuManager Project :=
  let (bAllowed, flags1, m1) := m.TryToMakeActionAllowed reg checkActive flags flagsRqd
  if bAllowed then (true, flags1, m1)
  else
    (false, flags1,
      { m1 with
        trace := m1.trace ++
          Event.TellUserWhyDisallowed Name (flags1 &&& flagsRqd) flagsRqd ::
            (match TellUserWhyDisallowed reg.NCommandFlags reg.Options Name
                (flags1 &&& flagsRqd) flagsRqd with
              | some d => [Event.ShowErrorDialog d.title d.reason d.helpPage]
              | none => []) })

/-! ## The undo and redo commands -/

/-- Modelled from the spec: what `ModifyUndoMenuItems` reads of its collaborators, which
are not among the sources: of `UndoManager` the current state, `UndoAvailable()`,
`RedoAvailable()` and the short descriptions, and of `ProjectHistory` its own
`UndoAvailable()` and `RedoAvailable()`. -/
structure UndoHistory where
  GetCurrentState : Int
  UndoAvailable : Bool
  RedoAvailable : Bool
  GetShortDescription : Int → String
  historyUndoAvailable : Bool
  historyRedoAvailable : Bool

/-- Modelled from the spec: what `CommandManager`, not among the sources, keeps of one
command: `Modify` sets the label and `Enable` the enabled state. -/
structure CommandEntry where
  label : String
  enabled : Bool
  deriving DecidableEq, Repr

/-- The two commands `ModifyUndoMenuItems` touches. -/
structure UndoRedoCommands where
  Undo : CommandEntry
  Redo : CommandEntry
  deriving DecidableEq, Repr

/-- The method `MenuManager::ModifyUndoMenuItems` (Menus.cpp 433-466); the formatted
label `XXO("&Undo %s").Format( desc )` is the label followed by the description. -/
def ModifyUndoMenuItems (undoManager : UndoHistory) (commandManager : UndoRedoCommands) :
    UndoRedoCommands :=
  let cur := undoManager.GetCurrentState
  let commandManager : UndoRedoCommands :=
    if undoManager.UndoAvailable then
      { commandManager with
        Undo := { label := "&Undo " ++ undoManager.GetShortDescription cur,
                  enabled := undoManager.historyUndoAvailable } }
    else
      { commandManager with Undo := { commandManager.Undo with label := "&Undo" } }
  if undoManager.RedoAvailable then
    { commandManager with
      Redo := { label := "&Redo " ++ undoManager.GetShortDescription (cur + 1),
                enabled := undoManager.historyRedoAvailable } }
  else
    { commandManager with Redo := { label := "&Redo", enabled := false } }

/-! ## The visitor that builds the menus -/

/-- Modelled from the spec: the registry tree, whose types are declared in headers that
are not among the sources.  The kinds are the ones `MenuItemVisitor` tells apart:
the three leaves, a menu, a conditional group with its predicate, which reads the
application state, and any other group, which must be section-like.  The function
of a `SpecialItem` may change the project. -/
inductive MenuNode (Project : Type) where
  | CommandItem (name : String)
  | CommandGroupItem (name : String)
  | SpecialItem (fn : Project → Project)
  | MenuItem (title : String) (items : List (MenuNode Project))
  | ConditionalGroupItem (condition : Project → Bool) (items : List (MenuNode Project))
  | MenuPart (items : List (MenuNode Project))

/-- The calls `MenuItemVisitor` makes: those on the `CommandManager`, the call of a
special item's function, and the evaluation of a conditional group's predicate. -/
inductive MenuCall where
  | BeginMenu (title : String)
  | EndMenu
  | BeginOccultCommands
  | EndOccultCommands
  | AddItem (name : String)
  | AddItemList (name : String)
  | special
  | condition
  deriving DecidableEq, Repr

/-- The struct `MenuItemVisitor` (Menus.cpp 281-355): the project, the vector `flags`
(head of the list = `back()`), and of the manager the number of open menus,
which decides `CurrentMenu()`, and the calls made so far. -/
structure MenuItemVisitor (Project : Type) where
  mProject : Project
  flags : List Bool
  openMenus : Nat
  calls : List MenuCall

/-- The pre-visit of a menu (Menus.cpp 286-288). -/
def MenuItemVisitor.beginMenu {Project : Type} (title : String)
    (v : MenuItemVisitor Project) : MenuItemVisitor Project :=
  { v with openMenus := v.openMenus + 1, calls := v.calls ++ [MenuCall.BeginMenu title] }

/-- The pre-visit of a conditional group (Menus.cpp 289-295): the predicate is called,
`BeginOccultCommands` follows when it is false, and the value is pushed. -/
def MenuItemVisitor.beginConditional {Project : Type} (condition : Project → Bool)
    (v : MenuItemVisitor Project) : MenuItemVisitor Project :=
  let flag := condition v.mProject
  { v with
    flags := flag :: v.flags
    calls := v.calls ++
      MenuCall.condition :: (if !flag then [MenuCall.BeginOccultCommands] else []) }

/-- The post-visit of a menu (Menus.cpp 330-332). -/
def MenuItemVisitor.endMenu {Project : Type} (v : MenuItemVisitor Project) :
    MenuItemVisitor Project :=
  { v with openMenus := v.openMenus - 1, calls := v.calls ++ [MenuCall.EndMenu] }

/-- The post-visit of a conditional group (Menus.cpp 333-338): `flags.back()` decides,
then `flags.pop_back()`; both are undefined on an empty vector. -/
def MenuItemVisitor.endConditional {Project : Type} (v : MenuItemVisitor Project) :
    Option (MenuItemVisitor Project) :=
  match v.flags with
  | [] => none
  | flag :: rest =>
    some { v with
      flags := rest
      calls := v.calls ++ (if !flag then [MenuCall.EndOccultCommands] else []) }

/-- The leaf visit (Menus.cpp 302-326).  When no menu is open, `CurrentMenu()` is null
and the code runs `assert( false )`, which aborts the walk in a build with
assertions: `none`.  Otherwise the call for the kind of leaf is made; the function
of a special item may change the project. -/
def MenuItemVisitor.leaf {Project : Type} (call : MenuCall) (fn : Project → Project)
    (v : MenuItemVisitor Project) : Option (MenuItemVisitor Project) :=
  if v.openMenus = 0 then none
  else some { v with mProject := fn v.mProject, calls := v.calls ++ [call] }

mutual
/-- Modelled from the spec: the depth-first walk of `Registry::VisitWithFunctions`, not
among the sources: pre-visit, the children in order, post-visit, with the
functions of `MenuItemVisitor`.  The separator calls of the walk are left out;
they touch neither `flags` nor the occult calls. -/
def VisitWithFunctions {Project : Type} :
    MenuNode Project → MenuItemVisitor Project → Option (MenuItemVisitor Project)
  | MenuNode.CommandItem name, v => v.leaf (MenuCall.AddItem name) id
  | MenuNode.CommandGroupItem name, v => v.leaf (MenuCall.AddItemList name) id
  | MenuNode.SpecialItem fn, v => v.leaf MenuCall.special fn
  | MenuNode.MenuItem title items, v =>
    match VisitAll items (v.beginMenu title) with
    | none => none
    | some v1 => some v1.endMenu
  | MenuNode.ConditionalGroupItem condition items, v =>
    match VisitAll items (v.beginConditional condition) with
    | none => none
    | some v1 => v1.endConditional
  | MenuNode.MenuPart items, v => VisitAll items v
/-- The walk over the children of a group, in order. -/
def VisitAll {Project : Type} :
    List (MenuNode Project) → MenuItemVisitor Project → Option (MenuItemVisitor Project)
  | [], v => some v
  | node :: rest, v =>
    match VisitWithFunctions node v with
    | none => none
    | some v1 => VisitAll rest v1
end

mutual
/-- The number of conditional groups in a tree. -/
def conditionalGroups {Project : Type} : MenuNode Project → Nat
  | MenuNode.CommandItem _ => 0
  | MenuNode.CommandGroupItem _ => 0
  | MenuNode.SpecialItem _ => 0
  | MenuNode.MenuItem _ items => conditionalGroupsAll items
  | MenuNode.ConditionalGroupItem _ items => conditionalGroupsAll items + 1
  | MenuNode.MenuPart items => conditionalGroupsAll items
/-- The number of conditional groups in a list of trees. -/
def conditionalGroupsAll {Project : Type} : List (MenuNode Project) → Nat
  | [] => 0
  | node :: rest => conditionalGroups node + conditionalGroupsAll rest
end

mutual
/-- Every leaf of the tree lies within a menu, `openMenus` menus being open around the
tree: the trees on which no leaf visit finds `CurrentMenu()` null. -/
def wellPlaced {Project : Type} : MenuNode Project → Nat → Bool
  | MenuNode.CommandItem _, openMenus => openMenus != 0
  | MenuNode.CommandGroupItem _, openMenus => openMenus != 0
  | MenuNode.SpecialItem _, openMenus => openMenus != 0
  | MenuNode.MenuItem _ items, openMenus => wellPlacedAll items (openMenus + 1)
  | MenuNode.ConditionalGroupItem _ items, openMenus => wellPlacedAll items openMenus
  | MenuNode.MenuPart items, openMenus => wellPlacedAll items openMenus
/-- Every leaf of every tree of the list lies within a menu. -/
def wellPlacedAll {Project : Type} : List (MenuNode Project) → Nat → Bool
  | [], _ => true
  | node :: rest, openMenus => wellPlaced node openMenus && wellPlacedAll rest openMenus
end

/-- The nesting depth of occult regions after the calls, starting from `depth`; `none`
when an `EndOccultCommands` comes with no region open. -/
def occultDepth : List MenuCall → Nat → Option Nat
  | [], depth => some depth
  | MenuCall.BeginOccultCommands :: rest, depth => occultDepth rest (depth + 1)
  | MenuCall.EndOccultCommands :: rest, depth =>
    match depth with
    | 0 => none
    | d + 1 => occultDepth rest d
  | _ :: rest, depth => occultDepth rest depth

/-- The number of predicate evaluations among the calls. -/
def conditionCalls (calls : List MenuCall) : Nat :=
  calls.count MenuCall.condition

/-! ## Vocabulary of the statements about the flag engine -/

/-- The bitset with bit `ii + j` set, besides those of `flags`, for every position `j`
of the list whose entry satisfies `g`: what a loop of `GetUpdateFlags` does to a
bitset. -/
def setWhere {α : Type} (g : α → Bool) : List α → Nat → CommandFlag → CommandFlag
  | [], _, flags => flags
  | r :: rest, ii, flags => setWhere g rest (ii + 1) (if g r then setFlag flags ii else flags)

/-- The predicate calls of a loop that calls the predicate of every entry
satisfying `g`, the first entry having index `ii`. -/
def callsWhere {α : Type} (g : α → Bool) : List α → Nat → List Event
  | [], _ => []
  | r :: rest, ii =>
    if g r then Event.predicate ii :: callsWhere g rest (ii + 1)
    else callsWhere g rest (ii + 1)

/-- The indices of the enablers whose `tryEnable` a trace records, in call order. -/
def tryEnableCalls : List Event → List Nat
  | [] => []
  | Event.tryEnable index _ :: rest => index :: tryEnableCalls rest
  | _ :: rest => tryEnableCalls rest

/-- The enable-pushes and change notifications a trace records, in call order. -/
def pushes (trace : List Event) : List Event :=
  trace.filter fun e =>
    match e with
    | Event.EnableUsingFlags _ _ => true
    | Event.Publish => true
    | _ => false

/-- The speculative bitset in the words of the spec: `flags` OR-ed with the
`possibleFlags` of every registered enabler whose `applicable` gate passes and whose
`actualFlags` are a subset of `flags`. -/
def speculativeFlags {Project : Type} (project : Project) (flags : CommandFlag)
    (enablers : List (MenuItemEnabler Project)) : CommandFlag :=
  (enablers.filter fun e =>
      e.applicable project && (flags &&& e.actualFlags) == e.actualFlags).foldl
    (fun flags2 e => flags2 ||| e.possibleFlags) flags

/-- The flags and the state the scan of `TryToMakeActionAllowed` starts from: the
caller's, or the recomputed ones when the caller passed none. -/
def scanStart {Project : Type} (reg : Registry Project) (checkActive : Bool)
    (flags : CommandFlag) (m : MenuManager Project) : CommandFlag × MenuManager Project :=
  if flags == 0 then m.GetUpdateFlags reg checkActive else (flags, m)

/-- The `tryEnable` calls recorded in `after` beyond those recorded in `before`. -/
def callsSince (before after : List Event) : List Nat :=
  (tryEnableCalls after).drop (tryEnableCalls before).length

/-- The flags and the state at the moment the scan of `TryToMakeActionAllowed` reaches
the enabler at position `j`: the loop run over the enablers before it. -/
def reachedAt {Project : Type} (reg : Registry Project) (checkActive : Bool)
    (flags flagsRqd : CommandFlag) (m : MenuManager Project) (j : Nat) :
    CommandFlag × MenuManager Project :=
  recoveryLoop reg checkActive flagsRqd (reg.Enablers.take j) 0
    (scanStart reg checkActive flags m).1 (scanStart reg checkActive flags m).2

/-! ## Small concrete tables for the examples -/

/-- Options of a flag without message, of priority 0. -/
def plainOptions (quickTest : Bool) : CommandFlagOptions :=
  { message := none, helpPage := "", title := "", priority := 0,
    enableDefaultMessage := true, quickTest := quickTest }

/-- A flag over a project that is the bitset of the conditions that hold: flag `i`
reads condition `i`. -/
def conditionFlag (i : Nat) (quickTest : Bool) : ReservedCommandFlag Nat :=
  { predicate := fun project => project.testBit i, options := plainOptions quickTest }

/-- An enabler over the same projects whose `tryEnable` makes the conditions
`turnsOn` hold. -/
def conditionEnabler (actualFlags possibleFlags turnsOn : CommandFlag) : MenuItemEnabler Nat :=
  { actualFlags := actualFlags, possibleFlags := possibleFlags,
    applicable := fun _ => true,
    tryEnable := fun project _ => project ||| turnsOn }

/-- Two flags in an 8-bit bitset, flag 0 a quick test and flag 1 not. -/
def twoFlags (active : Bool) (Enablers : List (MenuItemEnabler Nat)) : Registry Nat :=
  { NCommandFlags := 8
    ReservedFlags := [conditionFlag 0 true, conditionFlag 1 false]
    Enablers := Enablers
    IsActive := fun _ => active }

/-- A manager with an empty trace. -/
def freshManager (mProject : Nat) (lastFlags mLastFlags : CommandFlag)
    (mWhatIfNoSelection : Int) : MenuManager Nat :=
  { mProject := mProject, lastFlags := lastFlags, mLastFlags := mLastFlags,
    mWhatIfNoSelection := mWhatIfNoSelection, mStopIfWasPaused := true, trace := [] }

/-- Options of a flag with the message "Need X", whatever the command. -/
def needXOptions (priority : Nat) : CommandFlagOptions :=
  { message := some fun _ => "Need X", helpPage := "Need_X", title := "", priority := priority,
    enableDefaultMessage := true, quickTest := false }

/-- Options of a flag without message. -/
def silentOptions (priority : Nat) (enableDefaultMessage : Bool) : CommandFlagOptions :=
  { message := none, helpPage := "", title := "", priority := priority,
    enableDefaultMessage := enableDefaultMessage, quickTest := false }

/-- Three flags in an 8-bit bitset, none a quick test, over the same projects; the
window is active. -/
def threeFlags (Enablers : List (MenuItemEnabler Nat)) : Registry Nat :=
  { NCommandFlags := 8
    ReservedFlags := [conditionFlag 0 false, conditionFlag 1 false, conditionFlag 2 false]
    Enablers := Enablers
    IsActive := fun _ => true }

namespace MenuTable

/-- The number of scopes that are open after the calls, `depth` being open before them:
`AfterBeginGroup` opens one for `Whole` and `Extension`, `ShouldEndGroup` closes one
for them.  It is `none` when a closing `ShouldEndGroup` has no earlier
`AfterBeginGroup` left to match. -/
def openScopes : List Call → Nat → Option Nat
  | [], depth => some depth
  | Call.AfterBeginGroup p :: rest, depth => openScopes rest (depth + pushed p)
  | Call.ShouldEndGroup p :: rest, depth =>
    if pushed p ≤ depth then openScopes rest (depth - pushed p) else none
  | Call.ShouldBeginGroup _ :: rest, depth => openScopes rest depth
  | Call.ShouldDoSeparator :: rest, depth => openScopes rest depth

end MenuTable

/-! ## Theorems: the visitor stacks -/

namespace MenuTable

theorem run_cons_eq_some (c : Call) (rest : List Call) (v v2 : VisitorBase) (rs : List Bool) :
    run (c :: rest) v = some (rs, v2) ↔
      ∃ r v1 rs1, step c v = some (r, v1) ∧ run rest v1 = some (rs1, v2) ∧ rs = r :: rs1 := by
  simp only [run]
  cases hs : step c v with
  | none => simp
  | some x =>
    obtain ⟨r, v1⟩ := x
    dsimp only
    cases hr : run rest v1 with
    | none =>
      simp only [false_iff, not_exists, not_and, reduceCtorEq]
      intro r1 v3 rs1 h1 h2
      simp only [Option.some.injEq, Prod.mk.injEq] at h1
      rw [← h1.2, hr] at h2
      simp at h2
    | some y =>
      obtain ⟨rs1, v3⟩ := y
      simp only [Option.some.injEq, Prod.mk.injEq]
      constructor
      · rintro ⟨h1, h2⟩
        exact ⟨r, v1, rs1, ⟨rfl, rfl⟩, by rw [hr, h2], h1.symm⟩
      · rintro ⟨r1, v4, rs2, ⟨h1, h2⟩, h3, h4⟩
        subst h1 h2
        rw [hr] at h3
        simp only [Option.some.injEq, Prod.mk.injEq] at h3
        exact ⟨by rw [h4, h3.1], h3.2⟩

theorem run_append_eq_some (a b : List Call) (v v2 : VisitorBase) (rs : List Bool) :
    run (a ++ b) v = some (rs, v2) ↔
      ∃ ra v1 rb, run a v = some (ra, v1) ∧ run b v1 = some (rb, v2) ∧ rs = ra ++ rb := by
  induction a generalizing v rs with
  | nil =>
    simp only [List.nil_append, run, Option.some.injEq, Prod.mk.injEq]
    constructor
    · intro h
      exact ⟨[], v, rs, ⟨rfl, rfl⟩, h, rfl⟩
    · rintro ⟨ra, v1, rb, ⟨h1, h2⟩, h3, h4⟩
      subst h1 h2
      rw [h4]
      exact h3
  | cons c a ih =>
    rw [List.cons_append, run_cons_eq_some]
    constructor
    · rintro ⟨r, v1, rs1, h1, h2, h3⟩
      obtain ⟨ra, v3, rb, h4, h5, h6⟩ := (ih v1 rs1).1 h2
      refine ⟨r :: ra, v3, rb, ?_, h5, ?_⟩
      · exact (run_cons_eq_some c a v v3 (r :: ra)).2 ⟨r, v1, ra, h1, h4, rfl⟩
      · rw [h3, h6]; rfl
    · rintro ⟨ra, v3, rb, h1, h2, h3⟩
      obtain ⟨r, v1, ra1, h4, h5, h6⟩ := (run_cons_eq_some c a v v3 ra).1 h1
      refine ⟨r, v1, ra1 ++ rb, h4, (ih v1 (ra1 ++ rb)).2 ⟨ra1, v3, rb, h5, h2, rfl⟩, ?_⟩
      rw [h3, h6]; rfl

theorem ShouldDoSeparator_depths (v v1 : VisitorBase) (r : Bool)
    (h : v.ShouldDoSeparator = some (r, v1)) :
    v1.needSeparator.length = v.needSeparator.length ∧
      v1.firstItem.length = v.firstItem.length := by
  obtain ⟨need, first⟩ := v
  cases need with
  | nil =>
    simp only [VisitorBase.ShouldDoSeparator, Option.some.injEq, Prod.mk.injEq] at h
    rw [← h.2]
    exact ⟨rfl, rfl⟩
  | cons n ns =>
    cases first with
    | nil => simp [VisitorBase.ShouldDoSeparator] at h
    | cons f fs =>
      simp only [VisitorBase.ShouldDoSeparator, Option.some.injEq, Prod.mk.injEq] at h
      rw [← h.2]
      exact ⟨rfl, rfl⟩

theorem markBack_length (l : List Bool) : (markBack l).length = l.length := by
  cases l <;> rfl

theorem ShouldDoSeparator_defined (v : VisitorBase) (h : v.separatorDefined) :
    ∃ x, v.ShouldDoSeparator = some x := by
  obtain ⟨need, first⟩ := v
  cases need with
  | nil => exact ⟨_, rfl⟩
  | cons n ns =>
    cases first with
    | nil => exact absurd rfl (h (by simp))
    | cons f fs => exact ⟨_, rfl⟩

theorem separatorDefined_of_depths (v v1 : VisitorBase) (h : v.separatorDefined)
    (hn : v1.needSeparator.length = v.needSeparator.length)
    (hf : v1.firstItem.length = v.firstItem.length) : v1.separatorDefined := by
  intro hne he
  have h1 : v.needSeparator ≠ [] := by
    intro h0
    rw [h0] at hn
    exact hne (List.eq_nil_of_length_eq_zero hn)
  apply h h1
  rw [he] at hf
  exact List.eq_nil_of_length_eq_zero hf.symm

theorem step_ShouldBeginGroup_depths (p : Option Properties) (v v1 : VisitorBase) (r : Bool)
    (h : step (Call.ShouldBeginGroup p) v = some (r, v1)) :
    v1.needSeparator.length = v.needSeparator.length ∧
      v1.firstItem.length = v.firstItem.length := by
  simp only [step] at h
  cases hb : v.ShouldBeginGroup p with
  | none => simp [hb] at h
  | some x =>
    obtain ⟨r2, v2⟩ := x
    rw [hb] at h
    simp only [Option.some.injEq, Prod.mk.injEq] at h
    rw [← h.2]
    clear h
    rcases p with _ | p
    · simp only [VisitorBase.ShouldBeginGroup, GetProperties, Option.some.injEq,
        Prod.mk.injEq] at hb
      rw [← hb.2]; exact ⟨rfl, rfl⟩
    · cases p
      · simp only [VisitorBase.ShouldBeginGroup, GetProperties, Option.some.injEq,
          Prod.mk.injEq] at hb
        rw [← hb.2]; exact ⟨rfl, rfl⟩
      · simp only [VisitorBase.ShouldBeginGroup, GetProperties, Option.some.injEq,
          Prod.mk.injEq] at hb
        rw [← hb.2]; exact ⟨rfl, rfl⟩
      · simp only [VisitorBase.ShouldBeginGroup, GetProperties, Option.some.injEq,
          Prod.mk.injEq] at hb
        rw [← hb.2]; exact ⟨markBack_length _, rfl⟩
      all_goals
        simp only [VisitorBase.ShouldBeginGroup, GetProperties] at hb
        cases hs : v.ShouldDoSeparator with
        | none => simp [hs] at hb
        | some y =>
          obtain ⟨r3, v3⟩ := y
          rw [hs] at hb
          simp only [Option.some.injEq, Prod.mk.injEq] at hb
          rw [← hb.2]
          exact ShouldDoSeparator_depths v v3 r3 hs

theorem step_ShouldBeginGroup_defined (p : Option Properties) (v : VisitorBase)
    (h : v.separatorDefined) : ∃ x, step (Call.ShouldBeginGroup p) v = some x := by
  obtain ⟨⟨r, v1⟩, hs⟩ := ShouldDoSeparator_defined v h
  rcases p with _ | p
  · exact ⟨_, rfl⟩
  · cases p
    · exact ⟨_, rfl⟩
    · exact ⟨_, rfl⟩
    · exact ⟨_, rfl⟩
    all_goals
      simp only [step, VisitorBase.ShouldBeginGroup, GetProperties, hs]
      exact ⟨_, rfl⟩

theorem AfterBeginGroup_depths (p : Option Properties) (v : VisitorBase) :
    (v.AfterBeginGroup p).needSeparator.length = v.needSeparator.length + pushed p ∧
      (v.AfterBeginGroup p).firstItem.length = v.firstItem.length + pushed p := by
  rcases p with _ | p
  · exact ⟨rfl, rfl⟩
  · cases p <;> exact ⟨rfl, rfl⟩

theorem step_ShouldEndGroup_depths (p : Option Properties) (v v1 : VisitorBase) (r : Bool)
    (h : step (Call.ShouldEndGroup p) v = some (r, v1)) :
    v1.needSeparator.length + pushed p = v.needSeparator.length ∧
      v1.firstItem.length + pushed p = v.firstItem.length := by
  obtain ⟨need, first⟩ := v
  rcases p with _ | p
  · simp only [step, VisitorBase.ShouldEndGroup, GetProperties, Option.some.injEq,
      Prod.mk.injEq] at h
    rw [← h.2]; exact ⟨rfl, rfl⟩
  · cases p
    · simp only [step, VisitorBase.ShouldEndGroup, GetProperties, Option.some.injEq,
        Prod.mk.injEq] at h
      rw [← h.2]; exact ⟨rfl, rfl⟩
    · simp only [step, VisitorBase.ShouldEndGroup, GetProperties, Option.some.injEq,
        Prod.mk.injEq] at h
      rw [← h.2]; exact ⟨rfl, rfl⟩
    · simp only [step, VisitorBase.ShouldEndGroup, GetProperties, Option.some.injEq,
        Prod.mk.injEq] at h
      rw [← h.2]; exact ⟨markBack_length _, rfl⟩
    all_goals
      cases first with
      | nil => simp [step, VisitorBase.ShouldEndGroup, GetProperties] at h
      | cons f fs =>
        cases need with
        | nil => simp [step, VisitorBase.ShouldEndGroup, GetProperties] at h
        | cons n ns =>
          simp only [step, VisitorBase.ShouldEndGroup, GetProperties, Option.some.injEq,
            Prod.mk.injEq] at h
          rw [← h.2]; exact ⟨rfl, rfl⟩

theorem step_ShouldEndGroup_defined (p : Option Properties) (v : VisitorBase)
    (hn : pushed p ≤ v.needSeparator.length) (hf : pushed p ≤ v.firstItem.length) :
    ∃ x, step (Call.ShouldEndGroup p) v = some x := by
  obtain ⟨need, first⟩ := v
  rcases p with _ | p
  · exact ⟨_, rfl⟩
  · cases p
    · exact ⟨_, rfl⟩
    · exact ⟨_, rfl⟩
    · exact ⟨_, rfl⟩
    all_goals
      cases first with
      | nil => simp [pushed, GetProperties] at hf
      | cons f fs =>
        cases need with
        | nil => simp [pushed, GetProperties] at hn
        | cons n ns => exact ⟨_, rfl⟩

theorem pushed_le_one (p : Option Properties) : pushed p ≤ 1 := by
  rcases p with _ | p
  · simp [pushed, GetProperties]
  · cases p <;> simp [pushed, GetProperties]

theorem balanced_run (calls : List Call) (hb : Balanced calls) :
    ∀ v : VisitorBase,
      (∀ rs v1, run calls v = some (rs, v1) →
        v1.needSeparator.length = v.needSeparator.length ∧
          v1.firstItem.length = v.firstItem.length) ∧
      (v.separatorDefined → ∃ x, run calls v = some x) := by
  induction hb with
  | nil =>
    intro v
    refine ⟨?_, fun _ => ⟨_, rfl⟩⟩
    intro rs v1 h
    simp only [run, Option.some.injEq, Prod.mk.injEq] at h
    rw [← h.2]
    exact ⟨rfl, rfl⟩
  | @separator rest _ ih =>
    intro v
    constructor
    · intro rs v1 h
      obtain ⟨r, v2, rs1, h1, h2, _⟩ := (run_cons_eq_some _ _ _ _ _).1 h
      have d1 := ShouldDoSeparator_depths v v2 r h1
      have d2 := (ih v2).1 rs1 v1 h2
      exact ⟨d2.1.trans d1.1, d2.2.trans d1.2⟩
    · intro hwf
      obtain ⟨⟨r, v2⟩, h1⟩ := ShouldDoSeparator_defined v hwf
      have d1 := ShouldDoSeparator_depths v v2 r h1
      obtain ⟨⟨rs1, v3⟩, h2⟩ :=
        (ih v2).2 (separatorDefined_of_depths v v2 hwf d1.1 d1.2)
      exact ⟨_, (run_cons_eq_some _ _ _ _ _).2 ⟨r, v2, rs1, h1, h2, rfl⟩⟩
  | @group p inner rest _ _ ihInner ihRest =>
    intro v
    constructor
    · intro rs v1 h
      obtain ⟨r1, w1, rs1, h1, h2, _⟩ := (run_cons_eq_some _ _ _ _ _).1 h
      obtain ⟨r2, w2, rs2, h3, h4, _⟩ := (run_cons_eq_some _ _ _ _ _).1 h2
      obtain ⟨ra, w3, rb, h5, h6, _⟩ := (run_append_eq_some _ _ _ _ _).1 h4
      obtain ⟨r4, w4, rs4, h7, h8, _⟩ := (run_cons_eq_some _ _ _ _ _).1 h6
      have d1 := step_ShouldBeginGroup_depths p v w1 r1 h1
      simp only [step, Option.some.injEq, Prod.mk.injEq] at h3
      have d2 := AfterBeginGroup_depths p w1
      rw [h3.2] at d2
      have d3 := (ihInner w2).1 ra w3 h5
      have d4 := step_ShouldEndGroup_depths p w3 w4 r4 h7
      have d5 := (ihRest w4).1 rs4 v1 h8
      omega
    · intro hwf
      obtain ⟨⟨r1, w1⟩, h1⟩ := step_ShouldBeginGroup_defined p v hwf
      have d1 := step_ShouldBeginGroup_depths p v w1 r1 h1
      have d2 := AfterBeginGroup_depths p w1
      have hk := pushed_le_one p
      have hwf1 := separatorDefined_of_depths v w1 hwf d1.1 d1.2
      have hwf2 : (w1.AfterBeginGroup p).separatorDefined := by
        intro hne he
        have e1 : (w1.AfterBeginGroup p).firstItem.length = 0 := by rw [he]; rfl
        have e2 : w1.firstItem = [] := List.eq_nil_of_length_eq_zero (by omega)
        have e3 : w1.needSeparator = [] := by
          by_contra hc
          exact hwf1 hc e2
        have e4 : (w1.AfterBeginGroup p).needSeparator.length = 0 := by
          rw [d2.1, e3]; simp; omega
        exact hne (List.eq_nil_of_length_eq_zero e4)
      obtain ⟨⟨ra, w3⟩, h5⟩ := (ihInner (w1.AfterBeginGroup p)).2 hwf2
      have d3 := (ihInner (w1.AfterBeginGroup p)).1 ra w3 h5
      obtain ⟨⟨r4, w4⟩, h7⟩ := step_ShouldEndGroup_defined p w3 (by omega) (by omega)
      have d4 := step_ShouldEndGroup_depths p w3 w4 r4 h7
      have hwf4 : w4.separatorDefined :=
        separatorDefined_of_depths v w4 hwf (by omega) (by omega)
      obtain ⟨⟨rs4, v1⟩, h8⟩ := (ihRest w4).2 hwf4
      refine ⟨(r1 :: false :: (ra ++ r4 :: rs4), v1),
        (run_cons_eq_some _ _ _ _ _).2 ⟨r1, w1, _, h1, ?_, rfl⟩⟩
      refine (run_cons_eq_some _ _ _ _ _).2 ⟨false, w1.AfterBeginGroup p, _, rfl, ?_, rfl⟩
      refine (run_append_eq_some _ _ _ _ _).2 ⟨ra, w3, _, h5, ?_, rfl⟩
      exact (run_cons_eq_some _ _ _ _ _).2 ⟨r4, w4, rs4, h7, h8, rfl⟩

theorem run_section_marks (marks : List Call) (hmarks : ∀ c ∈ marks, isSectionMark c = true)
    (need first : Bool) (needRest firstRest : List Bool) :
    run marks { needSeparator := need :: needRest, firstItem := first :: firstRest } =
      some (marks.map (fun _ => false),
        { needSeparator := (need || !marks.isEmpty) :: needRest,
          firstItem := first :: firstRest }) := by
  induction marks generalizing need with
  | nil => simp [run]
  | cons c marks ih =>
    have hc : isSectionMark c = true := hmarks c (List.mem_cons_self _ _)
    have hrest : ∀ d ∈ marks, isSectionMark d = true :=
      fun d hd => hmarks d (List.mem_cons_of_mem _ hd)
    have hstep : step c { needSeparator := need :: needRest, firstItem := first :: firstRest } =
        some (false, { needSeparator := true :: needRest, firstItem := first :: firstRest }) := by
      cases c with
      | ShouldBeginGroup p =>
        rcases p with _ | p
        · simp [isSectionMark] at hc
        · cases p <;> simp [isSectionMark] at hc
          simp [step, VisitorBase.ShouldBeginGroup, GetProperties, markBack]
      | AfterBeginGroup p => simp [isSectionMark] at hc
      | ShouldEndGroup p =>
        rcases p with _ | p
        · simp [isSectionMark] at hc
        · cases p <;> simp [isSectionMark] at hc
          simp [step, VisitorBase.ShouldEndGroup, GetProperties, markBack]
      | ShouldDoSeparator => simp [isSectionMark] at hc
    simp [run, hstep, ih hrest true]

/-- C6 (counterexample): in a scope opened by `AfterBeginGroup(Extension)` one
`Section` marking makes the next `ShouldDoSeparator` return true, although no item
has been emitted in the scope yet. -/
theorem ShouldDoSeparator_first_item_extension_counterexample :
    run [Call.AfterBeginGroup (some Properties.Extension),
         Call.ShouldEndGroup (some Properties.Section),
         Call.ShouldDoSeparator] { needSeparator := [], firstItem := [] } =
      some ([false, false, true], { needSeparator := [false], firstItem := [false] }) := by
  decide

/-- C6 (amended): after `AfterBeginGroup(P)`, `P` being `Whole` or `Extension`, followed
by `Section` markings only, the next `ShouldDoSeparator` is defined and returns
false when `P` is `Whole`; when `P` is `Extension` it returns false exactly when no
`Section` marking was made, and true after at least one.  Both tops are false
afterwards. -/
theorem ShouldDoSeparator_first_item_after_scope_opened (v : VisitorBase) (P : Properties)
    (marks : List Call) (hP : P = Properties.Whole ∨ P = Properties.Extension)
    (hmarks : ∀ c ∈ marks, isSectionMark c = true) :
    ∃ rs v1, run (Call.AfterBeginGroup (some P) :: marks) v = some (rs, v1) ∧
      v1.ShouldDoSeparator =
        some (decide (P = Properties.Extension) && !marks.isEmpty,
          { needSeparator := false :: v.needSeparator, firstItem := false :: v.firstItem }) := by
  rcases hP with hP | hP
  · subst hP
    refine ⟨false :: marks.map (fun _ => false),
      { needSeparator := (false || !marks.isEmpty) :: v.needSeparator,
        firstItem := true :: v.firstItem }, ?_, ?_⟩
    · refine (run_cons_eq_some _ _ _ _ _).2 ⟨false, v.AfterBeginGroup (some Properties.Whole),
        _, rfl, ?_, rfl⟩
      exact run_section_marks marks hmarks false true v.needSeparator v.firstItem
    · simp [VisitorBase.ShouldDoSeparator]
  · subst hP
    refine ⟨false :: marks.map (fun _ => false),
      { needSeparator := (false || !marks.isEmpty) :: v.needSeparator,
        firstItem := false :: v.firstItem }, ?_, ?_⟩
    · refine (run_cons_eq_some _ _ _ _ _).2 ⟨false,
        v.AfterBeginGroup (some Properties.Extension), _, rfl, ?_, rfl⟩
      exact run_section_marks marks hmarks false false v.needSeparator v.firstItem
    · simp [VisitorBase.ShouldDoSeparator]

/-- C6 (witness): the amended statement at `Extension` with two `Section` markings. -/
theorem ShouldDoSeparator_first_item_after_scope_opened_witness :
    ∃ rs v1,
      run (Call.AfterBeginGroup (some Properties.Extension) ::
          [Call.ShouldBeginGroup (some Properties.Section),
           Call.ShouldEndGroup (some Properties.Section)])
        { needSeparator := [true], firstItem := [false] } = some (rs, v1) ∧
      v1.ShouldDoSeparator =
        some (decide (Properties.Extension = Properties.Extension) &&
            !(List.isEmpty [Call.ShouldBeginGroup (some Properties.Section),
              Call.ShouldEndGroup (some Properties.Section)]),
          { needSeparator := false :: [true], firstItem := false :: [false] }) :=
  ShouldDoSeparator_first_item_after_scope_opened
    { needSeparator := [true], firstItem := [false] } Properties.Extension
    [Call.ShouldBeginGroup (some Properties.Section),
     Call.ShouldEndGroup (some Properties.Section)]
    (Or.inr rfl) (by decide)

/-- C7: a balanced sequence of group calls, with any properties and with
`ShouldDoSeparator` calls in between, leaves both stacks at the depth they had
before it, from every initial state; and it runs to its end without touching an
empty vector whenever `ShouldDoSeparator` is defined in the initial state. -/
theorem balanced_traversal_restores_depths (calls : List Call) (hb : Balanced calls)
    (v : VisitorBase) :
    (∀ rs v1, run calls v = some (rs, v1) →
      v1.needSeparator.length = v.needSeparator.length ∧
        v1.firstItem.length = v.firstItem.length) ∧
    (v.separatorDefined → ∃ rs v1, run calls v = some (rs, v1) ∧
      v1.needSeparator.length = v.needSeparator.length ∧
        v1.firstItem.length = v.firstItem.length) := by
  refine ⟨(balanced_run calls hb v).1, ?_⟩
  intro hwf
  obtain ⟨⟨rs, v1⟩, h⟩ := (balanced_run calls hb v).2 hwf
  exact ⟨rs, v1, h, (balanced_run calls hb v).1 rs v1 h⟩

/-- C7 (witness): a menu holding an item, a section with an item, and a nested
extension group, walked from a state with one open scope. -/
theorem balanced_traversal_restores_depths_witness :
    ∃ rs v1,
      run [Call.ShouldBeginGroup (some Properties.Whole),
           Call.AfterBeginGroup (some Properties.Whole),
           Call.ShouldDoSeparator,
           Call.ShouldBeginGroup (some Properties.Section),
           Call.AfterBeginGroup (some Properties.Section),
           Call.ShouldDoSeparator,
           Call.ShouldEndGroup (some Properties.Section),
           Call.ShouldBeginGroup (some Properties.Extension),
           Call.AfterBeginGroup (some Properties.Extension),
           Call.ShouldEndGroup (some Properties.Extension),
           Call.ShouldEndGroup (some Properties.Whole)]
        { needSeparator := [true], firstItem := [false] } = some (rs, v1) ∧
      v1.needSeparator.length = 1 ∧ v1.firstItem.length = 1 :=
  (balanced_traversal_restores_depths _
    (@Balanced.group (some Properties.Whole)
      [Call.ShouldDoSeparator,
       Call.ShouldBeginGroup (some Properties.Section),
       Call.AfterBeginGroup (some Properties.Section),
       Call.ShouldDoSeparator,
       Call.ShouldEndGroup (some Properties.Section),
       Call.ShouldBeginGroup (some Properties.Extension),
       Call.AfterBeginGroup (some Properties.Extension),
       Call.ShouldEndGroup (some Properties.Extension)] []
      (Balanced.separator
        (@Balanced.group (some Properties.Section) [Call.ShouldDoSeparator]
          [Call.ShouldBeginGroup (some Properties.Extension),
           Call.AfterBeginGroup (some Properties.Extension),
           Call.ShouldEndGroup (some Properties.Extension)]
          (Balanced.separator Balanced.nil)
          (@Balanced.group (some Properties.Extension) [] [] Balanced.nil Balanced.nil)))
      Balanced.nil)
    { needSeparator := [true], firstItem := [false] }).2
    (fun _ h => List.noConfusion h)

/-- C8: inside a scope opened by `AfterBeginGroup(P)`, `P` being `Whole` or `Extension`,
a `ShouldEndGroup(Section)` that is directly followed by the closing
`ShouldEndGroup(P)` reports no separator, neither does the closing call, and the
state after the two calls is the state the closing call alone would have left: the
request is dropped with the popped scope, so whatever calls come later report and
leave exactly what they would have without the `Section` marking. -/
theorem trailing_section_never_separates (P : Properties)
    (hP : P = Properties.Whole ∨ P = Properties.Extension) (need first : Bool)
    (needRest firstRest : List Bool) (later : List Call) :
    run [Call.ShouldEndGroup (some Properties.Section), Call.ShouldEndGroup (some P)]
        { needSeparator := need :: needRest, firstItem := first :: firstRest } =
      some ([false, false], { needSeparator := needRest, firstItem := firstRest }) ∧
    run [Call.ShouldEndGroup (some P)]
        { needSeparator := need :: needRest, firstItem := first :: firstRest } =
      some ([false], { needSeparator := needRest, firstItem := firstRest }) ∧
    (run (Call.ShouldEndGroup (some Properties.Section) :: Call.ShouldEndGroup (some P) :: later)
        { needSeparator := need :: needRest, firstItem := first :: firstRest }).map
        (fun x => (x.1.drop 2, x.2)) =
      (run (Call.ShouldEndGroup (some P) :: later)
        { needSeparator := need :: needRest, firstItem := first :: firstRest }).map
        (fun x => (x.1.drop 1, x.2)) := by
  rcases hP with hP | hP <;> subst hP
  · refine ⟨rfl, rfl, ?_⟩
    simp only [run, step, VisitorBase.ShouldEndGroup, GetProperties, markBack]
    cases run later { needSeparator := needRest, firstItem := firstRest } <;> rfl
  · refine ⟨rfl, rfl, ?_⟩
    simp only [run, step, VisitorBase.ShouldEndGroup, GetProperties, markBack]
    cases run later { needSeparator := needRest, firstItem := firstRest } <;> rfl

/-- C8 (witness): a `Whole` scope with a pending request, closed right after a section
and followed by an item of the enclosing scope. -/
theorem trailing_section_never_separates_witness :
    run [Call.ShouldEndGroup (some Properties.Section),
         Call.ShouldEndGroup (some Properties.Whole)]
        { needSeparator := false :: [true], firstItem := false :: [false] } =
      some ([false, false], { needSeparator := [true], firstItem := [false] }) ∧
    run [Call.ShouldEndGroup (some Properties.Whole)]
        { needSeparator := false :: [true], firstItem := false :: [false] } =
      some ([false], { needSeparator := [true], firstItem := [false] }) ∧
    (run (Call.ShouldEndGroup (some Properties.Section) ::
          Call.ShouldEndGroup (some Properties.Whole) :: [Call.ShouldDoSeparator])
        { needSeparator := false :: [true], firstItem := false :: [false] }).map
        (fun x => (x.1.drop 2, x.2)) =
      (run (Call.ShouldEndGroup (some Properties.Whole) :: [Call.ShouldDoSeparator])
        { needSeparator := false :: [true], firstItem := false :: [false] }).map
        (fun x => (x.1.drop 1, x.2)) :=
  trailing_section_never_separates Properties.Whole (Or.inl rfl) false false [true] [false]
    [Call.ShouldDoSeparator]

end MenuTable

/-! ## Theorems: the flag engine -/

theorem testBit_setFlag (flags ii i : Nat) :
    (setFlag flags ii).testBit i = (flags.testBit i || decide (ii = i)) := by
  simp [setFlag, Nat.testBit_or, Nat.testBit_two_pow]

theorem testBit_flipAll (N flags i : Nat) :
    (flipAll N flags).testBit i = (decide (i < N) ^^ flags.testBit i) := by
  simp [flipAll, Nat.testBit_xor, Nat.testBit_two_pow_sub_one]

theorem testBit_setWhere {α : Type} (g : α → Bool) (l : List α) (ii flags i : Nat) :
    (setWhere g l ii flags).testBit i =
      (flags.testBit i ||
        (decide (ii ≤ i) && match l[i - ii]? with
          | some r => g r
          | none => false)) := by
  induction l generalizing ii flags with
  | nil => simp [setWhere]
  | cons r rest ih =>
    simp only [setWhere]
    rw [ih]
    rcases Nat.lt_trichotomy i ii with hlt | heq | hgt
    · have h1 : ¬ ii ≤ i := by omega
      have h2 : ¬ ii + 1 ≤ i := by omega
      have h3 : ¬ ii = i := by omega
      split <;> simp [testBit_setFlag, h1, h2, h3]
    · subst heq
      have h2 : ¬ i + 1 ≤ i := by omega
      split <;> simp_all [testBit_setFlag]
    · have h1 : ii ≤ i := by omega
      have h2 : ii + 1 ≤ i := by omega
      have h3 : ¬ ii = i := by omega
      have h4 : i - ii = (i - (ii + 1)) + 1 := by omega
      rw [h4, List.getElem?_cons_succ]
      split <;> simp [testBit_setFlag, h1, h2, h3]

theorem quickLoop_eq {Project : Type} (project : Project)
    (l : List (ReservedCommandFlag Project)) (ii : Nat) (flags quickFlags : CommandFlag)
    (trace : List Event) :
    quickLoop project l ii (flags, quickFlags, trace) =
      (setWhere (fun r => r.options.quickTest && r.predicate project) l ii flags,
        setWhere (fun r => r.options.quickTest) l ii quickFlags,
        trace ++ callsWhere (fun r => r.options.quickTest) l ii) := by
  induction l generalizing ii flags quickFlags trace with
  | nil => simp [quickLoop, setWhere, callsWhere]
  | cons r rest ih =>
    simp only [quickLoop, setWhere, callsWhere]
    by_cases hq : r.options.quickTest = true <;> by_cases hp : r.predicate project = true <;>
      simp [ih, hq, hp]

theorem slowLoop_eq {Project : Type} (project : Project)
    (l : List (ReservedCommandFlag Project)) (ii : Nat) (flags : CommandFlag)
    (trace : List Event) :
    slowLoop project l ii (flags, trace) =
      (setWhere (fun r => !r.options.quickTest && r.predicate project) l ii flags,
        trace ++ callsWhere (fun r => !r.options.quickTest) l ii) := by
  induction l generalizing ii flags trace with
  | nil => simp [slowLoop, setWhere, callsWhere]
  | cons r rest ih =>
    simp only [slowLoop, setWhere, callsWhere]
    by_cases hq : r.options.quickTest = true <;> by_cases hp : r.predicate project = true <;>
      simp [ih, hq, hp]

theorem mem_callsWhere {α : Type} (g : α → Bool) (l : List α) (ii : Nat) (e : Event)
    (h : e ∈ callsWhere g l ii) :
    ∃ j r, e = Event.predicate j ∧ ii ≤ j ∧ l[j - ii]? = some r ∧ g r = true := by
  induction l generalizing ii with
  | nil => simp [callsWhere] at h
  | cons r rest ih =>
    simp only [callsWhere] at h
    by_cases hg : g r = true
    · rw [if_pos hg] at h
      rcases List.mem_cons.1 h with h1 | h1
      · exact ⟨ii, r, h1, le_refl _, by simp, hg⟩
      · obtain ⟨j, r1, e1, e2, e3, e4⟩ := ih (ii + 1) h1
        have h4 : j - ii = (j - (ii + 1)) + 1 := by omega
        exact ⟨j, r1, e1, by omega, by rw [h4, List.getElem?_cons_succ]; exact e3, e4⟩
    · rw [if_neg hg] at h
      obtain ⟨j, r1, e1, e2, e3, e4⟩ := ih (ii + 1) h
      have h4 : j - ii = (j - (ii + 1)) + 1 := by omega
      exact ⟨j, r1, e1, by omega, by rw [h4, List.getElem?_cons_succ]; exact e3, e4⟩

theorem GetUpdateFlags_inactive_eq {Project : Type} (reg : Registry Project)
    (m : MenuManager Project) (h : reg.IsActive m.mProject = false) :
    m.GetUpdateFlags reg true =
      ((m.lastFlags &&&
          flipAll reg.NCommandFlags
            (setWhere (fun r => r.options.quickTest) reg.ReservedFlags 0 0)) |||
          setWhere (fun r => r.options.quickTest && r.predicate m.mProject) reg.ReservedFlags 0 0,
        { m with
          lastFlags :=
            (m.lastFlags &&&
              flipAll reg.NCommandFlags
                (setWhere (fun r => r.options.quickTest) reg.ReservedFlags 0 0)) |||
              setWhere (fun r => r.options.quickTest && r.predicate m.mProject)
                reg.ReservedFlags 0 0
          trace := m.trace ++ callsWhere (fun r => r.options.quickTest) reg.ReservedFlags 0 }) := by
  simp only [MenuManager.GetUpdateFlags, quickLoop_eq, h]
  rfl

theorem GetUpdateFlags_full_eq {Project : Type} (reg : Registry Project) (checkActive : Bool)
    (m : MenuManager Project) (h : (checkActive && !reg.IsActive m.mProject) = false) :
    m.GetUpdateFlags reg checkActive =
      (setWhere (fun r => !r.options.quickTest && r.predicate m.mProject) reg.ReservedFlags 0
          (setWhere (fun r => r.options.quickTest && r.predicate m.mProject)
            reg.ReservedFlags 0 0),
        { m with
          lastFlags :=
            setWhere (fun r => !r.options.quickTest && r.predicate m.mProject)
              reg.ReservedFlags 0
              (setWhere (fun r => r.options.quickTest && r.predicate m.mProject)
                reg.ReservedFlags 0 0)
          trace := (m.trace ++ callsWhere (fun r => r.options.quickTest) reg.ReservedFlags 0) ++
            callsWhere (fun r => !r.options.quickTest) reg.ReservedFlags 0 }) := by
  simp only [MenuManager.GetUpdateFlags, quickLoop_eq, h, slowLoop_eq]
  rfl

/-- C2: on an inactive window `GetUpdateFlags(checkActive = true)` returns, at every
index `i` of the bitset, the freshly evaluated predicate `i` when flag `i` is
registered as a quick test, and bit `i` of the cached `lastFlags` when it is not
(registered as a slow test, or not registered at all); and every predicate it
calls belongs to a quick-test flag, so no other predicate is evaluated. -/
theorem GetUpdateFlags_inactive_window {Project : Type} (reg : Registry Project)
    (m : MenuManager Project) (i : Nat)
    (hinactive : reg.IsActive m.mProject = false) (hN : i < reg.NCommandFlags) :
    (m.GetUpdateFlags reg true).1.testBit i =
        (match reg.ReservedFlags[i]? with
          | some r =>
            if r.options.quickTest then r.predicate m.mProject else m.lastFlags.testBit i
          | none => m.lastFlags.testBit i) ∧
    ∃ calls, (m.GetUpdateFlags reg true).2.trace = m.trace ++ calls ∧
      ∀ e ∈ calls, ∃ j q, e = Event.predicate j ∧ reg.ReservedFlags[j]? = some q ∧
        q.options.quickTest = true := by
  rw [GetUpdateFlags_inactive_eq reg m hinactive]
  constructor
  · simp only [Nat.testBit_or, Nat.testBit_and, testBit_flipAll, testBit_setWhere,
      Nat.zero_testBit, Nat.sub_zero, Nat.zero_le, decide_True, Bool.true_and,
      Bool.false_or, hN]
    cases reg.ReservedFlags[i]? with
    | none => simp
    | some r =>
      by_cases hq : r.options.quickTest = true
      · simp [hq]
      · simp [hq]
  · refine ⟨_, rfl, ?_⟩
    intro e he
    obtain ⟨j, q, h1, _, h3, h4⟩ := mem_callsWhere _ _ _ e he
    exact ⟨j, q, h1, h3, h4⟩

/-- C2 (witness): both conditions hold in the project and nothing is cached; the
window is inactive, so bit 1, which is not a quick test, stays at its cached value
and bit 0, a quick test, is evaluated afresh. -/
theorem GetUpdateFlags_inactive_window_witness :
    (((freshManager 3 0 0 1).GetUpdateFlags (twoFlags false []) true).1.testBit 1 =
        (match (twoFlags false []).ReservedFlags[1]? with
          | some r =>
            if r.options.quickTest then r.predicate (freshManager 3 0 0 1).mProject
            else (freshManager 3 0 0 1).lastFlags.testBit 1
          | none => (freshManager 3 0 0 1).lastFlags.testBit 1) ∧
      ∃ calls,
        ((freshManager 3 0 0 1).GetUpdateFlags (twoFlags false []) true).2.trace =
            (freshManager 3 0 0 1).trace ++ calls ∧
        ∀ e ∈ calls, ∃ j q, e = Event.predicate j ∧
          (twoFlags false []).ReservedFlags[j]? = some q ∧ q.options.quickTest = true) ∧
    ((freshManager 3 0 0 1).GetUpdateFlags (twoFlags false []) true).1 = 1 ∧
    ((freshManager 3 0 0 1).GetUpdateFlags (twoFlags false []) true).2.trace =
      [Event.predicate 0] :=
  ⟨GetUpdateFlags_inactive_window (twoFlags false []) (freshManager 3 0 0 1) 1 rfl
    (by decide), by decide, by decide⟩

/-- C9: `TryToMakeActionAllowed` returns true exactly when the in/out `flags`, as it
is on return, contains every bit of `flagsRqd`. -/
theorem TryToMakeActionAllowed_result_iff {Project : Type} (reg : Registry Project)
    (checkActive : Bool) (flags flagsRqd : CommandFlag) (m : MenuManager Project) :
    (m.TryToMakeActionAllowed reg checkActive flags flagsRqd).1 = true ↔
      (m.TryToMakeActionAllowed reg checkActive flags flagsRqd).2.1 &&& flagsRqd = flagsRqd := by
  simp [MenuManager.TryToMakeActionAllowed]

theorem GetUpdateFlags_state {Project : Type} (reg : Registry Project) (checkActive : Bool)
    (m : MenuManager Project) :
    ∃ calls, (∀ e ∈ calls, ∃ j, e = Event.predicate j) ∧
      (m.GetUpdateFlags reg checkActive).2 =
        { m with
          lastFlags := (m.GetUpdateFlags reg checkActive).1
          trace := m.trace ++ calls } := by
  by_cases h : (checkActive && !reg.IsActive m.mProject) = true
  · simp only [Bool.and_eq_true, Bool.not_eq_true', Bool.not_eq_eq_eq_not, Bool.not_true] at h
    obtain ⟨hc, ha⟩ := h
    subst hc
    rw [GetUpdateFlags_inactive_eq reg m ha]
    refine ⟨_, ?_, rfl⟩
    intro e he
    obtain ⟨j, _, h1, _⟩ := mem_callsWhere _ _ _ e he
    exact ⟨j, h1⟩
  · have h1 : (checkActive && !reg.IsActive m.mProject) = false := by
      simpa using h
    rw [GetUpdateFlags_full_eq reg checkActive m h1]
    refine ⟨callsWhere (fun r => r.options.quickTest) reg.ReservedFlags 0 ++
      callsWhere (fun r => !r.options.quickTest) reg.ReservedFlags 0, ?_, ?_⟩
    · intro e he
      rcases List.mem_append.1 he with he | he
      · obtain ⟨j, _, h1, _⟩ := mem_callsWhere _ _ _ e he
        exact ⟨j, h1⟩
      · obtain ⟨j, _, h1, _⟩ := mem_callsWhere _ _ _ e he
        exact ⟨j, h1⟩
    · simp only [List.append_assoc]

theorem GetUpdateFlags_again {Project : Type} (reg : Registry Project) (checkActive : Bool)
    (m n : MenuManager Project) (hp : n.mProject = m.mProject)
    (hl : n.lastFlags = (m.GetUpdateFlags reg checkActive).1) :
    (n.GetUpdateFlags reg checkActive).1 = (m.GetUpdateFlags reg checkActive).1 := by
  by_cases h : (checkActive && !reg.IsActive m.mProject) = true
  · simp only [Bool.and_eq_true, Bool.not_eq_true', Bool.not_eq_eq_eq_not, Bool.not_true] at h
    obtain ⟨hc, ha⟩ := h
    subst hc
    have ha2 : reg.IsActive n.mProject = false := by rw [hp]; exact ha
    rw [GetUpdateFlags_inactive_eq reg n ha2, hl, GetUpdateFlags_inactive_eq reg m ha, hp]
    apply Nat.eq_of_testBit_eq
    intro i
    simp only [Nat.testBit_or, Nat.testBit_and]
    generalize m.lastFlags.testBit i = a
    generalize (flipAll reg.NCommandFlags
      (setWhere (fun r => r.options.quickTest) reg.ReservedFlags 0 0)).testBit i = b
    generalize (setWhere (fun r => r.options.quickTest && r.predicate m.mProject)
      reg.ReservedFlags 0 0).testBit i = c
    cases a <;> cases b <;> cases c <;> rfl
  · have h1 : (checkActive && !reg.IsActive m.mProject) = false := by
      simpa using h
    have h2 : (checkActive && !reg.IsActive n.mProject) = false := by rw [hp]; exact h1
    rw [GetUpdateFlags_full_eq reg checkActive n h2, GetUpdateFlags_full_eq reg checkActive m h1,
      hp]

theorem pushes_append (a b : List Event) : pushes (a ++ b) = pushes a ++ pushes b := by
  simp [pushes, List.filter_append]

theorem pushes_predicate_calls (calls : List Event)
    (h : ∀ e ∈ calls, ∃ j, e = Event.predicate j) : pushes calls = [] := by
  induction calls with
  | nil => rfl
  | cons e rest ih =>
    obtain ⟨j, hj⟩ := h e (List.mem_cons_self _ _)
    subst hj
    have := ih (fun e he => h e (List.mem_cons_of_mem _ he))
    simpa [pushes] using this

theorem UpdateMenus_unchanged {Project : Type} (reg : Registry Project) (checkActive : Bool)
    (m : MenuManager Project) (h : (m.GetUpdateFlags reg checkActive).1 = m.mLastFlags) :
    m.UpdateMenus reg checkActive = (m.GetUpdateFlags reg checkActive).2 := by
  obtain ⟨calls, _, hs⟩ := GetUpdateFlags_state reg checkActive m
  have hm : (m.GetUpdateFlags reg checkActive).2.mLastFlags = m.mLastFlags := by rw [hs]
  simp only [MenuManager.UpdateMenus]
  rw [hm, h]
  simp

theorem UpdateMenus_changed {Project : Type} (reg : Registry Project) (checkActive : Bool)
    (m : MenuManager Project) (h : (m.GetUpdateFlags reg checkActive).1 ≠ m.mLastFlags) :
    m.UpdateMenus reg checkActive =
      { (m.GetUpdateFlags reg checkActive).2 with
        mLastFlags := (m.GetUpdateFlags reg checkActive).1
        trace := (m.GetUpdateFlags reg checkActive).2.trace ++
          [Event.EnableUsingFlags
              (laxLoop m.mProject (m.GetUpdateFlags reg checkActive).1 reg.Enablers
                (m.GetUpdateFlags reg checkActive).1)
              (if m.mWhatIfNoSelection = 0 then
                laxLoop m.mProject (m.GetUpdateFlags reg checkActive).1 reg.Enablers
                  (m.GetUpdateFlags reg checkActive).1
              else (m.GetUpdateFlags reg checkActive).1),
            Event.Publish] } := by
  obtain ⟨calls, _, hs⟩ := GetUpdateFlags_state reg checkActive m
  have hm : (m.GetUpdateFlags reg checkActive).2.mLastFlags = m.mLastFlags := by rw [hs]
  have hp : (m.GetUpdateFlags reg checkActive).2.mProject = m.mProject := by rw [hs]
  have hw : (m.GetUpdateFlags reg checkActive).2.mWhatIfNoSelection = m.mWhatIfNoSelection := by
    rw [hs]
  simp only [MenuManager.UpdateMenus]
  rw [hm, hp, hw]
  simp [h]

theorem UpdateMenus_fields {Project : Type} (reg : Registry Project) (checkActive : Bool)
    (m : MenuManager Project) :
    (m.UpdateMenus reg checkActive).mProject = m.mProject ∧
    (m.UpdateMenus reg checkActive).lastFlags = (m.GetUpdateFlags reg checkActive).1 ∧
    (m.UpdateMenus reg checkActive).mLastFlags = (m.GetUpdateFlags reg checkActive).1 := by
  obtain ⟨calls, _, hs⟩ := GetUpdateFlags_state reg checkActive m
  by_cases h : (m.GetUpdateFlags reg checkActive).1 = m.mLastFlags
  · rw [UpdateMenus_unchanged reg checkActive m h]
    refine ⟨by rw [hs], by rw [hs], ?_⟩
    rw [hs]
    exact h.symm
  · rw [UpdateMenus_changed reg checkActive m h]
    refine ⟨by rw [hs], by rw [hs], rfl⟩

/-- C4 (counterexample): when the flags the first call computes equal `mLastFlags`
already, two calls of `UpdateMenus` in a row push nothing at all, not once. -/
theorem UpdateMenus_twice_exactly_once_counterexample :
    pushes (((freshManager 1 0 1 2).UpdateMenus (twoFlags true []) true).UpdateMenus
      (twoFlags true []) true).trace = [] := by
  decide

/-- C4 (amended): of two calls of `UpdateMenus(checkActive)` in a row, the second pushes
nothing, publishes nothing, leaves `mLastFlags` unchanged and only evaluates
predicates; the first performs the enable-push, followed by the change
notification, once when the flags it computes differ from `mLastFlags` and not at
all when they are equal.  So the push happens at most once. -/
theorem UpdateMenus_twice_pushes_at_most_once {Project : Type} (reg : Registry Project)
    (checkActive : Bool) (m : MenuManager Project) :
    pushes ((m.UpdateMenus reg checkActive).UpdateMenus reg checkActive).trace =
        pushes (m.UpdateMenus reg checkActive).trace ∧
    ((m.UpdateMenus reg checkActive).UpdateMenus reg checkActive).mLastFlags =
        (m.UpdateMenus reg checkActive).mLastFlags ∧
    (∃ calls,
      ((m.UpdateMenus reg checkActive).UpdateMenus reg checkActive).trace =
          (m.UpdateMenus reg checkActive).trace ++ calls ∧
      ∀ e ∈ calls, ∃ j, e = Event.predicate j) ∧
    ∃ lax strict,
      pushes (m.UpdateMenus reg checkActive).trace =
        pushes m.trace ++
          (if (m.GetUpdateFlags reg checkActive).1 = m.mLastFlags then []
           else [Event.EnableUsingFlags lax strict, Event.Publish]) := by
  obtain ⟨hp, hl, hm⟩ := UpdateMenus_fields reg checkActive m
  have hsame : ((m.UpdateMenus reg checkActive).GetUpdateFlags reg checkActive).1 =
      (m.UpdateMenus reg checkActive).mLastFlags := by
    rw [GetUpdateFlags_again reg checkActive m _ hp hl, hm]
  have h2 := UpdateMenus_unchanged reg checkActive (m.UpdateMenus reg checkActive) hsame
  obtain ⟨calls, hcalls, hs⟩ := GetUpdateFlags_state reg checkActive (m.UpdateMenus reg checkActive)
  have htrace : ((m.UpdateMenus reg checkActive).UpdateMenus reg checkActive).trace =
      (m.UpdateMenus reg checkActive).trace ++ calls := by
    rw [h2, hs]
  refine ⟨?_, ?_, ⟨calls, htrace, hcalls⟩, ?_⟩
  · rw [htrace, pushes_append, pushes_predicate_calls calls hcalls, List.append_nil]
  · rw [h2, hs]
  · obtain ⟨calls1, hcalls1, hs1⟩ := GetUpdateFlags_state reg checkActive m
    by_cases h : (m.GetUpdateFlags reg checkActive).1 = m.mLastFlags
    · refine ⟨0, 0, ?_⟩
      rw [UpdateMenus_unchanged reg checkActive m h, hs1, if_pos h]
      simp only [pushes_append, pushes_predicate_calls calls1 hcalls1]
    · refine ⟨laxLoop m.mProject (m.GetUpdateFlags reg checkActive).1 reg.Enablers
          (m.GetUpdateFlags reg checkActive).1,
        if m.mWhatIfNoSelection = 0 then
          laxLoop m.mProject (m.GetUpdateFlags reg checkActive).1 reg.Enablers
            (m.GetUpdateFlags reg checkActive).1
        else (m.GetUpdateFlags reg checkActive).1, ?_⟩
      rw [UpdateMenus_changed reg checkActive m h, if_neg h]
      simp only []
      rw [hs1]
      simp only [pushes_append, pushes_predicate_calls calls1 hcalls1, List.append_nil]
      rfl

theorem UpdatePrefs_mode {Project : Type} (EXPERIMENTAL_DA bSelectAllIfNone : Bool)
    (m : MenuManager Project) :
    ((m.UpdatePrefs EXPERIMENTAL_DA bSelectAllIfNone).mWhatIfNoSelection = 0 ↔
      EXPERIMENTAL_DA = true ∧ bSelectAllIfNone = false) ∧
    ((m.UpdatePrefs EXPERIMENTAL_DA bSelectAllIfNone).mWhatIfNoSelection = 0 ∨
      (m.UpdatePrefs EXPERIMENTAL_DA bSelectAllIfNone).mWhatIfNoSelection = 1 ∨
      (m.UpdatePrefs EXPERIMENTAL_DA bSelectAllIfNone).mWhatIfNoSelection = 2) := by
  cases EXPERIMENTAL_DA <;> cases bSelectAllIfNone <;> simp [MenuManager.UpdatePrefs]

/-- C5 (counterexample): with `mWhatIfNoSelection = 0` the strict argument of
`EnableUsingFlags` is `flags2`, here 3, whose bit 1 comes from an enabler's
`possibleFlags` only (the computed flags are 1); with `mWhatIfNoSelection = 1` the
strict argument is the computed `flags`, 1, not `flags2`. -/
theorem UpdateMenus_policy_selector_counterexample :
    ((freshManager 1 0 0 0).UpdateMenus (twoFlags true [conditionEnabler 1 2 2]) false).trace =
        [Event.predicate 0, Event.predicate 1, Event.EnableUsingFlags 3 3, Event.Publish] ∧
    ((freshManager 1 0 0 1).UpdateMenus (twoFlags true [conditionEnabler 1 2 2]) false).trace =
        [Event.predicate 0, Event.predicate 1, Event.EnableUsingFlags 3 1, Event.Publish] := by
  decide

/-- C5 (amended): whenever `UpdateMenus` pushes enable state, that is when the flags it
computes differ from `mLastFlags`, the one call of `EnableUsingFlags` gets the
speculative `flags2` as its lax argument in every mode; its strict argument is
`flags2` when `mWhatIfNoSelection` is 0 and the strict, freshly computed `flags`
when the mode is 1 or 2 (any value but 0). -/
theorem UpdateMenus_policy_selector {Project : Type} (reg : Registry Project)
    (checkActive : Bool) (m : MenuManager Project)
    (hchanged : (m.GetUpdateFlags reg checkActive).1 ≠ m.mLastFlags) :
    ∃ strict,
      (m.UpdateMenus reg checkActive).trace =
        (m.GetUpdateFlags reg checkActive).2.trace ++
          [Event.EnableUsingFlags
              (laxLoop m.mProject (m.GetUpdateFlags reg checkActive).1 reg.Enablers
                (m.GetUpdateFlags reg checkActive).1) strict,
            Event.Publish] ∧
      (m.mWhatIfNoSelection = 0 →
        strict = laxLoop m.mProject (m.GetUpdateFlags reg checkActive).1 reg.Enablers
          (m.GetUpdateFlags reg checkActive).1) ∧
      (m.mWhatIfNoSelection ≠ 0 → strict = (m.GetUpdateFlags reg checkActive).1) := by
  refine ⟨if m.mWhatIfNoSelection = 0 then
      laxLoop m.mProject (m.GetUpdateFlags reg checkActive).1 reg.Enablers
        (m.GetUpdateFlags reg checkActive).1
    else (m.GetUpdateFlags reg checkActive).1, ?_, ?_, ?_⟩
  · rw [UpdateMenus_changed reg checkActive m hchanged]
  · intro h0
    rw [if_pos h0]
  · intro h0
    rw [if_neg h0]

/-- C5 (witness): mode 2 with an enabler that could turn on flag 1: the lax argument is
3 and the strict one is the computed 1. -/
theorem UpdateMenus_policy_selector_witness :
    ∃ strict,
      ((freshManager 1 0 0 2).UpdateMenus (twoFlags true [conditionEnabler 1 2 2]) false).trace =
        ((freshManager 1 0 0 2).GetUpdateFlags (twoFlags true [conditionEnabler 1 2 2])
            false).2.trace ++
          [Event.EnableUsingFlags
              (laxLoop (freshManager 1 0 0 2).mProject
                ((freshManager 1 0 0 2).GetUpdateFlags (twoFlags true [conditionEnabler 1 2 2])
                  false).1
                (twoFlags true [conditionEnabler 1 2 2]).Enablers
                ((freshManager 1 0 0 2).GetUpdateFlags (twoFlags true [conditionEnabler 1 2 2])
                  false).1) strict,
            Event.Publish] ∧
      ((freshManager 1 0 0 2).mWhatIfNoSelection = 0 →
        strict = laxLoop (freshManager 1 0 0 2).mProject
          ((freshManager 1 0 0 2).GetUpdateFlags (twoFlags true [conditionEnabler 1 2 2])
            false).1
          (twoFlags true [conditionEnabler 1 2 2]).Enablers
          ((freshManager 1 0 0 2).GetUpdateFlags (twoFlags true [conditionEnabler 1 2 2])
            false).1) ∧
      ((freshManager 1 0 0 2).mWhatIfNoSelection ≠ 0 →
        strict = ((freshManager 1 0 0 2).GetUpdateFlags
          (twoFlags true [conditionEnabler 1 2 2]) false).1) :=
  UpdateMenus_policy_selector (twoFlags true [conditionEnabler 1 2 2]) false
    (freshManager 1 0 0 2) (by decide)

theorem tryEnableCalls_append (a b : List Event) :
    tryEnableCalls (a ++ b) = tryEnableCalls a ++ tryEnableCalls b := by
  induction a with
  | nil => rfl
  | cons e rest ih =>
    cases e <;> simp [tryEnableCalls, ih]

theorem tryEnableCalls_predicate_calls (calls : List Event)
    (h : ∀ e ∈ calls, ∃ j, e = Event.predicate j) : tryEnableCalls calls = [] := by
  induction calls with
  | nil => rfl
  | cons e rest ih =>
    obtain ⟨j, hj⟩ := h e (List.mem_cons_self _ _)
    subst hj
    simpa [tryEnableCalls] using ih (fun e he => h e (List.mem_cons_of_mem _ he))

theorem tryEnableCalls_GetUpdateFlags {Project : Type} (reg : Registry Project)
    (checkActive : Bool) (m : MenuManager Project) :
    tryEnableCalls (m.GetUpdateFlags reg checkActive).2.trace = tryEnableCalls m.trace := by
  obtain ⟨calls, hcalls, hs⟩ := GetUpdateFlags_state reg checkActive m
  rw [hs]
  simp only [tryEnableCalls_append, tryEnableCalls_predicate_calls calls hcalls,
    List.append_nil]

theorem recoveryLoop_done {Project : Type} (reg : Registry Project) (checkActive : Bool)
    (flagsRqd : CommandFlag) (l : List (MenuItemEnabler Project)) (index : Nat)
    (flags : CommandFlag) (m : MenuManager Project) (h : flags &&& flagsRqd = flagsRqd) :
    recoveryLoop reg checkActive flagsRqd l index flags m = (flags, m) := by
  cases l with
  | nil => rfl
  | cons e rest => simp [recoveryLoop, h]

theorem recoveryLoop_skip {Project : Type} (reg : Registry Project) (checkActive : Bool)
    (flagsRqd : CommandFlag) (pre rest : List (MenuItemEnabler Project)) (index : Nat)
    (flags : CommandFlag) (m : MenuManager Project)
    (hpre : ∀ e ∈ pre, ¬ (flags &&& e.actualFlags = e.actualFlags ∧
      (flipAll reg.NCommandFlags flags &&& flagsRqd) &&& e.possibleFlags ≠ 0)) :
    recoveryLoop reg checkActive flagsRqd (pre ++ rest) index flags m =
      recoveryLoop reg checkActive flagsRqd rest (index + pre.length) flags m := by
  induction pre generalizing index with
  | nil => simp
  | cons e pre ih =>
    have he := hpre e (List.mem_cons_self _ _)
    have hrest := fun d hd => hpre d (List.mem_cons_of_mem _ hd)
    by_cases hdone : flags &&& flagsRqd = flagsRqd
    · rw [recoveryLoop_done _ _ _ _ _ _ _ hdone, recoveryLoop_done _ _ _ _ _ _ _ hdone]
    · have hskip : ((flags &&& e.actualFlags) == e.actualFlags &&
          (flipAll reg.NCommandFlags flags &&& flagsRqd &&& e.possibleFlags) != 0) = false := by
        by_contra hc
        apply he
        simpa using hc
      rw [List.cons_append]
      simp only [recoveryLoop, hskip]
      rw [ih (index + 1) hrest]
      simp [hdone, Nat.add_assoc, Nat.add_comm 1]

theorem missing_ne_zero (N flags flagsRqd : Nat) (hR : flagsRqd < 2 ^ N)
    (h : flags &&& flagsRqd ≠ flagsRqd) : flipAll N flags &&& flagsRqd ≠ 0 := by
  intro h0
  apply h
  apply Nat.eq_of_testBit_eq
  intro i
  have hi := congrArg (fun x => Nat.testBit x i) h0
  simp only [Nat.testBit_and, testBit_flipAll, Nat.zero_testBit] at hi
  rw [Nat.testBit_and]
  by_cases hlt : i < N
  · simp only [hlt, decide_True] at hi
    cases hf : flags.testBit i <;> cases hr : flagsRqd.testBit i <;> simp_all
  · have hge : 2 ^ N ≤ 2 ^ i := Nat.pow_le_pow_right (by decide) (by omega)
    have : flagsRqd.testBit i = false := Nat.testBit_lt_two_pow (by omega)
    simp [this]

theorem recoveryLoop_fires {Project : Type} (reg : Registry Project) (checkActive : Bool)
    (flagsRqd : CommandFlag) (E : MenuItemEnabler Project)
    (post : List (MenuItemEnabler Project)) (index : Nat) (flags : CommandFlag)
    (m : MenuManager Project)
    (hmissing : flags &&& flagsRqd ≠ flagsRqd)
    (hactual : flags &&& E.actualFlags = E.actualFlags)
    (hsupply : (flipAll reg.NCommandFlags flags &&& flagsRqd) &&& E.possibleFlags ≠ 0) :
    recoveryLoop reg checkActive flagsRqd (E :: post) index flags m =
      recoveryLoop reg checkActive flagsRqd post (index + 1)
        (MenuManager.GetUpdateFlags reg checkActive
          { m with
            mProject := E.tryEnable m.mProject flagsRqd
            trace := m.trace ++ [Event.tryEnable index flagsRqd] }).1
        (MenuManager.GetUpdateFlags reg checkActive
          { m with
            mProject := E.tryEnable m.mProject flagsRqd
            trace := m.trace ++ [Event.tryEnable index flagsRqd] }).2 := by
  simp [recoveryLoop, hmissing, hactual, hsupply]

/-- C3 (counterexample): three calls in which an enabler with `actualFlags` within the
current flags and `possibleFlags` covering the missing required flags is
registered, and the claim fails.  First, the required flag is present already:
the result is true and no `tryEnable` is invoked.  Second, `tryEnable` changes
nothing: it is invoked once and the result is false.  Third, an earlier enabler
qualifies too and succeeds: only enabler 0 is invoked, enabler 1 never. -/
theorem TryToMakeActionAllowed_enabler_counterexample :
    (((freshManager 1 0 0 1).TryToMakeActionAllowed
        (twoFlags true [conditionEnabler 1 2 2]) false 1 1).1 = true ∧
      tryEnableCalls ((freshManager 1 0 0 1).TryToMakeActionAllowed
        (twoFlags true [conditionEnabler 1 2 2]) false 1 1).2.2.trace = []) ∧
    (((freshManager 1 0 0 1).TryToMakeActionAllowed
        (twoFlags true [conditionEnabler 1 2 0]) false 1 3).1 = false ∧
      tryEnableCalls ((freshManager 1 0 0 1).TryToMakeActionAllowed
        (twoFlags true [conditionEnabler 1 2 0]) false 1 3).2.2.trace = [0]) ∧
    (((freshManager 1 0 0 1).TryToMakeActionAllowed
        (twoFlags true [conditionEnabler 1 2 2, conditionEnabler 1 2 2]) false 1 3).1 = true ∧
      tryEnableCalls ((freshManager 1 0 0 1).TryToMakeActionAllowed
        (twoFlags true [conditionEnabler 1 2 2, conditionEnabler 1 2 2]) false 1 3).2.2.trace =
        [0]) := by
  decide

/-- C3 (amended): let `current` be the flags the scan starts from (the caller's, or the
recomputed ones when the caller passed none), let the required set lie within the
bitset, and let `E` be the first registered enabler with `actualFlags` within
`current` whose `possibleFlags` meet the missing required flags, `possibleFlags(E)`
containing all of them.  If the flags recomputed after `E.tryEnable` contain the
required set, the call returns true and invokes exactly one `tryEnable`, that of
`E`, when some required flag was missing; when none was missing it returns true and
invokes no `tryEnable`. -/
theorem TryToMakeActionAllowed_qualifying_enabler {Project : Type} (reg : Registry Project)
    (checkActive : Bool) (flags flagsRqd : CommandFlag) (m : MenuManager Project)
    (current : CommandFlag) (m0 : MenuManager Project)
    (pre post : List (MenuItemEnabler Project)) (E : MenuItemEnabler Project)
    (hcurrent : (if flags == 0 then m.GetUpdateFlags reg checkActive else (flags, m)) =
      (current, m0))
    (hR : flagsRqd < 2 ^ reg.NCommandFlags)
    (hlist : reg.Enablers = pre ++ E :: post)
    (hfirst : ∀ e ∈ pre, ¬ (current &&& e.actualFlags = e.actualFlags ∧
      (flipAll reg.NCommandFlags current &&& flagsRqd) &&& e.possibleFlags ≠ 0))
    (hactual : current &&& E.actualFlags = E.actualFlags)
    (hpossible : (flipAll reg.NCommandFlags current &&& flagsRqd) &&& E.possibleFlags =
      flipAll reg.NCommandFlags current &&& flagsRqd)
    (hsuccess : current &&& flagsRqd ≠ flagsRqd →
      (MenuManager.GetUpdateFlags reg checkActive
        { m0 with
          mProject := E.tryEnable m0.mProject flagsRqd
          trace := m0.trace ++ [Event.tryEnable pre.length flagsRqd] }).1 &&& flagsRqd =
        flagsRqd) :
    (m.TryToMakeActionAllowed reg checkActive flags flagsRqd).1 = true ∧
    tryEnableCalls (m.TryToMakeActionAllowed reg checkActive flags flagsRqd).2.2.trace =
      tryEnableCalls m.trace ++
        (if current &&& flagsRqd = flagsRqd then [] else [pre.length]) := by
  have hm0 : tryEnableCalls m0.trace = tryEnableCalls m.trace := by
    by_cases hz : (flags == 0) = true
    · rw [if_pos hz] at hcurrent
      have : m0 = (m.GetUpdateFlags reg checkActive).2 := by rw [hcurrent]
      rw [this, tryEnableCalls_GetUpdateFlags]
    · rw [if_neg hz] at hcurrent
      have : m0 = m := by
        have := congrArg Prod.snd hcurrent
        exact this.symm
      rw [this]
  simp only [MenuManager.TryToMakeActionAllowed]
  rw [hcurrent, hlist]
  by_cases hdone : current &&& flagsRqd = flagsRqd
  · simp only []
    rw [recoveryLoop_done _ _ _ _ _ _ _ hdone, if_pos hdone]
    simp [hdone, hm0]
  · have hsupply : (flipAll reg.NCommandFlags current &&& flagsRqd) &&& E.possibleFlags ≠ 0 := by
      rw [hpossible]
      exact missing_ne_zero _ _ _ hR hdone
    simp only []
    rw [recoveryLoop_skip _ _ _ _ _ _ _ _ hfirst, Nat.zero_add,
      recoveryLoop_fires _ _ _ _ _ _ _ _ hdone hactual hsupply,
      recoveryLoop_done _ _ _ _ _ _ _ (hsuccess hdone), if_neg hdone]
    refine ⟨by simpa using hsuccess hdone, ?_⟩
    rw [tryEnableCalls_GetUpdateFlags]
    simp [tryEnableCalls_append, tryEnableCalls, hm0]

/-- C3 (witness): flag 1 is required and missing; enabler 0 needs flag 1 and is passed
over, enabler 1 needs flag 0, can supply flag 1 and turns condition 1 on. -/
theorem TryToMakeActionAllowed_qualifying_enabler_witness :
    ((freshManager 1 0 0 1).TryToMakeActionAllowed
        (twoFlags true [conditionEnabler 2 1 0, conditionEnabler 1 2 2]) false 1 3).1 = true ∧
    tryEnableCalls ((freshManager 1 0 0 1).TryToMakeActionAllowed
        (twoFlags true [conditionEnabler 2 1 0, conditionEnabler 1 2 2]) false 1 3).2.2.trace =
      tryEnableCalls (freshManager 1 0 0 1).trace ++
        (if (1 : CommandFlag) &&& 3 = 3 then [] else [[conditionEnabler 2 1 0].length]) :=
  TryToMakeActionAllowed_qualifying_enabler
    (twoFlags true [conditionEnabler 2 1 0, conditionEnabler 1 2 2]) false 1 3
    (freshManager 1 0 0 1) 1 (freshManager 1 0 0 1)
    [conditionEnabler 2 1 0] [] (conditionEnabler 1 2 2)
    rfl (by decide) rfl
    (by
      intro e he
      rw [List.mem_singleton] at he
      subst he
      decide)
    (by decide) (by decide) (fun _ => by decide)

/-- The scenario the spec gives for the explanation: flag A of priority 5 without
message and flag B of priority 3 with message "Need X", both missing: the dialog
shows "Need X" under the title "Disallowed". -/
theorem TellUserWhyDisallowed_scenario :
    TellUserWhyDisallowed 8 [silentOptions 5 true, needXOptions 3] "Cut" 0 3 =
      some { title := "Disallowed", reason := "Need X", helpPage := "Need_X" } := by
  decide

/-- C1 (failing input): the only flag is missing, has the message "Need X" and has
priority `UINT_MAX`.  Then `++priority` wraps to 0, the loop `while( priority-- )`
runs no round, no option is visited, and the dialog shows the catch-all reason
instead of "Need X". -/
theorem TellUserWhyDisallowed_priority_wraps_message_lost :
    TellUserWhyDisallowed 8 [needXOptions UINT_MAX] "Cut" 0 1 =
      some { title := "Disallowed", reason := defaultReason, helpPage := "" } := by
  decide

/-- C10 (failing input): the only flag is missing, has no message, has
`enableDefaultMessage = false` and has priority `UINT_MAX`.  The wrapped counter
makes the scan visit nothing, the local `enableDefaultMessage` stays true, and the
catch-all dialog is shown although a missing flag suppresses it; with priority 7
the same flag suppresses the dialog. -/
theorem TellUserWhyDisallowed_priority_wraps_dialog_not_suppressed :
    TellUserWhyDisallowed 8 [silentOptions UINT_MAX false] "Cut" 0 1 =
        some { title := "Disallowed", reason := defaultReason, helpPage := "" } ∧
    TellUserWhyDisallowed 8 [silentOptions 7 false] "Cut" 0 1 = none := by
  decide

theorem greatestPriority_fold_ge (l : List CommandFlagOptions) (init : Nat) :
    init ≤ l.foldl (fun priority options => max priority options.priority) init ∧
      ∀ o ∈ l, o.priority ≤ l.foldl (fun priority options => max priority options.priority) init := by
  induction l generalizing init with
  | nil => simp
  | cons a rest ih =>
    simp only [List.foldl_cons, List.mem_cons, forall_eq_or_imp]
    obtain ⟨h1, h2⟩ := ih (max init a.priority)
    exact ⟨le_trans (le_max_left _ _) h1, le_trans (le_max_right _ _) h1, h2⟩

theorem greatestPriority_fold_lt (l : List CommandFlagOptions) (init bound : Nat)
    (hinit : init < bound) (h : ∀ o ∈ l, o.priority < bound) :
    l.foldl (fun priority options => max priority options.priority) init < bound := by
  induction l generalizing init with
  | nil => simpa using hinit
  | cons a rest ih =>
    simp only [List.foldl_cons]
    apply ih
    · exact max_lt hinit (h a (List.mem_cons_self _ _))
    · exact fun o ho => h o (List.mem_cons_of_mem _ ho)

theorem scan_start_of_no_wrap (alloptions : List CommandFlagOptions)
    (h : ∀ o ∈ alloptions, o.priority < UINT_MAX) :
    (greatestPriority alloptions + 1) % (UINT_MAX + 1) = greatestPriority alloptions + 1 := by
  have := greatestPriority_fold_lt alloptions 0 UINT_MAX (by decide) h
  apply Nat.mod_eq_of_lt
  unfold greatestPriority
  omega

theorem visitOptions_no_message (Name : String) (missingFlags : CommandFlag) (priority : Nat)
    (l : List CommandFlagOptions) (ii : Nat) (x : Explanation)
    (h : ∀ j o, l[j]? = some o → o.priority = priority →
      missingFlags.testBit (ii + j) = true → o.message = none) :
    ∃ x1, visitOptions Name missingFlags priority l ii x = (false, x1) ∧
      x1.reason = x.reason ∧ x1.untranslatedTitle = x.untranslatedTitle ∧
      x1.helpPage = x.helpPage ∧ x1.defaultMessage = x.defaultMessage ∧
      (x1.enableDefaultMessage = true ↔
        x.enableDefaultMessage = true ∧
          ∀ j o, l[j]? = some o → o.priority = priority →
            missingFlags.testBit (ii + j) = true → o.enableDefaultMessage = true) := by
  induction l generalizing ii x with
  | nil => exact ⟨x, rfl, rfl, rfl, rfl, rfl, by simp⟩
  | cons a rest ih =>
    have hrest : ∀ j o, rest[j]? = some o → o.priority = priority →
        missingFlags.testBit (ii + 1 + j) = true → o.message = none := by
      intro j o hj hp hm
      apply h (j + 1) o (by simpa using hj) hp
      rw [← hm]; congr 1; omega
    have hshift : ∀ (P : CommandFlagOptions → Prop),
        (∀ j o, (a :: rest)[j]? = some o → o.priority = priority →
          missingFlags.testBit (ii + j) = true → P o) ↔
        ((a.priority = priority → missingFlags.testBit ii = true → P a) ∧
          ∀ j o, rest[j]? = some o → o.priority = priority →
            missingFlags.testBit (ii + 1 + j) = true → P o) := by
      intro P
      constructor
      · intro hall
        refine ⟨fun hp hm => hall 0 a (by simp) hp (by simpa using hm), ?_⟩
        intro j o hj hp hm
        apply hall (j + 1) o (by simpa using hj) hp
        rw [← hm]; congr 1; omega
      · rintro ⟨h0, hs⟩ j o hj hp hm
        cases j with
        | zero =>
          simp only [List.getElem?_cons_zero, Option.some.injEq] at hj
          subst hj
          exact h0 hp (by simpa using hm)
        | succ j =>
          apply hs j o (by simpa using hj) hp
          rw [← hm]; congr 1; omega
    by_cases hc : (priority == a.priority && missingFlags.testBit ii) = true
    · have hc2 := hc
      simp only [Bool.and_eq_true, beq_iff_eq] at hc2
      have hmsg : a.message = none := h 0 a (by simp) hc2.1.symm (by simpa using hc2.2)
      obtain ⟨x1, e1, e2, e3, e4, e5, e6⟩ := ih (ii + 1)
        { x with enableDefaultMessage := x.enableDefaultMessage && a.enableDefaultMessage } hrest
      refine ⟨x1, ?_, e2, e3, e4, e5, ?_⟩
      · simp only [visitOptions, hc, if_true, doOption, hmsg]
        exact e1
      · rw [e6, hshift (fun o => o.enableDefaultMessage = true)]
        simp only [Bool.and_eq_true]
        constructor
        · rintro ⟨⟨h1, h2⟩, h3⟩
          exact ⟨h1, fun _ _ => h2, h3⟩
        · rintro ⟨h1, h2, h3⟩
          exact ⟨⟨h1, h2 hc2.1.symm hc2.2⟩, h3⟩
    · obtain ⟨x1, e1, e2, e3, e4, e5, e6⟩ := ih (ii + 1) x hrest
      refine ⟨x1, ?_, e2, e3, e4, e5, ?_⟩
      · simp only [visitOptions, hc]
        exact e1
      · rw [e6, hshift (fun o => o.enableDefaultMessage = true)]
        simp only [Bool.and_eq_true, beq_iff_eq, not_and] at hc
        constructor
        · rintro ⟨h1, h3⟩
          refine ⟨h1, fun hp hm => ?_, h3⟩
          exact absurd hm (hc hp.symm)
        · rintro ⟨h1, _, h3⟩
          exact ⟨h1, h3⟩

theorem visitOptions_message (Name : String) (missingFlags : CommandFlag) (priority : Nat)
    (l : List CommandFlagOptions) (ii : Nat) (x : Explanation) (j : Nat)
    (o : CommandFlagOptions) (f : String → String)
    (hj : l[j]? = some o) (hp : o.priority = priority)
    (hm : missingFlags.testBit (ii + j) = true) (hf : o.message = some f)
    (hbefore : ∀ k o1, k < j → l[k]? = some o1 → o1.priority = priority →
      missingFlags.testBit (ii + k) = true → o1.message = none) :
    ∃ x1, visitOptions Name missingFlags priority l ii x = (true, x1) ∧
      x1.reason = f Name ∧
      x1.untranslatedTitle = (if o.title ≠ "" then o.title else x.untranslatedTitle) ∧
      x1.helpPage = o.helpPage ∧ x1.defaultMessage = false := by
  induction l generalizing ii x j with
  | nil => simp at hj
  | cons a rest ih =>
    cases j with
    | zero =>
      simp only [List.getElem?_cons_zero, Option.some.injEq] at hj
      subst hj
      have hc : (priority == a.priority && missingFlags.testBit ii) = true := by
        simp only [Bool.and_eq_true, beq_iff_eq]
        exact ⟨hp.symm, by simpa using hm⟩
      refine ⟨{ x with
          reason := f Name
          defaultMessage := false
          untranslatedTitle := if a.title ≠ "" then a.title else x.untranslatedTitle
          helpPage := a.helpPage }, ?_, rfl, rfl, rfl, rfl⟩
      simp only [visitOptions, hc, if_true, doOption, hf]
    | succ j =>
      have hj1 : rest[j]? = some o := by simpa using hj
      have hm1 : missingFlags.testBit (ii + 1 + j) = true := by
        rw [← hm]; congr 1; omega
      have hb1 : ∀ k o1, k < j → rest[k]? = some o1 → o1.priority = priority →
          missingFlags.testBit (ii + 1 + k) = true → o1.message = none := by
        intro k o1 hk hk1 hp1 hmk
        apply hbefore (k + 1) o1 (by omega) (by simpa using hk1) hp1
        rw [← hmk]; congr 1; omega
      by_cases hc : (priority == a.priority && missingFlags.testBit ii) = true
      · have hc2 := hc
        simp only [Bool.and_eq_true, beq_iff_eq] at hc2
        have hmsg : a.message = none :=
          hbefore 0 a (by omega) (by simp) hc2.1.symm (by simpa using hc2.2)
        obtain ⟨x1, e1, e2, e3, e4, e5⟩ := ih (ii + 1)
          { x with enableDefaultMessage := x.enableDefaultMessage && a.enableDefaultMessage }
          j hj1 hm1 hb1
        refine ⟨x1, ?_, e2, e3, e4, e5⟩
        simp only [visitOptions, hc, if_true, doOption, hmsg]
        exact e1
      · obtain ⟨x1, e1, e2, e3, e4, e5⟩ := ih (ii + 1) x j hj1 hm1 hb1
        refine ⟨x1, ?_, e2, e3, e4, e5⟩
        simp only [visitOptions, hc]
        exact e1

theorem visitOptions_found (Name : String) (missingFlags : CommandFlag) (priority : Nat)
    (l : List CommandFlagOptions) (ii : Nat) (x : Explanation) :
    ((visitOptions Name missingFlags priority l ii x).1 = true →
      (visitOptions Name missingFlags priority l ii x).2.defaultMessage = false) ∧
    ((∃ j o, l[j]? = some o ∧ o.priority = priority ∧
        missingFlags.testBit (ii + j) = true ∧ o.message ≠ none) →
      (visitOptions Name missingFlags priority l ii x).1 = true) := by
  induction l generalizing ii x with
  | nil => simp [visitOptions]
  | cons a rest ih =>
    by_cases hc : (priority == a.priority && missingFlags.testBit ii) = true
    · cases hmsg : a.message with
      | none =>
        have hv : visitOptions Name missingFlags priority (a :: rest) ii x =
            visitOptions Name missingFlags priority rest (ii + 1)
              { x with
                enableDefaultMessage := x.enableDefaultMessage && a.enableDefaultMessage } := by
          simp only [visitOptions, hc, if_true, doOption, hmsg]
        rw [hv]
        refine ⟨(ih (ii + 1) _).1, ?_⟩
        rintro ⟨j, o, hj, hp, hm, hne⟩
        apply (ih (ii + 1) _).2
        cases j with
        | zero =>
          simp only [List.getElem?_cons_zero, Option.some.injEq] at hj
          subst hj
          exact absurd hmsg hne
        | succ j =>
          refine ⟨j, o, by simpa using hj, hp, ?_, hne⟩
          rw [← hm]; congr 1; omega
      | some f =>
        have hv : visitOptions Name missingFlags priority (a :: rest) ii x =
            (true,
              { x with
                reason := f Name
                defaultMessage := false
                untranslatedTitle := if a.title ≠ "" then a.title else x.untranslatedTitle
                helpPage := a.helpPage }) := by
          simp only [visitOptions, hc, if_true, doOption, hmsg]
        rw [hv]
        exact ⟨fun _ => rfl, fun _ => rfl⟩
    · have hv : visitOptions Name missingFlags priority (a :: rest) ii x =
          visitOptions Name missingFlags priority rest (ii + 1) x := by
        simp only [visitOptions, hc]
        rfl
      rw [hv]
      refine ⟨(ih (ii + 1) _).1, ?_⟩
      rintro ⟨j, o, hj, hp, hm, hne⟩
      apply (ih (ii + 1) _).2
      cases j with
      | zero =>
        simp only [List.getElem?_cons_zero, Option.some.injEq] at hj
        subst hj
        exfalso
        apply hc
        simp only [Bool.and_eq_true, beq_iff_eq]
        exact ⟨hp.symm, by simpa using hm⟩
      | succ j =>
        refine ⟨j, o, by simpa using hj, hp, ?_, hne⟩
        rw [← hm]; congr 1; omega

theorem visitDescending_not_found (Name : String) (missingFlags : CommandFlag)
    (alloptions : List CommandFlagOptions) (n : Nat) (x x1 : Explanation)
    (h : visitOptions Name missingFlags n alloptions 0 x = (false, x1)) :
    visitDescending Name missingFlags alloptions (n + 1) x =
      visitDescending Name missingFlags alloptions n x1 := by
  simp only [visitDescending, h]

theorem visitDescending_found (Name : String) (missingFlags : CommandFlag)
    (alloptions : List CommandFlagOptions) (n : Nat) (x x1 : Explanation)
    (h : visitOptions Name missingFlags n alloptions 0 x = (true, x1)) :
    visitDescending Name missingFlags alloptions (n + 1) x = x1 := by
  simp only [visitDescending, h]

theorem visitDescending_no_message (Name : String) (missingFlags : CommandFlag)
    (alloptions : List CommandFlagOptions) (n : Nat) (x : Explanation)
    (h : ∀ j o, alloptions[j]? = some o → missingFlags.testBit j = true → o.message = none) :
    (visitDescending Name missingFlags alloptions n x).reason = x.reason ∧
    (visitDescending Name missingFlags alloptions n x).untranslatedTitle = x.untranslatedTitle ∧
    (visitDescending Name missingFlags alloptions n x).helpPage = x.helpPage ∧
    (visitDescending Name missingFlags alloptions n x).defaultMessage = x.defaultMessage ∧
    ((visitDescending Name missingFlags alloptions n x).enableDefaultMessage = true ↔
      x.enableDefaultMessage = true ∧
        ∀ j o, alloptions[j]? = some o → o.priority < n →
          missingFlags.testBit j = true → o.enableDefaultMessage = true) := by
  induction n generalizing x with
  | zero => simp [visitDescending]
  | succ n ih =>
    obtain ⟨x1, e1, e2, e3, e4, e5, e6⟩ :=
      visitOptions_no_message Name missingFlags n alloptions 0 x
        (fun j o hj _ hm => h j o hj (by simpa using hm))
    rw [visitDescending_not_found _ _ _ _ _ _ e1]
    obtain ⟨i1, i2, i3, i4, i5⟩ := ih x1
    refine ⟨i1.trans e2, i2.trans e3, i3.trans e4, i4.trans e5, ?_⟩
    rw [i5, e6]
    constructor
    · rintro ⟨⟨h1, h2⟩, h3⟩
      refine ⟨h1, ?_⟩
      intro j o hj hp hm
      rcases Nat.lt_succ_iff_lt_or_eq.1 hp with hlt | heq
      · exact h3 j o hj hlt hm
      · exact h2 j o hj heq (by simpa using hm)
    · rintro ⟨h1, h2⟩
      refine ⟨⟨h1, ?_⟩, ?_⟩
      · intro j o hj hp hm
        exact h2 j o hj (by omega) (by simpa using hm)
      · intro j o hj hp hm
        exact h2 j o hj (by omega) hm

theorem visitDescending_message (Name : String) (missingFlags : CommandFlag)
    (alloptions : List CommandFlagOptions) (n : Nat) (x : Explanation) (i : Nat)
    (o : CommandFlagOptions) (f : String → String)
    (hi : alloptions[i]? = some o) (hm : missingFlags.testBit i = true)
    (hf : o.message = some f)
    (hbest : ∀ j o1, alloptions[j]? = some o1 → missingFlags.testBit j = true →
      o1.message ≠ none → o1.priority < o.priority ∨ (o1.priority = o.priority ∧ i ≤ j))
    (hn : o.priority < n) :
    (visitDescending Name missingFlags alloptions n x).reason = f Name ∧
    (visitDescending Name missingFlags alloptions n x).untranslatedTitle =
      (if o.title ≠ "" then o.title else x.untranslatedTitle) ∧
    (visitDescending Name missingFlags alloptions n x).helpPage = o.helpPage ∧
    (visitDescending Name missingFlags alloptions n x).defaultMessage = false := by
  induction n generalizing x with
  | zero => omega
  | succ n ih =>
    rcases Nat.lt_succ_iff_lt_or_eq.1 hn with hlt | heq
    · obtain ⟨x1, e1, _, e3, _, _, _⟩ :=
        visitOptions_no_message Name missingFlags n alloptions 0 x (by
          intro j o1 hj hp hmj
          by_contra hne
          rcases hbest j o1 hj (by simpa using hmj) hne with hb | hb <;> omega)
      rw [visitDescending_not_found _ _ _ _ _ _ e1]
      obtain ⟨i1, i2, i3, i4⟩ := ih x1 hlt
      exact ⟨i1, by rw [i2, e3], i3, i4⟩
    · obtain ⟨x1, e1, e2, e3, e4, e5⟩ :=
        visitOptions_message Name missingFlags n alloptions 0 x i o f hi heq
          (by simpa using hm) hf (by
            intro k o1 hk hk1 hp hmk
            by_contra hne
            rcases hbest k o1 hk1 (by simpa using hmk) hne with hb | hb <;> omega)
      rw [visitDescending_found _ _ _ _ _ _ e1]
      exact ⟨e2, e3, e4, e5⟩

theorem visitDescending_defaultMessage (Name : String) (missingFlags : CommandFlag)
    (alloptions : List CommandFlagOptions) (n : Nat) (x : Explanation)
    (h : ∃ j o, alloptions[j]? = some o ∧ missingFlags.testBit j = true ∧
      o.message ≠ none ∧ o.priority < n) :
    (visitDescending Name missingFlags alloptions n x).defaultMessage = false := by
  induction n generalizing x with
  | zero =>
    obtain ⟨_, _, _, _, _, hlt⟩ := h
    omega
  | succ n ih =>
    have hv := visitOptions_found Name missingFlags n alloptions 0 x
    cases hb : (visitOptions Name missingFlags n alloptions 0 x).1 with
    | true =>
      have e1 : visitOptions Name missingFlags n alloptions 0 x =
          (true, (visitOptions Name missingFlags n alloptions 0 x).2) := by
        rw [← hb]
      rw [visitDescending_found _ _ _ _ _ _ e1]
      exact hv.1 hb
    | false =>
      have e1 : visitOptions Name missingFlags n alloptions 0 x =
          (false, (visitOptions Name missingFlags n alloptions 0 x).2) := by
        rw [← hb]
      rw [visitDescending_not_found _ _ _ _ _ _ e1]
      apply ih
      obtain ⟨j, o, hj, hm, hne, hlt⟩ := h
      rcases Nat.lt_succ_iff_lt_or_eq.1 hlt with hlt1 | heq
      · exact ⟨j, o, hj, hm, hne, hlt1⟩
      · have := hv.2 ⟨j, o, hj, heq, by simpa using hm, hne⟩
        rw [hb] at this
        exact absurd this (by decide)

theorem priority_lt_scan_start (alloptions : List CommandFlagOptions) (j : Nat)
    (o : CommandFlagOptions) (hj : alloptions[j]? = some o) :
    o.priority < greatestPriority alloptions + 1 := by
  have hmem : o ∈ alloptions := List.getElem?_mem hj
  have := (greatestPriority_fold_ge alloptions 0).2 o hmem
  unfold greatestPriority
  omega

/-- Away from the wrap of the counter, that is when every priority is below `UINT_MAX`,
`TellUserWhyDisallowed` explains by descending priority, ties broken by
registration order: if flag `i` is missing and has a message, and every other
missing flag with a message has a smaller priority, or the same priority and a
larger index, the dialog shows the message, the title (the default one when the
title is empty) and the help page of flag `i`. -/
theorem TellUserWhyDisallowed_by_priority_of_no_wrap (NCommandFlags : Nat)
    (alloptions : List CommandFlagOptions) (Name : String)
    (flagsGot flagsRequired : CommandFlag) (i : Nat) (o : CommandFlagOptions)
    (f : String → String)
    (hnowrap : ∀ q ∈ alloptions, q.priority < UINT_MAX)
    (hi : alloptions[i]? = some o)
    (hm : (flagsRequired &&& flipAll NCommandFlags flagsGot).testBit i = true)
    (hf : o.message = some f)
    (hbest : ∀ j o1, alloptions[j]? = some o1 →
      (flagsRequired &&& flipAll NCommandFlags flagsGot).testBit j = true →
      o1.message ≠ none → o1.priority < o.priority ∨ (o1.priority = o.priority ∧ i ≤ j)) :
    TellUserWhyDisallowed NCommandFlags alloptions Name flagsGot flagsRequired =
      some { title := if o.title ≠ "" then o.title else "Disallowed"
             reason := f Name
             helpPage := o.helpPage } := by
  obtain ⟨e1, e2, e3, e4⟩ :=
    visitDescending_message Name (flagsRequired &&& flipAll NCommandFlags flagsGot) alloptions
      (greatestPriority alloptions + 1)
      { reason := defaultReason, untranslatedTitle := "Disallowed", helpPage := "",
        enableDefaultMessage := true, defaultMessage := true }
      i o f hi hm hf hbest (priority_lt_scan_start alloptions i o hi)
  simp only [TellUserWhyDisallowed, scan_start_of_no_wrap alloptions hnowrap, e1, e2, e3, e4]
  simp

/-- Away from the wrap of the counter, `TellUserWhyDisallowed` shows no dialog exactly
when no missing flag has a message and some missing flag has
`enableDefaultMessage = false`; it shows the catch-all reason under the title
"Disallowed" with an empty help page when no missing flag has a message and none
suppresses the default; and it shows a dialog whenever a missing flag has a
message. -/
theorem TellUserWhyDisallowed_dialog_of_no_wrap (NCommandFlags : Nat)
    (alloptions : List CommandFlagOptions) (Name : String)
    (flagsGot flagsRequired : CommandFlag)
    (hnowrap : ∀ q ∈ alloptions, q.priority < UINT_MAX) :
    (TellUserWhyDisallowed NCommandFlags alloptions Name flagsGot flagsRequired = none ↔
      (∀ j o, alloptions[j]? = some o →
        (flagsRequired &&& flipAll NCommandFlags flagsGot).testBit j = true →
        o.message = none) ∧
      ∃ j o, alloptions[j]? = some o ∧
        (flagsRequired &&& flipAll NCommandFlags flagsGot).testBit j = true ∧
        o.enableDefaultMessage = false) ∧
    ((∀ j o, alloptions[j]? = some o →
        (flagsRequired &&& flipAll NCommandFlags flagsGot).testBit j = true →
        o.message = none) →
      (∀ j o, alloptions[j]? = some o →
        (flagsRequired &&& flipAll NCommandFlags flagsGot).testBit j = true →
        o.enableDefaultMessage = true) →
      TellUserWhyDisallowed NCommandFlags alloptions Name flagsGot flagsRequired =
        some { title := "Disallowed", reason := defaultReason, helpPage := "" }) ∧
    ((∃ j o, alloptions[j]? = some o ∧
        (flagsRequired &&& flipAll NCommandFlags flagsGot).testBit j = true ∧
        o.message ≠ none) →
      ∃ d, TellUserWhyDisallowed NCommandFlags alloptions Name flagsGot flagsRequired =
        some d) := by
  have hstart := scan_start_of_no_wrap alloptions hnowrap
  have hshown : (∃ j o, alloptions[j]? = some o ∧
      (flagsRequired &&& flipAll NCommandFlags flagsGot).testBit j = true ∧
      o.message ≠ none) →
      ∃ d, TellUserWhyDisallowed NCommandFlags alloptions Name flagsGot flagsRequired =
        some d := by
    rintro ⟨j, o, hj, hm, hne⟩
    have hd := visitDescending_defaultMessage Name
      (flagsRequired &&& flipAll NCommandFlags flagsGot) alloptions
      (greatestPriority alloptions + 1)
      { reason := defaultReason, untranslatedTitle := "Disallowed", helpPage := "",
        enableDefaultMessage := true, defaultMessage := true }
      ⟨j, o, hj, hm, hne, priority_lt_scan_start alloptions j o hj⟩
    simp only [TellUserWhyDisallowed, hstart, hd]
    exact ⟨_, rfl⟩
  have hquiet : (∀ j o, alloptions[j]? = some o →
      (flagsRequired &&& flipAll NCommandFlags flagsGot).testBit j = true →
      o.message = none) →
      (TellUserWhyDisallowed NCommandFlags alloptions Name flagsGot flagsRequired = none ↔
        ∃ j o, alloptions[j]? = some o ∧
          (flagsRequired &&& flipAll NCommandFlags flagsGot).testBit j = true ∧
          o.enableDefaultMessage = false) ∧
      ((∀ j o, alloptions[j]? = some o →
        (flagsRequired &&& flipAll NCommandFlags flagsGot).testBit j = true →
        o.enableDefaultMessage = true) →
      TellUserWhyDisallowed NCommandFlags alloptions Name flagsGot flagsRequired =
        some { title := "Disallowed", reason := defaultReason, helpPage := "" }) := by
    intro hnone
    obtain ⟨e1, e2, e3, e4, e5⟩ := visitDescending_no_message Name
      (flagsRequired &&& flipAll NCommandFlags flagsGot) alloptions
      (greatestPriority alloptions + 1)
      { reason := defaultReason, untranslatedTitle := "Disallowed", helpPage := "",
        enableDefaultMessage := true, defaultMessage := true } hnone
    have hall : (visitDescending Name (flagsRequired &&& flipAll NCommandFlags flagsGot)
        alloptions (greatestPriority alloptions + 1)
        { reason := defaultReason, untranslatedTitle := "Disallowed", helpPage := "",
          enableDefaultMessage := true, defaultMessage := true }).enableDefaultMessage = true ↔
        ∀ j o, alloptions[j]? = some o →
          (flagsRequired &&& flipAll NCommandFlags flagsGot).testBit j = true →
          o.enableDefaultMessage = true := by
      rw [e5]
      constructor
      · rintro ⟨_, h2⟩ j o hj hm
        exact h2 j o hj (priority_lt_scan_start alloptions j o hj) hm
      · intro h2
        exact ⟨rfl, fun j o hj _ hm => h2 j o hj hm⟩
    constructor
    · simp only [TellUserWhyDisallowed, hstart, e4]
      constructor
      · intro hres
        by_contra hex
        have h2 : ∀ j o, alloptions[j]? = some o →
            (flagsRequired &&& flipAll NCommandFlags flagsGot).testBit j = true →
            o.enableDefaultMessage = true := by
          intro j o hj hm
          by_contra hc
          exact hex ⟨j, o, hj, hm, by simpa using hc⟩
        rw [hall.2 h2] at hres
        simp at hres
      · rintro ⟨j, o, hj, hm, hfalse⟩
        have hne : ¬ (visitDescending Name (flagsRequired &&& flipAll NCommandFlags flagsGot)
            alloptions (greatestPriority alloptions + 1)
            { reason := defaultReason, untranslatedTitle := "Disallowed", helpPage := "",
              enableDefaultMessage := true, defaultMessage := true }).enableDefaultMessage =
            true := by
          intro hc
          have := hall.1 hc j o hj hm
          rw [hfalse] at this
          exact absurd this (by decide)
        simp [hne]
    · intro h2
      simp only [TellUserWhyDisallowed, hstart, e1, e2, e3, e4, hall.2 h2]
      simp
  refine ⟨?_, fun h1 h2 => (hquiet h1).2 h2, hshown⟩
  constructor
  · intro hres
    have hnone : ∀ j o, alloptions[j]? = some o →
        (flagsRequired &&& flipAll NCommandFlags flagsGot).testBit j = true →
        o.message = none := by
      intro j o hj hm
      by_contra hne
      obtain ⟨d, hd⟩ := hshown ⟨j, o, hj, hm, hne⟩
      rw [hd] at hres
      exact absurd hres (by simp)
    exact ⟨hnone, (hquiet hnone).1.1 hres⟩
  · rintro ⟨hnone, hex⟩
    exact (hquiet hnone).1.2 hex

/-! ## Theorems: the visitor stacks, continued -/

namespace MenuTable

/-- C16: `ShouldDoSeparator` is one-shot.  On non-empty stacks it returns the top of
`needSeparator` and not the top of `firstItem`, and leaves both tops false and the
entries below unchanged; when `needSeparator` is empty it returns false and changes
nothing; and in both cases a second call right after the first returns false and
changes nothing. -/
theorem ShouldDoSeparator_one_shot (need first : Bool) (needRest firstRest anyFirst : List Bool) :
    VisitorBase.ShouldDoSeparator
        { needSeparator := need :: needRest, firstItem := first :: firstRest } =
      some (need && !first,
        { needSeparator := false :: needRest, firstItem := false :: firstRest }) ∧
    VisitorBase.ShouldDoSeparator
        { needSeparator := false :: needRest, firstItem := false :: firstRest } =
      some (false, { needSeparator := false :: needRest, firstItem := false :: firstRest }) ∧
    VisitorBase.ShouldDoSeparator { needSeparator := [], firstItem := anyFirst } =
      some (false, { needSeparator := [], firstItem := anyFirst }) :=
  ⟨rfl, rfl, rfl⟩

/-- C17: `AfterBeginGroup` pushes exactly one entry on each stack for `Whole` and for
`Extension`, the `needSeparator` entry false and the `firstItem` entry true for
`Whole` and false for `Extension`, above the unchanged existing entries; for
`Section`, `Inline`, `None` and a null pointer it leaves the visitor as it is. -/
theorem AfterBeginGroup_pushes (v : VisitorBase) :
    v.AfterBeginGroup (some Properties.Whole) =
      { needSeparator := false :: v.needSeparator, firstItem := true :: v.firstItem } ∧
    v.AfterBeginGroup (some Properties.Extension) =
      { needSeparator := false :: v.needSeparator, firstItem := false :: v.firstItem } ∧
    v.AfterBeginGroup (some Properties.Section) = v ∧
    v.AfterBeginGroup (some Properties.Inline) = v ∧
    v.AfterBeginGroup (some Properties.None) = v ∧
    v.AfterBeginGroup none = v :=
  ⟨rfl, rfl, rfl, rfl, rfl, rfl⟩

/-- C18: `Inline` groups are transparent: `ShouldBeginGroup(Inline)` returns
`(false, false)`, `ShouldEndGroup(Inline)` returns false and `AfterBeginGroup(Inline)`
does nothing, all three leaving both stacks unchanged.  For every other properties
value `p` (a null pointer included) the first component of `ShouldBeginGroup` and the
result of `ShouldEndGroup` are true whenever the call is defined, and the calls are
defined: `ShouldBeginGroup` when `ShouldDoSeparator` is, `ShouldEndGroup` when each
stack holds the entry it pops. -/
theorem Inline_transparent (v : VisitorBase) (p : Option Properties)
    (hp : GetProperties p ≠ Properties.Inline) :
    (v.ShouldBeginGroup (some Properties.Inline) = some ((false, false), v) ∧
      v.AfterBeginGroup (some Properties.Inline) = v ∧
      v.ShouldEndGroup (some Properties.Inline) = some (false, v)) ∧
    (∀ r v1, v.ShouldBeginGroup p = some (r, v1) → r.1 = true) ∧
    (∀ r v1, v.ShouldEndGroup p = some (r, v1) → r = true) ∧
    (v.separatorDefined → ∃ r v1, v.ShouldBeginGroup p = some (r, v1) ∧ r.1 = true) ∧
    (pushed p ≤ v.needSeparator.length → pushed p ≤ v.firstItem.length →
      ∃ v1, v.ShouldEndGroup p = some (true, v1)) := by
  obtain ⟨need, first⟩ := v
  refine ⟨⟨rfl, rfl, rfl⟩, ?_, ?_, ?_, ?_⟩
  · intro r v1 h
    rcases p with _ | p
    · simp only [VisitorBase.ShouldBeginGroup, GetProperties, Option.some.injEq,
        Prod.mk.injEq] at h
      rw [← h.1]; rfl
    · cases p
      · simp only [VisitorBase.ShouldBeginGroup, GetProperties, Option.some.injEq,
          Prod.mk.injEq] at h
        rw [← h.1]; rfl
      · exact absurd rfl hp
      · simp only [VisitorBase.ShouldBeginGroup, GetProperties, Option.some.injEq,
          Prod.mk.injEq] at h
        rw [← h.1]; rfl
      all_goals
        simp only [VisitorBase.ShouldBeginGroup, GetProperties] at h
        cases hs : VisitorBase.ShouldDoSeparator { needSeparator := need, firstItem := first } with
        | none => simp [hs] at h
        | some y =>
          obtain ⟨r3, v3⟩ := y
          rw [hs] at h
          simp only [Option.some.injEq, Prod.mk.injEq] at h
          rw [← h.1]; rfl
  · intro r v1 h
    rcases p with _ | p
    · simp only [VisitorBase.ShouldEndGroup, GetProperties, Option.some.injEq,
        Prod.mk.injEq] at h
      rw [← h.1]; rfl
    · cases p
      · simp only [VisitorBase.ShouldEndGroup, GetProperties, Option.some.injEq,
          Prod.mk.injEq] at h
        rw [← h.1]; rfl
      · exact absurd rfl hp
      · simp only [VisitorBase.ShouldEndGroup, GetProperties, Option.some.injEq,
          Prod.mk.injEq] at h
        rw [← h.1]; rfl
      all_goals
        cases first with
        | nil => simp [VisitorBase.ShouldEndGroup, GetProperties] at h
        | cons f fs =>
          cases need with
          | nil => simp [VisitorBase.ShouldEndGroup, GetProperties] at h
          | cons n ns =>
            simp only [VisitorBase.ShouldEndGroup, GetProperties, Option.some.injEq,
              Prod.mk.injEq] at h
            rw [← h.1]; rfl
  · intro hwf
    obtain ⟨⟨r, v1⟩, hs⟩ := ShouldDoSeparator_defined _ hwf
    rcases p with _ | p
    · exact ⟨_, _, rfl, rfl⟩
    · cases p
      · exact ⟨_, _, rfl, rfl⟩
      · exact absurd rfl hp
      · exact ⟨_, _, rfl, rfl⟩
      all_goals
        refine ⟨(true, r), v1, ?_, rfl⟩
        simp only [VisitorBase.ShouldBeginGroup, GetProperties, hs, Bool.not_false]
  · intro hn hf
    rcases p with _ | p
    · exact ⟨_, rfl⟩
    · cases p
      · exact ⟨_, rfl⟩
      · exact absurd rfl hp
      · exact ⟨_, rfl⟩
      all_goals
        cases first with
        | nil => simp [pushed, GetProperties] at hf
        | cons f fs =>
          cases need with
          | nil => simp [pushed, GetProperties] at hn
          | cons n ns => exact ⟨_, rfl⟩

/-- C18 (witness): a `Section` group on a visitor with one open scope. -/
theorem Inline_transparent_witness :
    (VisitorBase.ShouldBeginGroup { needSeparator := [false], firstItem := [true] }
        (some Properties.Inline) =
        some ((false, false), { needSeparator := [false], firstItem := [true] }) ∧
      VisitorBase.AfterBeginGroup { needSeparator := [false], firstItem := [true] }
        (some Properties.Inline) = { needSeparator := [false], firstItem := [true] } ∧
      VisitorBase.ShouldEndGroup { needSeparator := [false], firstItem := [true] }
        (some Properties.Inline) =
        some (false, { needSeparator := [false], firstItem := [true] })) ∧
    (∀ r v1, VisitorBase.ShouldBeginGroup { needSeparator := [false], firstItem := [true] }
        (some Properties.Section) = some (r, v1) → r.1 = true) ∧
    (∀ r v1, VisitorBase.ShouldEndGroup { needSeparator := [false], firstItem := [true] }
        (some Properties.Section) = some (r, v1) → r = true) ∧
    (VisitorBase.separatorDefined { needSeparator := [false], firstItem := [true] } →
      ∃ r v1, VisitorBase.ShouldBeginGroup { needSeparator := [false], firstItem := [true] }
        (some Properties.Section) = some (r, v1) ∧ r.1 = true) ∧
    (pushed (some Properties.Section) ≤
        (VisitorBase.mk [false] [true]).needSeparator.length →
      pushed (some Properties.Section) ≤ (VisitorBase.mk [false] [true]).firstItem.length →
      ∃ v1, VisitorBase.ShouldEndGroup { needSeparator := [false], firstItem := [true] }
        (some Properties.Section) = some (true, v1)) :=
  Inline_transparent { needSeparator := [false], firstItem := [true] }
    (some Properties.Section) (by decide)

theorem ShouldDoSeparator_tails (v v1 : VisitorBase) (r : Bool)
    (h : v.ShouldDoSeparator = some (r, v1)) :
    v1.needSeparator.tail = v.needSeparator.tail ∧ v1.firstItem.tail = v.firstItem.tail := by
  obtain ⟨need, first⟩ := v
  cases need with
  | nil =>
    simp only [VisitorBase.ShouldDoSeparator, Option.some.injEq, Prod.mk.injEq] at h
    rw [← h.2]
    exact ⟨rfl, rfl⟩
  | cons n ns =>
    cases first with
    | nil => simp [VisitorBase.ShouldDoSeparator] at h
    | cons f fs =>
      simp only [VisitorBase.ShouldDoSeparator, Option.some.injEq, Prod.mk.injEq] at h
      rw [← h.2]
      exact ⟨rfl, rfl⟩

theorem markBack_tail (l : List Bool) : (markBack l).tail = l.tail := by
  cases l <;> rfl

theorem step_ShouldBeginGroup_tails (p : Option Properties) (v v1 : VisitorBase) (r : Bool)
    (h : step (Call.ShouldBeginGroup p) v = some (r, v1)) :
    v1.needSeparator.tail = v.needSeparator.tail ∧ v1.firstItem.tail = v.firstItem.tail := by
  simp only [step] at h
  cases hb : v.ShouldBeginGroup p with
  | none => simp [hb] at h
  | some x =>
    obtain ⟨r2, v2⟩ := x
    rw [hb] at h
    simp only [Option.some.injEq, Prod.mk.injEq] at h
    rw [← h.2]
    clear h
    rcases p with _ | p
    · simp only [VisitorBase.ShouldBeginGroup, GetProperties, Option.some.injEq,
        Prod.mk.injEq] at hb
      rw [← hb.2]; exact ⟨rfl, rfl⟩
    · cases p
      · simp only [VisitorBase.ShouldBeginGroup, GetProperties, Option.some.injEq,
          Prod.mk.injEq] at hb
        rw [← hb.2]; exact ⟨rfl, rfl⟩
      · simp only [VisitorBase.ShouldBeginGroup, GetProperties, Option.some.injEq,
          Prod.mk.injEq] at hb
        rw [← hb.2]; exact ⟨rfl, rfl⟩
      · simp only [VisitorBase.ShouldBeginGroup, GetProperties, Option.some.injEq,
          Prod.mk.injEq] at hb
        rw [← hb.2]; exact ⟨markBack_tail _, rfl⟩
      all_goals
        simp only [VisitorBase.ShouldBeginGroup, GetProperties] at hb
        cases hs : v.ShouldDoSeparator with
        | none => simp [hs] at hb
        | some y =>
          obtain ⟨r3, v3⟩ := y
          rw [hs] at hb
          simp only [Option.some.injEq, Prod.mk.injEq] at hb
          rw [← hb.2]
          exact ShouldDoSeparator_tails v v3 r3 hs

theorem AfterBeginGroup_cases (p : Option Properties) (v : VisitorBase) :
    (pushed p = 0 ∧ v.AfterBeginGroup p = v) ∨
    (pushed p = 1 ∧ ∃ b, v.AfterBeginGroup p =
      { needSeparator := false :: v.needSeparator, firstItem := b :: v.firstItem }) := by
  rcases p with _ | p
  · exact Or.inl ⟨rfl, rfl⟩
  · cases p
    · exact Or.inl ⟨rfl, rfl⟩
    · exact Or.inl ⟨rfl, rfl⟩
    · exact Or.inl ⟨rfl, rfl⟩
    · exact Or.inr ⟨rfl, _, rfl⟩
    · exact Or.inr ⟨rfl, _, rfl⟩

theorem step_ShouldEndGroup_cases (p : Option Properties) (v v1 : VisitorBase) (r : Bool)
    (h : step (Call.ShouldEndGroup p) v = some (r, v1)) :
    (pushed p = 0 ∧ v1.needSeparator.tail = v.needSeparator.tail ∧
      v1.firstItem.tail = v.firstItem.tail ∧
      v1.needSeparator.length = v.needSeparator.length ∧
      v1.firstItem.length = v.firstItem.length) ∨
    (pushed p = 1 ∧ v1.needSeparator = v.needSeparator.tail ∧
      v1.firstItem = v.firstItem.tail) := by
  obtain ⟨need, first⟩ := v
  rcases p with _ | p
  · simp only [step, VisitorBase.ShouldEndGroup, GetProperties, Option.some.injEq,
      Prod.mk.injEq] at h
    rw [← h.2]; exact Or.inl ⟨rfl, rfl, rfl, rfl, rfl⟩
  · cases p
    · simp only [step, VisitorBase.ShouldEndGroup, GetProperties, Option.some.injEq,
        Prod.mk.injEq] at h
      rw [← h.2]; exact Or.inl ⟨rfl, rfl, rfl, rfl, rfl⟩
    · simp only [step, VisitorBase.ShouldEndGroup, GetProperties, Option.some.injEq,
        Prod.mk.injEq] at h
      rw [← h.2]; exact Or.inl ⟨rfl, rfl, rfl, rfl, rfl⟩
    · simp only [step, VisitorBase.ShouldEndGroup, GetProperties, Option.some.injEq,
        Prod.mk.injEq] at h
      rw [← h.2]; exact Or.inl ⟨rfl, markBack_tail _, rfl, markBack_length _, rfl⟩
    all_goals
      cases first with
      | nil => simp [step, VisitorBase.ShouldEndGroup, GetProperties] at h
      | cons f fs =>
        cases need with
        | nil => simp [step, VisitorBase.ShouldEndGroup, GetProperties] at h
        | cons n ns =>
          simp only [step, VisitorBase.ShouldEndGroup, GetProperties, Option.some.injEq,
            Prod.mk.injEq] at h
          rw [← h.2]; exact Or.inr ⟨rfl, rfl, rfl⟩

theorem eq_cons_of_tail {α : Type} (l rest : List α) (hlen : l.length = rest.length + 1)
    (htail : l.tail = rest) : ∃ a, l = a :: rest := by
  cases l with
  | nil => simp at hlen
  | cons a t => exact ⟨a, by simpa using htail⟩

theorem balanced_run_tails (calls : List Call) (hb : Balanced calls) :
    ∀ (v : VisitorBase) (rs : List Bool) (v1 : VisitorBase), run calls v = some (rs, v1) →
      v1.needSeparator.tail = v.needSeparator.tail ∧ v1.firstItem.tail = v.firstItem.tail := by
  induction hb with
  | nil =>
    intro v rs v1 h
    simp only [run, Option.some.injEq, Prod.mk.injEq] at h
    rw [← h.2]
    exact ⟨rfl, rfl⟩
  | @separator rest _ ih =>
    intro v rs v1 h
    obtain ⟨r, v2, rs1, h1, h2, _⟩ := (run_cons_eq_some _ _ _ _ _).1 h
    have d1 := ShouldDoSeparator_tails v v2 r h1
    have d2 := ih v2 rs1 v1 h2
    exact ⟨d2.1.trans d1.1, d2.2.trans d1.2⟩
  | @group p inner rest hinner _ ihInner ihRest =>
    intro v rs v1 h
    obtain ⟨r1, w1, rs1, h1, h2, _⟩ := (run_cons_eq_some _ _ _ _ _).1 h
    obtain ⟨r2, w2, rs2, h3, h4, _⟩ := (run_cons_eq_some _ _ _ _ _).1 h2
    obtain ⟨ra, w3, rb, h5, h6, _⟩ := (run_append_eq_some _ _ _ _ _).1 h4
    obtain ⟨r4, w4, rs4, h7, h8, _⟩ := (run_cons_eq_some _ _ _ _ _).1 h6
    have d1 := step_ShouldBeginGroup_tails p v w1 r1 h1
    simp only [step, Option.some.injEq, Prod.mk.injEq] at h3
    have d3 := ihInner w2 ra w3 h5
    have l3 := (balanced_run inner hinner w2).1 ra w3 h5
    have d5 := ihRest w4 rs4 v1 h8
    rcases AfterBeginGroup_cases p w1 with ⟨k0, e2⟩ | ⟨k1, b, e2⟩
    · rw [h3.2] at e2
      rcases step_ShouldEndGroup_cases p w3 w4 r4 h7 with ⟨_, t1, t2, _, _⟩ | ⟨k1, _, _⟩
      · rw [e2] at d3
        exact ⟨d5.1.trans (t1.trans (d3.1.trans d1.1)), d5.2.trans (t2.trans (d3.2.trans d1.2))⟩
      · omega
    · rw [h3.2] at e2
      rcases step_ShouldEndGroup_cases p w3 w4 r4 h7 with ⟨k0, _⟩ | ⟨_, t1, t2⟩
      · omega
      · rw [e2] at d3
        have e4n : w4.needSeparator = w1.needSeparator := by rw [t1, d3.1]; rfl
        have e4f : w4.firstItem = w1.firstItem := by rw [t2, d3.2]; rfl
        rw [e4n, e4f] at d5
        exact ⟨d5.1.trans d1.1, d5.2.trans d1.2⟩

theorem run_scope_inner (v : VisitorBase) (P : Properties) (inner : List Call)
    (hP : P = Properties.Whole ∨ P = Properties.Extension) (hb : Balanced inner) :
    ∃ rs a b, run inner (v.AfterBeginGroup (some P)) =
      some (rs, { needSeparator := a :: v.needSeparator, firstItem := b :: v.firstItem }) := by
  have hopen : ∃ b0, v.AfterBeginGroup (some P) =
      { needSeparator := false :: v.needSeparator, firstItem := b0 :: v.firstItem } := by
    rcases hP with hP | hP <;> subst hP <;> exact ⟨_, rfl⟩
  obtain ⟨b0, e0⟩ := hopen
  have hwf : (v.AfterBeginGroup (some P)).separatorDefined := by
    rw [e0]
    intro _ h
    exact List.noConfusion h
  obtain ⟨⟨rs, w⟩, hrun⟩ := (balanced_run inner hb _).2 hwf
  have hl := (balanced_run inner hb _).1 rs w hrun
  have ht := balanced_run_tails inner hb _ rs w hrun
  rw [e0] at hl ht
  obtain ⟨a, ea⟩ := eq_cons_of_tail w.needSeparator v.needSeparator hl.1 ht.1
  obtain ⟨b, eb⟩ := eq_cons_of_tail w.firstItem v.firstItem hl.2 ht.2
  refine ⟨rs, a, b, ?_⟩
  rw [hrun]
  obtain ⟨wn, wf⟩ := w
  simp only at ea eb
  rw [ea, eb]

/-- C14: a menu's separator state never leaks out of it.  From every visitor state,
after `AfterBeginGroup(P)` with `P` `Whole` or `Extension` and any balanced sequence
of calls inside the scope, each stack is one entry above the stacks as they were
before the push, entry for entry; the matching `ShouldEndGroup(P)` pops that entry,
so the visitor is exactly what it was before the push; and the scope a following
sibling `Q` then opens starts with `needSeparator = false`, whatever the calls inside
the first scope did.  The whole sequence is defined from every state. -/
theorem separator_state_never_leaks (v : VisitorBase) (P Q : Properties) (inner : List Call)
    (hP : P = Properties.Whole ∨ P = Properties.Extension)
    (hQ : Q = Properties.Whole ∨ Q = Properties.Extension) (hb : Balanced inner) :
    (∃ rs a b, run (Call.AfterBeginGroup (some P) :: inner) v =
      some (rs, { needSeparator := a :: v.needSeparator, firstItem := b :: v.firstItem })) ∧
    (∃ rs, run (Call.AfterBeginGroup (some P) :: (inner ++ [Call.ShouldEndGroup (some P)])) v =
      some (rs, v)) ∧
    (∃ rs, run (Call.AfterBeginGroup (some P) ::
        (inner ++ [Call.ShouldEndGroup (some P), Call.AfterBeginGroup (some Q)])) v =
      some (rs, { needSeparator := false :: v.needSeparator,
                  firstItem := decide (Q = Properties.Whole) :: v.firstItem })) := by
  obtain ⟨rs, a, b, hrun⟩ := run_scope_inner v P inner hP hb
  have hclose : step (Call.ShouldEndGroup (some P))
      { needSeparator := a :: v.needSeparator, firstItem := b :: v.firstItem } =
      some (false, v) := by
    rcases hP with hP | hP <;> subst hP <;> rfl
  have hsibling : step (Call.AfterBeginGroup (some Q)) v =
      some (false, { needSeparator := false :: v.needSeparator,
                     firstItem := decide (Q = Properties.Whole) :: v.firstItem }) := by
    rcases hQ with hQ | hQ <;> subst hQ <;> rfl
  refine ⟨⟨false :: rs, a, b, ?_⟩, ⟨false :: (rs ++ [false]), ?_⟩,
    ⟨false :: (rs ++ [false, false]), ?_⟩⟩
  · exact (run_cons_eq_some _ _ _ _ _).2 ⟨false, _, rs, rfl, hrun, rfl⟩
  · refine (run_cons_eq_some _ _ _ _ _).2 ⟨false, _, _, rfl, ?_, rfl⟩
    refine (run_append_eq_some _ _ _ _ _).2 ⟨rs, _, [false], hrun, ?_, rfl⟩
    exact (run_cons_eq_some _ _ _ _ _).2 ⟨false, v, [], hclose, rfl, rfl⟩
  · refine (run_cons_eq_some _ _ _ _ _).2 ⟨false, _, _, rfl, ?_, rfl⟩
    refine (run_append_eq_some _ _ _ _ _).2 ⟨rs, _, [false, false], hrun, ?_, rfl⟩
    refine (run_cons_eq_some _ _ _ _ _).2 ⟨false, v, [false], hclose, ?_, rfl⟩
    exact (run_cons_eq_some _ _ _ _ _).2 ⟨false, _, [], hsibling, rfl, rfl⟩

/-- C14 (witness): a menu with an item, a section mark and a nested menu, opened on a
visitor whose enclosing scope has a pending request, followed by a sibling menu. -/
theorem separator_state_never_leaks_witness :
    (∃ rs a b, run (Call.AfterBeginGroup (some Properties.Whole) ::
        [Call.ShouldDoSeparator,
         Call.ShouldBeginGroup (some Properties.Section),
         Call.AfterBeginGroup (some Properties.Section),
         Call.ShouldEndGroup (some Properties.Section),
         Call.ShouldBeginGroup (some Properties.Whole),
         Call.AfterBeginGroup (some Properties.Whole),
         Call.ShouldEndGroup (some Properties.Whole)])
        { needSeparator := [true], firstItem := [false] } =
      some (rs, { needSeparator := a :: [true], firstItem := b :: [false] })) ∧
    (∃ rs, run (Call.AfterBeginGroup (some Properties.Whole) ::
        ([Call.ShouldDoSeparator,
          Call.ShouldBeginGroup (some Properties.Section),
          Call.AfterBeginGroup (some Properties.Section),
          Call.ShouldEndGroup (some Properties.Section),
          Call.ShouldBeginGroup (some Properties.Whole),
          Call.AfterBeginGroup (some Properties.Whole),
          Call.ShouldEndGroup (some Properties.Whole)] ++
          [Call.ShouldEndGroup (some Properties.Whole)]))
        { needSeparator := [true], firstItem := [false] } =
      some (rs, { needSeparator := [true], firstItem := [false] })) ∧
    (∃ rs, run (Call.AfterBeginGroup (some Properties.Whole) ::
        ([Call.ShouldDoSeparator,
          Call.ShouldBeginGroup (some Properties.Section),
          Call.AfterBeginGroup (some Properties.Section),
          Call.ShouldEndGroup (some Properties.Section),
          Call.ShouldBeginGroup (some Properties.Whole),
          Call.AfterBeginGroup (some Properties.Whole),
          Call.ShouldEndGroup (some Properties.Whole)] ++
          [Call.ShouldEndGroup (some Properties.Whole),
           Call.AfterBeginGroup (some Properties.Extension)]))
        { needSeparator := [true], firstItem := [false] } =
      some (rs, { needSeparator := false :: [true],
                  firstItem := decide (Properties.Extension = Properties.Whole) :: [false] })) :=
  separator_state_never_leaks { needSeparator := [true], firstItem := [false] }
    Properties.Whole Properties.Extension
    [Call.ShouldDoSeparator,
     Call.ShouldBeginGroup (some Properties.Section),
     Call.AfterBeginGroup (some Properties.Section),
     Call.ShouldEndGroup (some Properties.Section),
     Call.ShouldBeginGroup (some Properties.Whole),
     Call.AfterBeginGroup (some Properties.Whole),
     Call.ShouldEndGroup (some Properties.Whole)]
    (Or.inl rfl) (Or.inr rfl)
    (Balanced.separator
      (@Balanced.group (some Properties.Section) []
        [Call.ShouldBeginGroup (some Properties.Whole),
         Call.AfterBeginGroup (some Properties.Whole),
         Call.ShouldEndGroup (some Properties.Whole)]
        Balanced.nil
        (@Balanced.group (some Properties.Whole) [] [] Balanced.nil Balanced.nil)))

end MenuTable

/-! ## Theorems: the flag engine, continued -/

/-- C15: when `checkActive` is false or the window is active, `GetUpdateFlags` returns at
every registered flag index `i` the value of predicate `i` on the project, quick
test or not and whatever was cached; and in every mode the cached `lastFlags` after
the call is the returned bitset, the rest of the state being untouched but for the
recorded predicate calls. -/
theorem GetUpdateFlags_full_evaluation {Project : Type} (reg : Registry Project)
    (checkActive : Bool) (m : MenuManager Project) (i : Nat) (r : ReservedCommandFlag Project)
    (hfull : checkActive = false ∨ reg.IsActive m.mProject = true)
    (hi : reg.ReservedFlags[i]? = some r) :
    (m.GetUpdateFlags reg checkActive).1.testBit i = r.predicate m.mProject ∧
    ∀ anyMode : Bool,
      (m.GetUpdateFlags reg anyMode).2.lastFlags = (m.GetUpdateFlags reg anyMode).1 := by
  constructor
  · have h : (checkActive && !reg.IsActive m.mProject) = false := by
      rcases hfull with h | h <;> simp [h]
    rw [GetUpdateFlags_full_eq reg checkActive m h]
    simp only [testBit_setWhere, Nat.zero_testBit, Nat.sub_zero, hi, Nat.zero_le, decide_True,
      Bool.true_and, Bool.false_or]
    by_cases hq : r.options.quickTest = true
    · simp [hq]
    · simp [hq]
  · intro anyMode
    obtain ⟨calls, _, hs⟩ := GetUpdateFlags_state reg anyMode m
    rw [hs]

/-- C15 (witness): both conditions hold, nothing is cached and `checkActive` is false:
bit 1, not a quick test, is evaluated. -/
theorem GetUpdateFlags_full_evaluation_witness :
    ((freshManager 3 0 0 1).GetUpdateFlags (twoFlags false []) false).1.testBit 1 =
        (conditionFlag 1 false).predicate (freshManager 3 0 0 1).mProject ∧
    ∀ anyMode : Bool,
      ((freshManager 3 0 0 1).GetUpdateFlags (twoFlags false []) anyMode).2.lastFlags =
        ((freshManager 3 0 0 1).GetUpdateFlags (twoFlags false []) anyMode).1 :=
  GetUpdateFlags_full_evaluation (twoFlags false []) false (freshManager 3 0 0 1) 1
    (conditionFlag 1 false) (Or.inl rfl) rfl

theorem laxLoop_eq_foldl {Project : Type} (project : Project) (flags : CommandFlag)
    (l : List (MenuItemEnabler Project)) (flags2 : CommandFlag) :
    laxLoop project flags l flags2 =
      (l.filter fun e =>
          e.applicable project && (flags &&& e.actualFlags) == e.actualFlags).foldl
        (fun acc e => acc ||| e.possibleFlags) flags2 := by
  induction l generalizing flags2 with
  | nil => rfl
  | cons e rest ih =>
    by_cases hc : (e.applicable project && (flags &&& e.actualFlags) == e.actualFlags) = true
    · simp only [laxLoop, List.filter_cons, hc, if_true, List.foldl_cons]
      exact ih _
    · simp only [laxLoop, List.filter_cons, hc, if_false]
      exact ih _

theorem testBit_foldl_possibleFlags {Project : Type} (l : List (MenuItemEnabler Project))
    (acc : CommandFlag) (i : Nat) :
    (l.foldl (fun acc e => acc ||| e.possibleFlags) acc).testBit i = true ↔
      acc.testBit i = true ∨ ∃ e ∈ l, e.possibleFlags.testBit i = true := by
  induction l generalizing acc with
  | nil => simp
  | cons e rest ih =>
    simp only [List.foldl_cons, ih, Nat.testBit_or, Bool.or_eq_true, List.mem_cons,
      exists_eq_or_imp]
    tauto

/-- C12: in `UpdateMenus`, when the recomputed flags differ from `mLastFlags`, the lax
argument `flags2` handed to `EnableUsingFlags` is the speculative bitset of the
spec: `flags` OR-ed with `possibleFlags(e)` of the registered enablers `e` for
which `applicable(e, project)` holds and `actualFlags(e)` is within `flags`, the
test being made against `flags` itself.  Bit by bit: a bit is in `flags2` exactly
when it is in `flags` or in the `possibleFlags` of an enabler passing both tests, so
an enabler failing either test contributes nothing. -/
theorem UpdateMenus_speculative_flags {Project : Type} (reg : Registry Project)
    (checkActive : Bool) (m : MenuManager Project)
    (hchanged : (m.GetUpdateFlags reg checkActive).1 ≠ m.mLastFlags) :
    (∃ strict,
      (m.UpdateMenus reg checkActive).trace =
        (m.GetUpdateFlags reg checkActive).2.trace ++
          [Event.EnableUsingFlags
              (speculativeFlags m.mProject (m.GetUpdateFlags reg checkActive).1 reg.Enablers)
              strict,
            Event.Publish]) ∧
    laxLoop m.mProject (m.GetUpdateFlags reg checkActive).1 reg.Enablers
        (m.GetUpdateFlags reg checkActive).1 =
      speculativeFlags m.mProject (m.GetUpdateFlags reg checkActive).1 reg.Enablers ∧
    ∀ i, (speculativeFlags m.mProject (m.GetUpdateFlags reg checkActive).1
          reg.Enablers).testBit i = true ↔
      (m.GetUpdateFlags reg checkActive).1.testBit i = true ∨
        ∃ e ∈ reg.Enablers, e.applicable m.mProject = true ∧
          (m.GetUpdateFlags reg checkActive).1 &&& e.actualFlags = e.actualFlags ∧
          e.possibleFlags.testBit i = true := by
  have hlax := laxLoop_eq_foldl m.mProject (m.GetUpdateFlags reg checkActive).1 reg.Enablers
    (m.GetUpdateFlags reg checkActive).1
  refine ⟨⟨if m.mWhatIfNoSelection = 0 then
      laxLoop m.mProject (m.GetUpdateFlags reg checkActive).1 reg.Enablers
        (m.GetUpdateFlags reg checkActive).1
    else (m.GetUpdateFlags reg checkActive).1, ?_⟩, hlax, ?_⟩
  · rw [UpdateMenus_changed reg checkActive m hchanged]
    simp only []
    rw [hlax]
    rfl
  · intro i
    unfold speculativeFlags
    rw [testBit_foldl_possibleFlags]
    constructor
    · rintro (h | ⟨e, he, hb⟩)
      · exact Or.inl h
      · rw [List.mem_filter] at he
        obtain ⟨hmem, hc⟩ := he
        simp only [Bool.and_eq_true, beq_iff_eq] at hc
        exact Or.inr ⟨e, hmem, hc.1, hc.2, hb⟩
    · rintro (h | ⟨e, hmem, ha, hs, hb⟩)
      · exact Or.inl h
      · refine Or.inr ⟨e, ?_, hb⟩
        rw [List.mem_filter]
        refine ⟨hmem, ?_⟩
        simp only [Bool.and_eq_true, beq_iff_eq]
        exact ⟨ha, hs⟩

/-- C12 (witness): flag 0 holds; of two applicable enablers the first needs flag 0 and
offers flag 1, the second needs flag 1, which only the first one offers, and so
contributes nothing: `flags2` is 3, not 7. -/
theorem UpdateMenus_speculative_flags_witness :
    ((∃ strict,
      ((freshManager 1 0 0 1).UpdateMenus
          (twoFlags true [conditionEnabler 1 2 2, conditionEnabler 2 4 4]) false).trace =
        ((freshManager 1 0 0 1).GetUpdateFlags
            (twoFlags true [conditionEnabler 1 2 2, conditionEnabler 2 4 4]) false).2.trace ++
          [Event.EnableUsingFlags
              (speculativeFlags (freshManager 1 0 0 1).mProject
                ((freshManager 1 0 0 1).GetUpdateFlags
                  (twoFlags true [conditionEnabler 1 2 2, conditionEnabler 2 4 4]) false).1
                (twoFlags true [conditionEnabler 1 2 2, conditionEnabler 2 4 4]).Enablers)
              strict,
            Event.Publish]) ∧
      laxLoop (freshManager 1 0 0 1).mProject
          ((freshManager 1 0 0 1).GetUpdateFlags
            (twoFlags true [conditionEnabler 1 2 2, conditionEnabler 2 4 4]) false).1
          (twoFlags true [conditionEnabler 1 2 2, conditionEnabler 2 4 4]).Enablers
          ((freshManager 1 0 0 1).GetUpdateFlags
            (twoFlags true [conditionEnabler 1 2 2, conditionEnabler 2 4 4]) false).1 =
        speculativeFlags (freshManager 1 0 0 1).mProject
          ((freshManager 1 0 0 1).GetUpdateFlags
            (twoFlags true [conditionEnabler 1 2 2, conditionEnabler 2 4 4]) false).1
          (twoFlags true [conditionEnabler 1 2 2, conditionEnabler 2 4 4]).Enablers ∧
      ∀ i, (speculativeFlags (freshManager 1 0 0 1).mProject
            ((freshManager 1 0 0 1).GetUpdateFlags
              (twoFlags true [conditionEnabler 1 2 2, conditionEnabler 2 4 4]) false).1
            (twoFlags true [conditionEnabler 1 2 2, conditionEnabler 2 4 4]).Enablers).testBit
              i = true ↔
        ((freshManager 1 0 0 1).GetUpdateFlags
            (twoFlags true [conditionEnabler 1 2 2, conditionEnabler 2 4 4]) false).1.testBit
              i = true ∨
          ∃ e ∈ (twoFlags true [conditionEnabler 1 2 2, conditionEnabler 2 4 4]).Enablers,
            e.applicable (freshManager 1 0 0 1).mProject = true ∧
            ((freshManager 1 0 0 1).GetUpdateFlags
              (twoFlags true [conditionEnabler 1 2 2, conditionEnabler 2 4 4]) false).1 &&&
                e.actualFlags = e.actualFlags ∧
            e.possibleFlags.testBit i = true) ∧
    ((freshManager 1 0 0 1).UpdateMenus
        (twoFlags true [conditionEnabler 1 2 2, conditionEnabler 2 4 4]) false).trace =
      [Event.predicate 0, Event.predicate 1, Event.EnableUsingFlags 3 1, Event.Publish] :=
  ⟨UpdateMenus_speculative_flags
    (twoFlags true [conditionEnabler 1 2 2, conditionEnabler 2 4 4]) false
    (freshManager 1 0 0 1) (by decide), by decide⟩

theorem missing_of_got_within_required (N flags flagsRqd : Nat) :
    flagsRqd &&& flipAll N (flags &&& flagsRqd) = flagsRqd &&& flipAll N flags := by
  apply Nat.eq_of_testBit_eq
  intro i
  simp only [Nat.testBit_and, testBit_flipAll]
  cases flagsRqd.testBit i <;> simp

/-- C11: `ReportIfActionNotAllowed(Name, flags, flagsRqd)` returns the boolean, and leaves
in `flags` the value, that `TryToMakeActionAllowed(flags, flagsRqd)` produces on the
same state.  When that boolean is true nothing else happens; when it is false
`TellUserWhyDisallowed` is called once, after the recovery, with
`flags & flagsRqd` as `flagsGot`, and nothing but its dialog follows.  The missing
flags it then explains, `flagsRqd & ~(flags & flagsRqd)`, are `flagsRqd & ~flags` for
the flags after recovery, so the explanation is the one for those flags. -/
theorem ReportIfActionNotAllowed_reports {Project : Type} (reg : Registry Project)
    (checkActive : Bool) (Name : String) (flags flagsRqd : CommandFlag)
    (m : MenuManager Project) :
    (m.ReportIfActionNotAllowed reg checkActive Name flags flagsRqd).1 =
        (m.TryToMakeActionAllowed reg checkActive flags flagsRqd).1 ∧
    (m.ReportIfActionNotAllowed reg checkActive Name flags flagsRqd).2.1 =
        (m.TryToMakeActionAllowed reg checkActive flags flagsRqd).2.1 ∧
    ((m.TryToMakeActionAllowed reg checkActive flags flagsRqd).1 = true →
      (m.ReportIfActionNotAllowed reg checkActive Name flags flagsRqd).2.2 =
        (m.TryToMakeActionAllowed reg checkActive flags flagsRqd).2.2) ∧
    ((m.TryToMakeActionAllowed reg checkActive flags flagsRqd).1 = false →
      (m.ReportIfActionNotAllowed reg checkActive Name flags flagsRqd).2.2.trace =
        (m.TryToMakeActionAllowed reg checkActive flags flagsRqd).2.2.trace ++
          Event.TellUserWhyDisallowed Name
              ((m.TryToMakeActionAllowed reg checkActive flags flagsRqd).2.1 &&& flagsRqd)
              flagsRqd ::
            (match TellUserWhyDisallowed reg.NCommandFlags reg.Options Name
                (m.TryToMakeActionAllowed reg checkActive flags flagsRqd).2.1 flagsRqd with
              | some d => [Event.ShowErrorDialog d.title d.reason d.helpPage]
              | none => [])) ∧
    flagsRqd &&& flipAll reg.NCommandFlags
        ((m.TryToMakeActionAllowed reg checkActive flags flagsRqd).2.1 &&& flagsRqd) =
      flagsRqd &&& flipAll reg.NCommandFlags
        (m.TryToMakeActionAllowed reg checkActive flags flagsRqd).2.1 := by
  have hmiss := missing_of_got_within_required reg.NCommandFlags
    (m.TryToMakeActionAllowed reg checkActive flags flagsRqd).2.1 flagsRqd
  have hsame : TellUserWhyDisallowed reg.NCommandFlags reg.Options Name
      ((m.TryToMakeActionAllowed reg checkActive flags flagsRqd).2.1 &&& flagsRqd) flagsRqd =
      TellUserWhyDisallowed reg.NCommandFlags reg.Options Name
        (m.TryToMakeActionAllowed reg checkActive flags flagsRqd).2.1 flagsRqd := by
    simp only [TellUserWhyDisallowed, hmiss]
  refine ⟨?_, ?_, ?_, ?_, hmiss⟩
  · simp only [MenuManager.ReportIfActionNotAllowed]
    cases (m.TryToMakeActionAllowed reg checkActive flags flagsRqd).1 <;> simp
  · simp only [MenuManager.ReportIfActionNotAllowed]
    cases (m.TryToMakeActionAllowed reg checkActive flags flagsRqd).1 <;> simp
  · intro h
    simp only [MenuManager.ReportIfActionNotAllowed, h, if_true]
  · intro h
    rw [← hsame]
    simp only [MenuManager.ReportIfActionNotAllowed, h, Bool.false_eq_true, if_false]

theorem TryToMakeActionAllowed_eq {Project : Type} (reg : Registry Project)
    (checkActive : Bool) (flags flagsRqd : CommandFlag) (m : MenuManager Project) :
    m.TryToMakeActionAllowed reg checkActive flags flagsRqd =
      (((recoveryLoop reg checkActive flagsRqd reg.Enablers 0
            (scanStart reg checkActive flags m).1 (scanStart reg checkActive flags m).2).1 &&&
          flagsRqd) == flagsRqd,
        (recoveryLoop reg checkActive flagsRqd reg.Enablers 0
          (scanStart reg checkActive flags m).1 (scanStart reg checkActive flags m).2).1,
        (recoveryLoop reg checkActive flagsRqd reg.Enablers 0
          (scanStart reg checkActive flags m).1 (scanStart reg checkActive flags m).2).2) := by
  simp only [MenuManager.TryToMakeActionAllowed, scanStart]

theorem recoveryLoop_passes {Project : Type} (reg : Registry Project) (checkActive : Bool)
    (flagsRqd : CommandFlag) (E : MenuItemEnabler Project)
    (post : List (MenuItemEnabler Project)) (index : Nat) (flags : CommandFlag)
    (m : MenuManager Project)
    (hnot : ¬ (flags &&& E.actualFlags = E.actualFlags ∧
      (flipAll reg.NCommandFlags flags &&& flagsRqd) &&& E.possibleFlags ≠ 0)) :
    recoveryLoop reg checkActive flagsRqd (E :: post) index flags m =
      recoveryLoop reg checkActive flagsRqd post (index + 1) flags m := by
  have h := recoveryLoop_skip reg checkActive flagsRqd [E] post index flags m (by
    intro e he
    rw [List.mem_singleton] at he
    subst he
    exact hnot)
  simpa using h

theorem recoveryLoop_append {Project : Type} (reg : Registry Project) (checkActive : Bool)
    (flagsRqd : CommandFlag) (a b : List (MenuItemEnabler Project)) (index : Nat)
    (flags : CommandFlag) (m : MenuManager Project) :
    recoveryLoop reg checkActive flagsRqd (a ++ b) index flags m =
      recoveryLoop reg checkActive flagsRqd b (index + a.length)
        (recoveryLoop reg checkActive flagsRqd a index flags m).1
        (recoveryLoop reg checkActive flagsRqd a index flags m).2 := by
  induction a generalizing index flags m with
  | nil => simp [recoveryLoop]
  | cons e rest ih =>
    by_cases hdone : flags &&& flagsRqd = flagsRqd
    · rw [recoveryLoop_done _ _ _ _ _ _ _ hdone, recoveryLoop_done _ _ _ _ _ _ _ hdone,
        recoveryLoop_done _ _ _ _ _ _ _ hdone]
    · by_cases hc : flags &&& e.actualFlags = e.actualFlags ∧
          (flipAll reg.NCommandFlags flags &&& flagsRqd) &&& e.possibleFlags ≠ 0
      · rw [List.cons_append, recoveryLoop_fires _ _ _ _ _ _ _ _ hdone hc.1 hc.2,
          recoveryLoop_fires _ _ _ _ _ _ _ _ hdone hc.1 hc.2, ih]
        simp [Nat.add_assoc, Nat.add_comm 1]
      · rw [List.cons_append, recoveryLoop_passes _ _ _ _ _ _ _ _ hc,
          recoveryLoop_passes _ _ _ _ _ _ _ _ hc, ih]
        simp [Nat.add_assoc, Nat.add_comm 1]

theorem callsSince_of_append (before after : List Event) (calls : List Nat)
    (h : tryEnableCalls after = tryEnableCalls before ++ calls) :
    callsSince before after = calls := by
  unfold callsSince
  rw [h, List.drop_left]

theorem recoveryLoop_calls {Project : Type} (reg : Registry Project) (checkActive : Bool)
    (flagsRqd : CommandFlag) (l : List (MenuItemEnabler Project)) (index : Nat)
    (flags : CommandFlag) (m : MenuManager Project) :
    ∃ calls,
      tryEnableCalls (recoveryLoop reg checkActive flagsRqd l index flags m).2.trace =
        tryEnableCalls m.trace ++ calls ∧
      calls.Pairwise (· < ·) ∧
      (∀ j ∈ calls, index ≤ j ∧ j < index + l.length) ∧
      (∀ e rest, l = e :: rest →
        (index ∈ calls ↔
          (flags &&& flagsRqd ≠ flagsRqd ∧ flags &&& e.actualFlags = e.actualFlags ∧
            (flipAll reg.NCommandFlags flags &&& flagsRqd) &&& e.possibleFlags ≠ 0))) := by
  induction l generalizing index flags m with
  | nil =>
    refine ⟨[], by simp [recoveryLoop], List.Pairwise.nil, by simp, ?_⟩
    intro e rest h
    exact absurd h (by simp)
  | cons e rest ih =>
    by_cases hdone : flags &&& flagsRqd = flagsRqd
    · rw [recoveryLoop_done _ _ _ _ _ _ _ hdone]
      refine ⟨[], by simp, List.Pairwise.nil, by simp, ?_⟩
      intro e1 rest1 _
      simp [hdone]
    · by_cases hc : flags &&& e.actualFlags = e.actualFlags ∧
          (flipAll reg.NCommandFlags flags &&& flagsRqd) &&& e.possibleFlags ≠ 0
      · rw [recoveryLoop_fires _ _ _ _ _ _ _ _ hdone hc.1 hc.2]
        obtain ⟨calls, h1, h2, h3, _⟩ := ih (index + 1)
          (MenuManager.GetUpdateFlags reg checkActive
            { m with
              mProject := e.tryEnable m.mProject flagsRqd
              trace := m.trace ++ [Event.tryEnable index flagsRqd] }).1
          (MenuManager.GetUpdateFlags reg checkActive
            { m with
              mProject := e.tryEnable m.mProject flagsRqd
              trace := m.trace ++ [Event.tryEnable index flagsRqd] }).2
        refine ⟨index :: calls, ?_, ?_, ?_, ?_⟩
        · rw [h1, tryEnableCalls_GetUpdateFlags]
          simp [tryEnableCalls_append, tryEnableCalls]
        · rw [List.pairwise_cons]
          refine ⟨?_, h2⟩
          intro j hj
          have := (h3 j hj).1
          omega
        · intro j hj
          rcases List.mem_cons.1 hj with hj | hj
          · subst hj
            simp
          · have := h3 j hj
            simp only [List.length_cons]
            omega
        · intro e1 rest1 hl
          simp only [List.cons.injEq] at hl
          rw [← hl.1]
          simp [hdone, hc.1, hc.2]
      · rw [recoveryLoop_passes _ _ _ _ _ _ _ _ hc]
        obtain ⟨calls, h1, h2, h3, _⟩ := ih (index + 1) flags m
        refine ⟨calls, h1, h2, ?_, ?_⟩
        · intro j hj
          have := h3 j hj
          simp only [List.length_cons]
          omega
        · intro e1 rest1 hl
          simp only [List.cons.injEq] at hl
          rw [← hl.1]
          constructor
          · intro hmem
            have := (h3 index hmem).1
            omega
          · rintro ⟨_, h5, h6⟩
            exact absurd ⟨h5, h6⟩ hc

theorem tryEnableCalls_scanStart {Project : Type} (reg : Registry Project)
    (checkActive : Bool) (flags : CommandFlag) (m : MenuManager Project) :
    tryEnableCalls (scanStart reg checkActive flags m).2.trace = tryEnableCalls m.trace := by
  unfold scanStart
  by_cases hz : (flags == 0) = true
  · rw [if_pos hz, tryEnableCalls_GetUpdateFlags]
  · rw [if_neg hz]

theorem recoveryLoop_at_index {Project : Type} (reg : Registry Project) (checkActive : Bool)
    (flags flagsRqd : CommandFlag) (m : MenuManager Project) (j : Nat)
    (e : MenuItemEnabler Project) (he : reg.Enablers[j]? = some e) :
    recoveryLoop reg checkActive flagsRqd reg.Enablers 0
        (scanStart reg checkActive flags m).1 (scanStart reg checkActive flags m).2 =
      recoveryLoop reg checkActive flagsRqd (e :: reg.Enablers.drop (j + 1)) j
        (reachedAt reg checkActive flags flagsRqd m j).1
        (reachedAt reg checkActive flags flagsRqd m j).2 := by
  obtain ⟨hlt, hget⟩ := List.getElem?_eq_some.1 he
  have hsplit : reg.Enablers = reg.Enablers.take j ++ e :: reg.Enablers.drop (j + 1) := by
    rw [← hget, ← List.drop_eq_getElem_cons hlt, List.take_append_drop]
  have hlen : (reg.Enablers.take j).length = j := by
    rw [List.length_take]
    omega
  conv_lhs => rw [hsplit]
  rw [recoveryLoop_append, hlen, Nat.zero_add]
  rfl

theorem reachedAt_done_later {Project : Type} (reg : Registry Project) (checkActive : Bool)
    (flags flagsRqd : CommandFlag) (m : MenuManager Project) (j i : Nat) (hji : j ≤ i)
    (h : (reachedAt reg checkActive flags flagsRqd m j).1 &&& flagsRqd = flagsRqd) :
    reachedAt reg checkActive flags flagsRqd m i = reachedAt reg checkActive flags flagsRqd m j := by
  have hsplit : reg.Enablers.take i =
      reg.Enablers.take j ++ (reg.Enablers.take i).drop j := by
    have h1 := List.take_append_drop j (reg.Enablers.take i)
    rw [List.take_take, Nat.min_eq_left hji] at h1
    exact h1.symm
  unfold reachedAt
  rw [hsplit, recoveryLoop_append]
  exact recoveryLoop_done _ _ _ _ _ _ _ h

theorem TryToMakeActionAllowed_calls {Project : Type} (reg : Registry Project)
    (checkActive : Bool) (flags flagsRqd : CommandFlag) (m : MenuManager Project) :
    tryEnableCalls (m.TryToMakeActionAllowed reg checkActive flags flagsRqd).2.2.trace =
        tryEnableCalls m.trace ++
          callsSince m.trace (m.TryToMakeActionAllowed reg checkActive flags flagsRqd).2.2.trace ∧
    (callsSince m.trace
        (m.TryToMakeActionAllowed reg checkActive flags flagsRqd).2.2.trace).Pairwise (· < ·) ∧
    (∀ j ∈ callsSince m.trace
        (m.TryToMakeActionAllowed reg checkActive flags flagsRqd).2.2.trace,
      j < reg.Enablers.length) ∧
    (∀ j e, reg.Enablers[j]? = some e →
      (j ∈ callsSince m.trace
          (m.TryToMakeActionAllowed reg checkActive flags flagsRqd).2.2.trace ↔
        ((reachedAt reg checkActive flags flagsRqd m j).1 &&& flagsRqd ≠ flagsRqd ∧
          (reachedAt reg checkActive flags flagsRqd m j).1 &&& e.actualFlags = e.actualFlags ∧
          (flipAll reg.NCommandFlags (reachedAt reg checkActive flags flagsRqd m j).1 &&&
            flagsRqd) &&& e.possibleFlags ≠ 0))) := by
  rw [TryToMakeActionAllowed_eq]
  simp only []
  obtain ⟨calls, h1, h2, h3, _⟩ := recoveryLoop_calls reg checkActive flagsRqd reg.Enablers 0
    (scanStart reg checkActive flags m).1 (scanStart reg checkActive flags m).2
  rw [tryEnableCalls_scanStart] at h1
  have hcs := callsSince_of_append _ _ _ h1
  rw [hcs]
  refine ⟨h1, h2, fun j hj => by have := (h3 j hj).2; omega, ?_⟩
  intro j e he
  have hidx := recoveryLoop_at_index reg checkActive flags flagsRqd m j e he
  obtain ⟨cs1, a1, _, a3, _⟩ := recoveryLoop_calls reg checkActive flagsRqd
    (reg.Enablers.take j) 0
    (scanStart reg checkActive flags m).1 (scanStart reg checkActive flags m).2
  obtain ⟨cs2, b1, _, b3, b4⟩ := recoveryLoop_calls reg checkActive flagsRqd
    (e :: reg.Enablers.drop (j + 1)) j
    (reachedAt reg checkActive flags flagsRqd m j).1
    (reachedAt reg checkActive flags flagsRqd m j).2
  rw [tryEnableCalls_scanStart] at a1
  rw [← hidx, h1] at b1
  have hreach : tryEnableCalls (reachedAt reg checkActive flags flagsRqd m j).2.trace =
      tryEnableCalls m.trace ++ cs1 := a1
  rw [hreach, List.append_assoc] at b1
  have hcalls : calls = cs1 ++ cs2 := List.append_cancel_left b1
  rw [hcalls, List.mem_append, ← b4 e _ rfl]
  constructor
  · rintro (h | h)
    · have := (a3 j h).2
      have hlen : (reg.Enablers.take j).length ≤ j := by
        rw [List.length_take]
        omega
      omega
    · exact h
  · exact fun h => Or.inr h

/-- C20: `TryToMakeActionAllowed` is total and makes a single pass.  The `tryEnable` calls
of one call are recorded in strictly increasing order of enabler position, every
position being one of a registered enabler, so the enablers are considered in
registration order and each `tryEnable` is invoked at most once.  The enabler at
position `j` is invoked exactly when, at the moment it is reached, the required
flags are not all present, its `actualFlags` lie within the current flags and its
`possibleFlags` meet the missing required flags.  Once all required flags are
present at some position no enabler from that position on is invoked.  When
`flagsRqd` is within the non-empty input `flags`, no `tryEnable` is invoked and the
result is true with `flags` and the state unchanged. -/
theorem TryToMakeActionAllowed_single_pass {Project : Type} (reg : Registry Project)
    (checkActive : Bool) (flags flagsRqd : CommandFlag) (m : MenuManager Project) :
    tryEnableCalls (m.TryToMakeActionAllowed reg checkActive flags flagsRqd).2.2.trace =
        tryEnableCalls m.trace ++
          callsSince m.trace (m.TryToMakeActionAllowed reg checkActive flags flagsRqd).2.2.trace ∧
    (callsSince m.trace
        (m.TryToMakeActionAllowed reg checkActive flags flagsRqd).2.2.trace).Pairwise (· < ·) ∧
    (∀ j ∈ callsSince m.trace
        (m.TryToMakeActionAllowed reg checkActive flags flagsRqd).2.2.trace,
      j < reg.Enablers.length) ∧
    (∀ j e, reg.Enablers[j]? = some e →
      (j ∈ callsSince m.trace
          (m.TryToMakeActionAllowed reg checkActive flags flagsRqd).2.2.trace ↔
        ((reachedAt reg checkActive flags flagsRqd m j).1 &&& flagsRqd ≠ flagsRqd ∧
          (reachedAt reg checkActive flags flagsRqd m j).1 &&& e.actualFlags = e.actualFlags ∧
          (flipAll reg.NCommandFlags (reachedAt reg checkActive flags flagsRqd m j).1 &&&
            flagsRqd) &&& e.possibleFlags ≠ 0))) ∧
    (∀ j, (reachedAt reg checkActive flags flagsRqd m j).1 &&& flagsRqd = flagsRqd →
      ∀ i ∈ callsSince m.trace
          (m.TryToMakeActionAllowed reg checkActive flags flagsRqd).2.2.trace, i < j) ∧
    (flags ≠ 0 → flags &&& flagsRqd = flagsRqd →
      m.TryToMakeActionAllowed reg checkActive flags flagsRqd = (true, flags, m)) := by
  obtain ⟨h1, h2, h3, h4⟩ := TryToMakeActionAllowed_calls reg checkActive flags flagsRqd m
  refine ⟨h1, h2, h3, h4, ?_, ?_⟩
  · intro j hj i hi
    by_contra hge
    have hji : j ≤ i := by omega
    have hlt := h3 i hi
    have hget : reg.Enablers[i]? = some (reg.Enablers[i]) := List.getElem?_eq_getElem hlt
    have := ((h4 i _ hget).1 hi).1
    rw [reachedAt_done_later reg checkActive flags flagsRqd m j i hji hj] at this
    exact this hj
  · intro hne hsub
    have hz : (flags == 0) = false := by simpa using hne
    rw [TryToMakeActionAllowed_eq]
    have hstart : scanStart reg checkActive flags m = (flags, m) := by
      simp [scanStart, hz]
    rw [hstart]
    simp only []
    rw [recoveryLoop_done _ _ _ _ _ _ _ hsub]
    simp [hsub]

/-! ## Theorems: the undo and redo commands -/

/-- C13 (failing input): undo is not available, by `UndoManager` and by `ProjectHistory`
alike, and the Undo command was enabled before the call.  `ModifyUndoMenuItems` sets
the bare label but calls no `Enable` for Undo in that branch, so Undo stays enabled;
the Redo branch next to it does call `Enable( "Redo", false )`. -/
theorem ModifyUndoMenuItems_leaves_Undo_enabled :
    ModifyUndoMenuItems
        { GetCurrentState := 0, UndoAvailable := false, RedoAvailable := false,
          GetShortDescription := fun _ => "Cut",
          historyUndoAvailable := false, historyRedoAvailable := false }
        { Undo := { label := "&Undo Cut", enabled := true },
          Redo := { label := "&Redo Cut", enabled := true } } =
      { Undo := { label := "&Undo", enabled := true },
        Redo := { label := "&Redo", enabled := false } } := by
  decide

/-- What `ModifyUndoMenuItems` does establish, for every history and every prior state of
the two commands: the labels are as the spec says; Redo is enabled exactly when redo
is available to `UndoManager` and to `ProjectHistory`; Undo is enabled exactly when
`ProjectHistory` says so if undo is available to `UndoManager`, and keeps its prior
enabled state if it is not. -/
theorem ModifyUndoMenuItems_effect (undoManager : UndoHistory)
    (commandManager : UndoRedoCommands) :
    (ModifyUndoMenuItems undoManager commandManager).Undo.label =
        (if undoManager.UndoAvailable then
          "&Undo " ++ undoManager.GetShortDescription undoManager.GetCurrentState
         else "&Undo") ∧
    (ModifyUndoMenuItems undoManager commandManager).Redo.label =
        (if undoManager.RedoAvailable then
          "&Redo " ++ undoManager.GetShortDescription (undoManager.GetCurrentState + 1)
         else "&Redo") ∧
    (ModifyUndoMenuItems undoManager commandManager).Redo.enabled =
        (undoManager.RedoAvailable && undoManager.historyRedoAvailable) ∧
    (ModifyUndoMenuItems undoManager commandManager).Undo.enabled =
        (if undoManager.UndoAvailable then undoManager.historyUndoAvailable
         else commandManager.Undo.enabled) := by
  unfold ModifyUndoMenuItems
  cases undoManager.UndoAvailable <;> cases undoManager.RedoAvailable <;> simp

/-! ## Theorems: the visitor that builds the menus -/

theorem occultDepth_append (a b : List MenuCall) (d d1 : Nat)
    (h : occultDepth a d = some d1) : occultDepth (a ++ b) d = occultDepth b d1 := by
  induction a generalizing d with
  | nil =>
    simp only [occultDepth, Option.some.injEq] at h
    rw [List.nil_append, h]
  | cons c rest ih =>
    cases c with
    | BeginOccultCommands =>
      simp only [occultDepth] at h
      simp only [List.cons_append, occultDepth]
      exact ih _ h
    | EndOccultCommands =>
      cases d with
      | zero => simp [occultDepth] at h
      | succ d0 =>
        simp only [occultDepth] at h
        simp only [List.cons_append, occultDepth]
        exact ih _ h
    | BeginMenu t =>
      simp only [occultDepth] at h
      simp only [List.cons_append, occultDepth]
      exact ih _ h
    | EndMenu =>
      simp only [occultDepth] at h
      simp only [List.cons_append, occultDepth]
      exact ih _ h
    | AddItem n =>
      simp only [occultDepth] at h
      simp only [List.cons_append, occultDepth]
      exact ih _ h
    | AddItemList n =>
      simp only [occultDepth] at h
      simp only [List.cons_append, occultDepth]
      exact ih _ h
    | special =>
      simp only [occultDepth] at h
      simp only [List.cons_append, occultDepth]
      exact ih _ h
    | condition =>
      simp only [occultDepth] at h
      simp only [List.cons_append, occultDepth]
      exact ih _ h

theorem conditionCalls_append (a b : List MenuCall) :
    conditionCalls (a ++ b) = conditionCalls a + conditionCalls b := by
  simp [conditionCalls, List.count_append]

theorem leaf_spec {Project : Type} (call : MenuCall) (fn : Project → Project)
    (v v1 : MenuItemVisitor Project)
    (hcall : call ≠ MenuCall.condition ∧ call ≠ MenuCall.BeginOccultCommands ∧
      call ≠ MenuCall.EndOccultCommands)
    (h : v.leaf call fn = some v1) :
    v1.flags = v.flags ∧ v1.openMenus = v.openMenus ∧
      ∃ new, v1.calls = v.calls ++ new ∧
        conditionCalls new = 0 ∧ ∀ d, occultDepth new d = some d := by
  unfold MenuItemVisitor.leaf at h
  by_cases h0 : v.openMenus = 0
  · rw [if_pos h0] at h
    exact absurd h (by simp)
  · rw [if_neg h0] at h
    simp only [Option.some.injEq] at h
    rw [← h]
    refine ⟨rfl, rfl, [call], rfl, ?_, ?_⟩
    · simp only [conditionCalls, List.count_cons, List.count_nil, Nat.zero_add]
      rw [if_neg]
      simpa using hcall.1
    · intro d
      cases call <;> simp_all [occultDepth]

theorem leaf_defined {Project : Type} (call : MenuCall) (fn : Project → Project)
    (v : MenuItemVisitor Project) :
    (∃ v1, v.leaf call fn = some v1) ↔ (v.openMenus != 0) = true := by
  unfold MenuItemVisitor.leaf
  by_cases h0 : v.openMenus = 0
  · rw [if_pos h0]
    simp [h0]
  · rw [if_neg h0]
    simp [h0]

mutual
theorem VisitWithFunctions_completed {Project : Type} :
    ∀ (node : MenuNode Project) (v v1 : MenuItemVisitor Project),
      VisitWithFunctions node v = some v1 →
      v1.flags = v.flags ∧ v1.openMenus = v.openMenus ∧
        ∃ new, v1.calls = v.calls ++ new ∧ conditionCalls new = conditionalGroups node ∧
          ∀ d, occultDepth new d = some d
  | MenuNode.CommandItem name, v, v1, h =>
    leaf_spec (MenuCall.AddItem name) id v v1 (by simp) h
  | MenuNode.CommandGroupItem name, v, v1, h =>
    leaf_spec (MenuCall.AddItemList name) id v v1 (by simp) h
  | MenuNode.SpecialItem fn, v, v1, h =>
    leaf_spec MenuCall.special fn v v1 (by simp) h
  | MenuNode.MenuItem title items, v, v2, h => by
    simp only [VisitWithFunctions] at h
    cases hr : VisitAll items (v.beginMenu title) with
    | none => simp [hr] at h
    | some v1 =>
      rw [hr] at h
      simp only [Option.some.injEq] at h
      obtain ⟨h1, h2, new, h3, h4, h5⟩ := VisitAll_completed items (v.beginMenu title) v1 hr
      rw [← h]
      refine ⟨h1, ?_, MenuCall.BeginMenu title :: (new ++ [MenuCall.EndMenu]), ?_, ?_, ?_⟩
      · simp [MenuItemVisitor.endMenu, h2, MenuItemVisitor.beginMenu]
      · simp [MenuItemVisitor.endMenu, h3, MenuItemVisitor.beginMenu]
      · simp only [conditionalGroups]
        rw [← h4]
        simp [conditionCalls, List.count_append, List.count_cons]
      · intro d
        simp only [occultDepth]
        rw [occultDepth_append new _ d d (h5 d)]
        rfl
  | MenuNode.ConditionalGroupItem condition items, v, v2, h => by
    simp only [VisitWithFunctions] at h
    cases hr : VisitAll items (v.beginConditional condition) with
    | none => simp [hr] at h
    | some v1 =>
      rw [hr] at h
      obtain ⟨h1, h2, new, h3, h4, h5⟩ :=
        VisitAll_completed items (v.beginConditional condition) v1 hr
      have hflags : v1.flags = condition v.mProject :: v.flags := h1
      simp only [MenuItemVisitor.endConditional, hflags, Option.some.injEq] at h
      rw [← h]
      cases hb : condition v.mProject with
      | true =>
        refine ⟨rfl, h2, MenuCall.condition :: new, ?_, ?_, ?_⟩
        · simp [h3, MenuItemVisitor.beginConditional, hb]
        · simp only [conditionalGroups]
          rw [← h4]
          simp [conditionCalls, List.count_cons]
        · intro d
          simp only [occultDepth]
          exact h5 d
      | false =>
        refine ⟨rfl, h2,
          MenuCall.condition :: MenuCall.BeginOccultCommands ::
            (new ++ [MenuCall.EndOccultCommands]), ?_, ?_, ?_⟩
        · simp [h3, MenuItemVisitor.beginConditional, hb]
        · simp only [conditionalGroups]
          rw [← h4]
          simp [conditionCalls, List.count_cons, List.count_append]
        · intro d
          simp only [occultDepth]
          rw [occultDepth_append new _ (d + 1) (d + 1) (h5 (d + 1))]
          rfl
  | MenuNode.MenuPart items, v, v1, h => by
    simp only [VisitWithFunctions] at h
    obtain ⟨h1, h2, new, h3, h4, h5⟩ := VisitAll_completed items v v1 h
    exact ⟨h1, h2, new, h3, by simpa [conditionalGroups] using h4, h5⟩
theorem VisitAll_completed {Project : Type} :
    ∀ (items : List (MenuNode Project)) (v v1 : MenuItemVisitor Project),
      VisitAll items v = some v1 →
      v1.flags = v.flags ∧ v1.openMenus = v.openMenus ∧
        ∃ new, v1.calls = v.calls ++ new ∧ conditionCalls new = conditionalGroupsAll items ∧
          ∀ d, occultDepth new d = some d
  | [], v, v1, h => by
    simp only [VisitAll, Option.some.injEq] at h
    rw [← h]
    exact ⟨rfl, rfl, [], by simp, rfl, fun _ => rfl⟩
  | node :: rest, v, v2, h => by
    simp only [VisitAll] at h
    cases hr : VisitWithFunctions node v with
    | none => simp [hr] at h
    | some v1 =>
      rw [hr] at h
      obtain ⟨a1, a2, new1, a3, a4, a5⟩ := VisitWithFunctions_completed node v v1 hr
      obtain ⟨b1, b2, new2, b3, b4, b5⟩ := VisitAll_completed rest v1 v2 h
      refine ⟨b1.trans a1, b2.trans a2, new1 ++ new2, ?_, ?_, ?_⟩
      · rw [b3, a3, List.append_assoc]
      · rw [conditionCalls_append, a4, b4]
        rfl
      · intro d
        rw [occultDepth_append new1 new2 d d (a5 d)]
        exact b5 d
end

mutual
theorem VisitWithFunctions_defined {Project : Type} :
    ∀ (node : MenuNode Project) (v : MenuItemVisitor Project),
      (∃ v1, VisitWithFunctions node v = some v1) ↔ wellPlaced node v.openMenus = true
  | MenuNode.CommandItem name, v => leaf_defined (MenuCall.AddItem name) id v
  | MenuNode.CommandGroupItem name, v => leaf_defined (MenuCall.AddItemList name) id v
  | MenuNode.SpecialItem fn, v => leaf_defined MenuCall.special fn v
  | MenuNode.MenuItem title items, v => by
    have ih := VisitAll_defined items (v.beginMenu title)
    simp only [wellPlaced]
    have hopen : (v.beginMenu title).openMenus = v.openMenus + 1 := rfl
    rw [hopen] at ih
    rw [← ih]
    simp only [VisitWithFunctions]
    cases VisitAll items (v.beginMenu title) <;> simp
  | MenuNode.ConditionalGroupItem condition items, v => by
    have ih := VisitAll_defined items (v.beginConditional condition)
    simp only [wellPlaced]
    have hopen : (v.beginConditional condition).openMenus = v.openMenus := rfl
    rw [hopen] at ih
    rw [← ih]
    simp only [VisitWithFunctions]
    cases hr : VisitAll items (v.beginConditional condition) with
    | none => simp
    | some v1 =>
      have hflags : v1.flags = condition v.mProject :: v.flags :=
        (VisitAll_completed items (v.beginConditional condition) v1 hr).1
      simp [MenuItemVisitor.endConditional, hflags]
  | MenuNode.MenuPart items, v => by
    have ih := VisitAll_defined items v
    simp only [wellPlaced]
    rw [← ih]
    simp only [VisitWithFunctions]
theorem VisitAll_defined {Project : Type} :
    ∀ (items : List (MenuNode Project)) (v : MenuItemVisitor Project),
      (∃ v1, VisitAll items v = some v1) ↔ wellPlacedAll items v.openMenus = true
  | [], v => by simp [VisitAll, wellPlacedAll]
  | node :: rest, v => by
    have ih1 := VisitWithFunctions_defined node v
    simp only [wellPlacedAll, Bool.and_eq_true]
    rw [← ih1]
    simp only [VisitAll]
    cases hr : VisitWithFunctions node v with
    | none => simp
    | some v1 =>
      have hopen : v1.openMenus = v.openMenus :=
        (VisitWithFunctions_completed node v v1 hr).2.1
      have ih2 := VisitAll_defined rest v1
      rw [hopen] at ih2
      rw [← ih2]
      simp
end

/-- C19: for every tree of nested menus, conditional groups, other groups and leaves,
and every state of the visitor, the depth-first walk runs to its end exactly when
every leaf lies within a menu; a leaf outside any menu stops it at `assert( false )`.
Every walk that runs to its end leaves the stack `flags` as it was, so at its initial
depth, evaluates the predicates as many times as the tree has conditional groups,
and makes `BeginOccultCommands` and `EndOccultCommands` calls that are balanced and
properly nested.  For every conditional group whose walk runs to its end: its
predicate is evaluated once, at the pre-visit; the children are then walked,
whatever the value; and the post-visit calls `EndOccultCommands` exactly when the
pre-visit called `BeginOccultCommands`, that is when the predicate was false at the
pre-visit, whatever the children made of the project in between. -/
theorem MenuItemVisitor_conditional_groups {Project : Type} (node : MenuNode Project)
    (condition : Project → Bool) (items : List (MenuNode Project))
    (v : MenuItemVisitor Project) :
    ((∃ v1, VisitWithFunctions node v = some v1) ↔ wellPlaced node v.openMenus = true) ∧
    (∀ v1, VisitWithFunctions node v = some v1 →
      v1.flags = v.flags ∧ v1.flags.length = v.flags.length ∧
      ∃ new, v1.calls = v.calls ++ new ∧
        conditionCalls new = conditionalGroups node ∧ ∀ d, occultDepth new d = some d) ∧
    (∀ v2, VisitWithFunctions (MenuNode.ConditionalGroupItem condition items) v = some v2 →
      ∃ v1 inner,
        VisitAll items (v.beginConditional condition) = some v1 ∧
        v1.flags = condition v.mProject :: v.flags ∧
        v1.calls =
          (v.calls ++ MenuCall.condition ::
            (if condition v.mProject then [] else [MenuCall.BeginOccultCommands])) ++ inner ∧
        conditionCalls inner = conditionalGroupsAll items ∧
        (∀ d, occultDepth inner d = some d) ∧
        v2.flags = v.flags ∧ v2.mProject = v1.mProject ∧
        v2.calls =
          v1.calls ++
            (if condition v.mProject then [] else [MenuCall.EndOccultCommands])) := by
  refine ⟨VisitWithFunctions_defined node v, ?_, ?_⟩
  · intro v1 h
    obtain ⟨h1, _, new, h3, h4, h5⟩ := VisitWithFunctions_completed node v v1 h
    exact ⟨h1, by rw [h1], new, h3, h4, h5⟩
  · intro v2 h
    simp only [VisitWithFunctions] at h
    cases hr : VisitAll items (v.beginConditional condition) with
    | none => simp [hr] at h
    | some v1 =>
      rw [hr] at h
      obtain ⟨h1, _, inner, h3, h4, h5⟩ :=
        VisitAll_completed items (v.beginConditional condition) v1 hr
      have hflags : v1.flags = condition v.mProject :: v.flags := h1
      have hcalls : v1.calls =
          (v.calls ++ MenuCall.condition ::
            (if condition v.mProject then [] else [MenuCall.BeginOccultCommands])) ++
            inner := by
        rw [h3]
        cases hb : condition v.mProject <;> simp [MenuItemVisitor.beginConditional, hb]
      simp only [MenuItemVisitor.endConditional, hflags, Option.some.injEq] at h
      refine ⟨v1, inner, rfl, hflags, hcalls, h4, h5, ?_, ?_, ?_⟩
      · rw [← h]
      · rw [← h]
      · rw [← h]
        cases hb : condition v.mProject <;> simp

/-- C19 (witness): a menu holding a conditional group whose predicate is the project
itself, with a special item that negates the project and a command; every leaf is
within the menu, so the walk runs to its end, with the properties of the theorem. -/
theorem MenuItemVisitor_conditional_groups_witness :
    ∃ v1,
      VisitWithFunctions
        (MenuNode.MenuItem "File"
          [MenuNode.ConditionalGroupItem (fun project : Bool => project)
            [MenuNode.SpecialItem not, MenuNode.CommandItem "Cut"]])
        { mProject := false, flags := [], openMenus := 0, calls := [] } = some v1 ∧
      v1.flags = [] ∧ v1.flags.length = ([] : List Bool).length ∧
      ∃ new, v1.calls = [] ++ new ∧
        conditionCalls new =
          conditionalGroups
            (MenuNode.MenuItem "File"
              [MenuNode.ConditionalGroupItem (fun project : Bool => project)
                [MenuNode.SpecialItem not, MenuNode.CommandItem "Cut"]]) ∧
        ∀ d, occultDepth new d = some d :=
  Exists.elim
    ((MenuItemVisitor_conditional_groups
      (MenuNode.MenuItem "File"
        [MenuNode.ConditionalGroupItem (fun project : Bool => project)
          [MenuNode.SpecialItem not, MenuNode.CommandItem "Cut"]])
      (fun project : Bool => project) []
      { mProject := false, flags := [], openMenus := 0, calls := [] }).1.2 (by decide))
    (fun v1 h => ⟨v1, h,
      (MenuItemVisitor_conditional_groups
        (MenuNode.MenuItem "File"
          [MenuNode.ConditionalGroupItem (fun project : Bool => project)
            [MenuNode.SpecialItem not, MenuNode.CommandItem "Cut"]])
        (fun project : Bool => project) []
        { mProject := false, flags := [], openMenus := 0, calls := [] }).2.1 v1 h⟩)

/-- An example of the walk: a menu holding a conditional group whose predicate is the
project itself, with a special item that negates the project and a command.  The
predicate is false at the pre-visit and true at the post-visit; the occult region is
closed all the same. -/
theorem MenuItemVisitor_example :
    (VisitWithFunctions
        (MenuNode.MenuItem "File"
          [MenuNode.ConditionalGroupItem (fun project : Bool => project)
            [MenuNode.SpecialItem not, MenuNode.CommandItem "Cut"]])
        { mProject := false, flags := [], openMenus := 0, calls := [] }).map
        (fun v => (v.mProject, v.flags, v.calls)) =
      some (true, [],
        [MenuCall.BeginMenu "File", MenuCall.condition, MenuCall.BeginOccultCommands,
         MenuCall.special, MenuCall.AddItem "Cut", MenuCall.EndOccultCommands,
         MenuCall.EndMenu]) := by
  decide

/-- An example of a walk that does not run to its end: a conditional group with a command
outside any menu.  The leaf visit finds no current menu and asserts. -/
theorem MenuItemVisitor_misplaced_leaf_example :
    (VisitWithFunctions
        (MenuNode.ConditionalGroupItem (fun project : Bool => project)
          [MenuNode.CommandItem "Cut"])
        { mProject := false, flags := [], openMenus := 0, calls := [] }).isSome = false ∧
    wellPlaced
        (MenuNode.ConditionalGroupItem (fun project : Bool => project)
          [MenuNode.CommandItem "Cut"]) 0 = false := by
  decide

/-! ## Theorems: the single pass of the recovery -/

/-- C21: the single pass can under-recover.  Flag 0 holds and flag 2 is required.
Enabler 0 needs flag 1 and turns condition 2 on; enabler 1 needs flag 0, offers
flags 1 and 2, and turns condition 1 on.  The first call passes over enabler 0,
invokes enabler 1 only, ends with flags 3 and returns false; a second call on the
resulting state and flags invokes enabler 0, ends with flags 7 and returns true. -/
theorem TryToMakeActionAllowed_under_recovers :
    ∃ (reg : Registry Nat) (m : MenuManager Nat) (flags flagsRqd : CommandFlag),
      (m.TryToMakeActionAllowed reg false flags flagsRqd).1 = false ∧
      callsSince m.trace (m.TryToMakeActionAllowed reg false flags flagsRqd).2.2.trace = [1] ∧
      ((m.TryToMakeActionAllowed reg false flags flagsRqd).2.2.TryToMakeActionAllowed reg false
        (m.TryToMakeActionAllowed reg false flags flagsRqd).2.1 flagsRqd).1 = true ∧
      ((m.TryToMakeActionAllowed reg false flags flagsRqd).2.2.TryToMakeActionAllowed reg false
        (m.TryToMakeActionAllowed reg false flags flagsRqd).2.1 flagsRqd).2.1 &&& flagsRqd =
        flagsRqd ∧
      callsSince (m.TryToMakeActionAllowed reg false flags flagsRqd).2.2.trace
        ((m.TryToMakeActionAllowed reg false flags flagsRqd).2.2.TryToMakeActionAllowed reg false
          (m.TryToMakeActionAllowed reg false flags flagsRqd).2.1 flagsRqd).2.2.trace = [0] :=
  ⟨threeFlags [conditionEnabler 2 4 4, conditionEnabler 1 6 2], freshManager 1 0 0 1, 1, 4,
    by decide⟩

/-- The instance behind the under-recovery, step by step: the first call returns false
with flags 3 after invoking enabler 1 only; the second returns true with flags 7
after invoking enabler 0. -/
theorem TryToMakeActionAllowed_two_calls_example :
    ((freshManager 1 0 0 1).TryToMakeActionAllowed
        (threeFlags [conditionEnabler 2 4 4, conditionEnabler 1 6 2]) false 1 4).1 = false ∧
    ((freshManager 1 0 0 1).TryToMakeActionAllowed
        (threeFlags [conditionEnabler 2 4 4, conditionEnabler 1 6 2]) false 1 4).2.1 = 3 ∧
    tryEnableCalls ((freshManager 1 0 0 1).TryToMakeActionAllowed
        (threeFlags [conditionEnabler 2 4 4, conditionEnabler 1 6 2]) false 1 4).2.2.trace =
      [1] ∧
    (((freshManager 1 0 0 1).TryToMakeActionAllowed
        (threeFlags [conditionEnabler 2 4 4, conditionEnabler 1 6 2]) false 1
        4).2.2.TryToMakeActionAllowed
      (threeFlags [conditionEnabler 2 4 4, conditionEnabler 1 6 2]) false 3 4).1 = true ∧
    (((freshManager 1 0 0 1).TryToMakeActionAllowed
        (threeFlags [conditionEnabler 2 4 4, conditionEnabler 1 6 2]) false 1
        4).2.2.TryToMakeActionAllowed
      (threeFlags [conditionEnabler 2 4 4, conditionEnabler 1 6 2]) false 3 4).2.1 = 7 ∧
    tryEnableCalls (((freshManager 1 0 0 1).TryToMakeActionAllowed
        (threeFlags [conditionEnabler 2 4 4, conditionEnabler 1 6 2]) false 1
        4).2.2.TryToMakeActionAllowed
      (threeFlags [conditionEnabler 2 4 4, conditionEnabler 1 6 2]) false 3 4).2.2.trace =
      [1, 0] := by
  decide

/-! ## Theorems: the two stacks stay parallel -/

namespace MenuTable

theorem separatorDefined_of_equal_depths (v : VisitorBase)
    (h : v.needSeparator.length = v.firstItem.length) : v.separatorDefined := by
  intro hne he
  apply hne
  apply List.eq_nil_of_length_eq_zero
  rw [h, he]
  rfl

theorem run_matched (calls : List Call) :
    ∀ (v : VisitorBase) (depth final : Nat),
      v.needSeparator.length = depth → v.firstItem.length = depth →
      openScopes calls depth = some final →
      ∃ rs v1, run calls v = some (rs, v1) ∧ v1.needSeparator.length = final ∧
        v1.firstItem.length = final := by
  induction calls with
  | nil =>
    intro v depth final hn hf h
    simp only [openScopes, Option.some.injEq] at h
    exact ⟨[], v, rfl, by omega, by omega⟩
  | cons c rest ih =>
    intro v depth final hn hf h
    have hwf : v.separatorDefined := separatorDefined_of_equal_depths v (by omega)
    cases c with
    | ShouldBeginGroup p =>
      simp only [openScopes] at h
      obtain ⟨⟨r, v1⟩, hs⟩ := step_ShouldBeginGroup_defined p v hwf
      have d := step_ShouldBeginGroup_depths p v v1 r hs
      obtain ⟨rs, v2, hr, e1, e2⟩ := ih v1 depth final (by omega) (by omega) h
      exact ⟨r :: rs, v2, (run_cons_eq_some _ _ _ _ _).2 ⟨r, v1, rs, hs, hr, rfl⟩, e1, e2⟩
    | AfterBeginGroup p =>
      simp only [openScopes] at h
      have d := AfterBeginGroup_depths p v
      obtain ⟨rs, v2, hr, e1, e2⟩ := ih (v.AfterBeginGroup p) (depth + pushed p) final
        (by omega) (by omega) h
      exact ⟨false :: rs, v2,
        (run_cons_eq_some _ _ _ _ _).2 ⟨false, v.AfterBeginGroup p, rs, rfl, hr, rfl⟩, e1, e2⟩
    | ShouldEndGroup p =>
      simp only [openScopes] at h
      by_cases hle : pushed p ≤ depth
      · rw [if_pos hle] at h
        obtain ⟨⟨r, v1⟩, hs⟩ := step_ShouldEndGroup_defined p v (by omega) (by omega)
        have d := step_ShouldEndGroup_depths p v v1 r hs
        obtain ⟨rs, v2, hr, e1, e2⟩ := ih v1 (depth - pushed p) final (by omega) (by omega) h
        exact ⟨r :: rs, v2, (run_cons_eq_some _ _ _ _ _).2 ⟨r, v1, rs, hs, hr, rfl⟩, e1, e2⟩
      · rw [if_neg hle] at h
        exact absurd h (by simp)
    | ShouldDoSeparator =>
      simp only [openScopes] at h
      obtain ⟨⟨r, v1⟩, hs⟩ := ShouldDoSeparator_defined v hwf
      have d := ShouldDoSeparator_depths v v1 r hs
      have hstep : step Call.ShouldDoSeparator v = some (r, v1) := hs
      obtain ⟨rs, v2, hr, e1, e2⟩ := ih v1 depth final (by omega) (by omega) h
      exact ⟨r :: rs, v2, (run_cons_eq_some _ _ _ _ _).2 ⟨r, v1, rs, hstep, hr, rfl⟩, e1, e2⟩

theorem openScopes_prefix (front back : List Call) :
    ∀ (depth final : Nat), openScopes (front ++ back) depth = some final →
      ∃ middle, openScopes front depth = some middle := by
  induction front with
  | nil => exact fun depth _ _ => ⟨depth, rfl⟩
  | cons c rest ih =>
    intro depth final h
    cases c with
    | ShouldBeginGroup p =>
      simp only [List.cons_append, openScopes] at h ⊢
      exact ih _ _ h
    | AfterBeginGroup p =>
      simp only [List.cons_append, openScopes] at h ⊢
      exact ih _ _ h
    | ShouldEndGroup p =>
      simp only [List.cons_append, openScopes] at h ⊢
      by_cases hle : pushed p ≤ depth
      · rw [if_pos hle] at h ⊢
        exact ih _ _ h
      · rw [if_neg hle] at h
        exact absurd h (by simp)
    | ShouldDoSeparator =>
      simp only [List.cons_append, openScopes] at h ⊢
      exact ih _ _ h

/-- C22: starting from two empty stacks, a sequence of visitor calls, in any order and
with any properties, in which every `ShouldEndGroup` for `Whole` or `Extension` has
an earlier `AfterBeginGroup` for `Whole` or `Extension` of its own, runs to its end
without reading or popping an empty vector: no `ShouldDoSeparator` reads
`firstItem.back()` of an empty `firstItem`, and no `ShouldEndGroup` pops an empty
stack.  After the sequence, and after every initial part of it, `needSeparator` and
`firstItem` have the same length, the number of scopes that are open. -/
theorem stacks_stay_parallel (calls : List Call) (final : Nat)
    (hmatched : openScopes calls 0 = some final) :
    (∃ rs v, run calls { needSeparator := [], firstItem := [] } = some (rs, v) ∧
      v.needSeparator.length = final ∧ v.firstItem.length = final) ∧
    ∀ front back, calls = front ++ back →
      ∃ rs v, run front { needSeparator := [], firstItem := [] } = some (rs, v) ∧
        v.needSeparator.length = v.firstItem.length ∧
        openScopes front 0 = some v.needSeparator.length := by
  refine ⟨run_matched calls _ 0 final rfl rfl hmatched, ?_⟩
  intro front back hsplit
  rw [hsplit] at hmatched
  obtain ⟨middle, hm⟩ := openScopes_prefix front back 0 final hmatched
  obtain ⟨rs, v, hr, e1, e2⟩ := run_matched front { needSeparator := [], firstItem := [] }
    0 middle rfl rfl hm
  exact ⟨rs, v, hr, by omega, by rw [hm, e1]⟩

/-- C22 (witness): a menu with an item and a section, then an extension group that
is left open at the end. -/
theorem stacks_stay_parallel_witness :
    (∃ rs v,
      run [Call.ShouldBeginGroup (some Properties.Whole),
           Call.AfterBeginGroup (some Properties.Whole),
           Call.ShouldDoSeparator,
           Call.ShouldEndGroup (some Properties.Section),
           Call.ShouldEndGroup (some Properties.Whole),
           Call.ShouldBeginGroup (some Properties.Extension),
           Call.AfterBeginGroup (some Properties.Extension),
           Call.ShouldDoSeparator]
        { needSeparator := [], firstItem := [] } = some (rs, v) ∧
      v.needSeparator.length = 1 ∧ v.firstItem.length = 1) ∧
    ∀ front back,
      [Call.ShouldBeginGroup (some Properties.Whole),
       Call.AfterBeginGroup (some Properties.Whole),
       Call.ShouldDoSeparator,
       Call.ShouldEndGroup (some Properties.Section),
       Call.ShouldEndGroup (some Properties.Whole),
       Call.ShouldBeginGroup (some Properties.Extension),
       Call.AfterBeginGroup (some Properties.Extension),
       Call.ShouldDoSeparator] = front ++ back →
      ∃ rs v, run front { needSeparator := [], firstItem := [] } = some (rs, v) ∧
        v.needSeparator.length = v.firstItem.length ∧
        openScopes front 0 = some v.needSeparator.length :=
  stacks_stay_parallel _ 1 (by decide)

/-- An unmatched close, for contrast: `ShouldEndGroup(Whole)` on two empty stacks pops an
empty vector, and the scope count says so. -/
theorem unmatched_close_example :
    openScopes [Call.ShouldEndGroup (some Properties.Whole)] 0 = none ∧
    run [Call.ShouldEndGroup (some Properties.Whole)]
      { needSeparator := [], firstItem := [] } = none := by
  decide

end MenuTable
